import Mathlib

/-!
# OPD token allocation engine

A shallow embedding of `services/allocationService.js`, `models/Slot.js`,
`models/Token.js` and `utils/priority.js`, over the tables declared in
`scripts/setup.js`.

The store is a value of type `Db`.  Every model function of the source issues
its statement through `pool.query`, that is on a pooled connection of its own,
so each statement takes effect at once; the `BEGIN` / `COMMIT` / `ROLLBACK`
that the service sends on the separate `client` connection enclose no
statement of the operation.  An operation therefore returns the store as its
statements left it, together with its result.

Rows that compare equal under an `ORDER BY` are returned in an order SQL does
not fix; a `Planner` supplies that order.
-/

namespace OPD

/-! ## Tables (scripts/setup.js) -/

/-- The enum `token_status`. -/
inductive Status
  | CONFIRMED
  | WAITING
  | CANCELLED
deriving DecidableEq, Repr

/-- A row of `slots`.  `start_time` stands for the ordering key of the column
(the source only ever compares it); `end_time` is never read by the engine.
`capacity` is a signed INTEGER with no constraint of its own: a negative value
is accepted.  `used` is never negative, by the first half of `check_capacity`. -/
structure Slot where
  id : Nat
  doctor_id : Nat
  start_time : Nat
  capacity : Int
  used : Nat
deriving DecidableEq, Repr

/-- A row of `tokens`.  `priority` holds the value of the column, a number with
two decimals; `created_at` is the store's `CURRENT_TIMESTAMP` at insert;
`updated_at` is never read. -/
structure Token where
  id : Nat
  patient : String
  doctor_id : Nat
  slot_id : Option Nat
  type : String
  priority : ℚ
  status : Status
  created_at : Nat
deriving DecidableEq, Repr

/-- The store: both tables, and `tokens_id_seq`, an id above every id handed
out, which the next insert takes.  The values that the sequence of the store
skips (a refused insert may use one up) are not represented: the engine only
ever compares ids for equality. -/
structure Db where
  slots : List Slot
  tokens : List Token
  tokens_id_seq : Nat
deriving DecidableEq, Repr

/-- The labels of the enum `token_type`. -/
def token_type : List String := ["EMERGENCY", "PRIORITY", "FOLLOWUP", "ONLINE", "WALKIN"]

/-- The order in which the store hands the rows of a table to a query.  Any
rearrangement of the rows is possible. -/
structure Planner where
  scanSlots : List Slot → List Slot
  scanTokens : List Token → List Token
  scanSlots_perm : ∀ l, (scanSlots l).Perm l
  scanTokens_perm : ∀ l, (scanTokens l).Perm l

/-- One plan: rows come in the order in which the model lists the table (the
order of insertion, an update keeping the place of its row).  It stands for no
particular plan of the store. -/
def Planner.heapOrder : Planner :=
  ⟨fun l => l, fun l => l, fun _ => List.Perm.refl _, fun _ => List.Perm.refl _⟩

/-- Another plan: rows come in the reverse of that order. -/
def Planner.backward : Planner :=
  ⟨List.reverse, List.reverse, List.reverse_perm, List.reverse_perm⟩

/-- The clock readings of one request: `createdAt` is `new Date()` in the
service, `now` is `Date.now()` inside `calculatePriority` (both in
milliseconds), `dbNow` is the store's `CURRENT_TIMESTAMP`. -/
structure Clock where
  createdAt : Int
  now : Int
  dbNow : Nat
deriving DecidableEq, Repr

/-! ## utils/priority.js -/

/-- The table `BASE_PRIORITY`. -/
def BASE_PRIORITY : List (String × ℚ) :=
  [("EMERGENCY", 100), ("PRIORITY", 80), ("FOLLOWUP", 60), ("ONLINE", 40), ("WALKIN", 20)]

/-- Property names that the object literal `BASE_PRIORITY` inherits from
`Object.prototype`: indexing with one of them yields a function or an object. -/
def objectPrototypeKeys : List String :=
  ["constructor", "__proto__", "hasOwnProperty", "isPrototypeOf", "propertyIsEnumerable",
   "toLocaleString", "toString", "valueOf", "__defineGetter__", "__defineSetter__",
   "__lookupGetter__", "__lookupSetter__"]

/-- The expression `BASE_PRIORITY[type] || 0`.  `none` stands for a value that
is not a number: an inherited member is truthy, so `||` keeps it. -/
def getBasePriority (type : String) : Option ℚ :=
  match BASE_PRIORITY.lookup type with
  | some b => some b
  | none => if type ∈ objectPrototypeKeys then none else some 0

/-- The function `calculatePriority(type, createdAt)`, with the reading `now`
of `Date.now()` made explicit; arithmetic is exact. -/
def calculatePriority (type : String) (createdAt now : Int) : Option ℚ :=
  let waitingTimeMs : ℚ := ((now - createdAt : Int) : ℚ)
  let waitingTimeMinutes : ℚ := waitingTimeMs / (1000 * 60)
  let waitingBonus : ℚ := waitingTimeMinutes / 5
  (getBasePriority type).map (fun basePriority => basePriority + waitingBonus)

/-! ## models/Slot.js -/

/-- The ordering `ORDER BY start_time`. -/
def Slot.byStart (a b : Slot) : Prop := a.start_time ≤ b.start_time

instance : DecidableRel Slot.byStart := fun a b => Nat.decLe a.start_time b.start_time

/-- The query `Slot.findById`. -/
def Slot.findById (db : Db) (id : Nat) : Option Slot :=
  db.slots.find? (fun s => s.id = id)

/-- The query `Slot.findByDoctorId`. -/
def Slot.findByDoctorId (pl : Planner) (db : Db) (doctorId : Nat) : List Slot :=
  ((pl.scanSlots db.slots).filter (fun s => s.doctor_id = doctorId)).insertionSort Slot.byStart

/-- The query `Slot.findNextSlot`. -/
def Slot.findNextSlot (pl : Planner) (db : Db) (doctorId afterStartTime : Nat) : Option Slot :=
  (((pl.scanSlots db.slots).filter
      (fun s => s.doctor_id = doctorId ∧ afterStartTime < s.start_time)).insertionSort
    Slot.byStart).head?

/-- The statement `Slot.incrementUsage`.  The update is rejected when a row it
touches would break `check_capacity` (`used <= capacity + 5`). -/
def Slot.incrementUsage (db : Db) (id : Nat) : Except String Db :=
  if db.slots.any (fun s => s.id = id ∧ s.capacity + 5 < s.used + 1) then
    .error "new row for relation slots violates check constraint check_capacity"
  else
    .ok { db with slots := db.slots.map (fun s => if s.id = id then { s with used := s.used + 1 } else s) }

/-- The statement `Slot.decrementUsage` (`WHERE id = $1 AND used > 0`). -/
def Slot.decrementUsage (db : Db) (id : Nat) : Db :=
  { db with
    slots := db.slots.map (fun s => if s.id = id ∧ 0 < s.used then { s with used := s.used - 1 } else s) }

/-! ## models/Token.js -/

/-- The ordering `ORDER BY priority ASC`. -/
def Token.byPriorityAsc (a b : Token) : Prop := a.priority ≤ b.priority

/-- The ordering `ORDER BY priority DESC`. -/
def Token.byPriorityDesc (a b : Token) : Prop := b.priority ≤ a.priority

instance : DecidableRel Token.byPriorityAsc := fun a b => inferInstanceAs (Decidable (a.priority ≤ b.priority))

instance : DecidableRel Token.byPriorityDesc := fun a b => inferInstanceAs (Decidable (b.priority ≤ a.priority))

/-- The argument of `Token.create`.  `priority` is `none` when the value
computed by the caller is not a number. -/
structure NewToken where
  patient : String
  doctorId : Nat
  slotId : Option Nat
  type : String
  priority : Option ℚ
  status : Status

/-- A slot id as a JavaScript condition sees it: null and 0 are falsy. -/
def truthyId (slotId : Option Nat) : Option Nat :=
  slotId.bind (fun s => if s = 0 then none else some s)

/-- What a column of type VARCHAR(255) stores for a string that is assigned to
it: the string when it has at most 255 characters, its first 255 characters
when every character beyond them is a space, and nothing (the statement is
refused) otherwise. -/
def varchar_255 (s : String) : Option String :=
  if s.length ≤ 255 then some s
  else if (s.drop 255).all (fun c => c = ' ') then some (s.take 255)
  else none

/-- The hundredths that a column of scale 2 keeps of a number: the nearest
count of hundredths, a tie going away from zero. -/
def roundCents (x : ℚ) : Int :=
  if 0 ≤ x then ⌊x * 100 + 1 / 2⌋ else -⌊-x * 100 + 1 / 2⌋

/-- What a column of type NUMERIC(10, 2) stores for a number: the number
rounded to two decimals, and nothing (the statement is refused) when the
rounded value needs more than eight digits before the point. -/
def numeric_10_2 (x : ℚ) : Option ℚ :=
  if (roundCents x).natAbs < 10000000000 then some ((roundCents x : ℚ) / 100) else none

/-- The statement `Token.create`.  The values are bound in the order of the
parameters: a `patient` with a NUL character is not valid text, `type` must be
a label of `token_type`, `priority` must be numeric.  The row is then built
column by column: `id` takes the next value of its sequence, which ends at the
largest INTEGER; `patient` must fit VARCHAR(255); `priority` must fit
NUMERIC(10, 2), which rounds it.  The column `slot_id` receives
`slotId || null`; the service always passes a status, so
`status || 'CONFIRMED'` is that status.  The row returned is the row stored. -/
def Token.create (db : Db) (dbNow : Nat) (data : NewToken) : Except String (Db × Token) :=
  if Char.ofNat 0 ∈ data.patient.toList then
    .error "invalid byte sequence for encoding UTF8: 0x00"
  else if data.type ∈ token_type then
    match data.priority with
    | none => .error "invalid input syntax for type numeric"
    | some priority =>
      if 2147483647 < db.tokens_id_seq then
        .error "nextval: reached maximum value of sequence tokens_id_seq (2147483647)"
      else
        match varchar_255 data.patient with
        | none => .error "value too long for type character varying(255)"
        | some patient =>
          match numeric_10_2 priority with
          | none => .error "numeric field overflow"
          | some stored =>
            let row : Token :=
              { id := db.tokens_id_seq
                patient := patient
                doctor_id := data.doctorId
                slot_id := truthyId data.slotId
                type := data.type
                priority := stored
                status := data.status
                created_at := dbNow }
            .ok ({ db with tokens := db.tokens ++ [row], tokens_id_seq := db.tokens_id_seq + 1 }, row)
  else
    .error "invalid input value for enum token_type"

/-- The query `Token.findById`, for an id that is a value of the column type
INTEGER. -/
def Token.findById (db : Db) (id : Nat) : Option Token :=
  db.tokens.find? (fun t => t.id = id)

/-- The query `Token.findLowestPriorityInSlot`. -/
def Token.findLowestPriorityInSlot (pl : Planner) (db : Db) (slotId : Nat) : Option Token :=
  (((pl.scanTokens db.tokens).filter
      (fun t => t.slot_id = some slotId ∧ t.status = Status.CONFIRMED)).insertionSort
    Token.byPriorityAsc).head?

/-- The query `Token.findWaitingByDoctorId`. -/
def Token.findWaitingByDoctorId (pl : Planner) (db : Db) (doctorId : Nat) : List Token :=
  ((pl.scanTokens db.tokens).filter
      (fun t => t.doctor_id = doctorId ∧ t.status = Status.WAITING)).insertionSort
    Token.byPriorityDesc

/-- The statement `Token.update` as the service calls it: always with both
`slotId` (possibly null) and `status`, never with `priority`. -/
def Token.update (db : Db) (id : Nat) (slotId : Option Nat) (status : Status) : Db :=
  { db with
    tokens := db.tokens.map (fun t => if t.id = id then { t with slot_id := slotId, status := status } else t) }

/-- The statement `Token.cancel`: the status changes, `slot_id` is kept. -/
def Token.cancel (db : Db) (id : Nat) : Db :=
  { db with
    tokens := db.tokens.map (fun t => if t.id = id then { t with status := Status.CANCELLED } else t) }

/-! ## services/allocationService.js -/

/-- The request of `allocateToken`. -/
structure BookRequest where
  patient : String
  doctorId : Nat
  type : String
deriving DecidableEq, Repr

/-- The request of `insertEmergency`. -/
structure EmergencyRequest where
  patient : String
  doctorId : Nat
deriving DecidableEq, Repr

/-- The function `allocateToken`: the store it leaves and what it returns or
throws. -/
def allocateToken (pl : Planner) (clk : Clock) (db : Db) (data : BookRequest) :
    Db × Except String Token :=
  let slots := Slot.findByDoctorId pl db data.doctorId
  if slots.length = 0 then
    (db, .error "No slots available for this doctor")
  else
    let priority := calculatePriority data.type clk.createdAt clk.now
    match slots.find? (fun slot => (slot.used : Int) < slot.capacity) with
    | some slot =>
      match Token.create db clk.dbNow
          ⟨data.patient, data.doctorId, some slot.id, data.type, priority, Status.CONFIRMED⟩ with
      | .error e => (db, .error e)
      | .ok (db1, token) =>
        match Slot.incrementUsage db1 slot.id with
        | .error e => (db1, .error e)
        | .ok db2 => (db2, .ok token)
    | none =>
      match Token.create db clk.dbNow
          ⟨data.patient, data.doctorId, none, data.type, priority, Status.WAITING⟩ with
      | .error e => (db, .error e)
      | .ok (db1, token) => (db1, .ok token)

/-- A statement of the cascade that writes to the store. -/
inductive Step
  | create (tokenId : Nat)
  | seat (slotId tokenId : Nat)
  | increment (slotId : Nat)
  | evict (slotId tokenId : Nat)
  | decrement (slotId : Nat)
  | park (tokenId : Nat)
deriving DecidableEq, Repr

/-- How a run of the cascade ends: it returns, it throws, or the recursion
budget of the model is used up. -/
inductive Outcome (α : Type)
  | ok (value : α)
  | error (message : String)
  | outOfFuel
deriving DecidableEq, Repr

/-- A run of the cascade: the store it leaves, how it ends, and every write it
made, each with the store right after it. -/
structure Run (α : Type) where
  db : Db
  result : Outcome α
  log : List (Step × Db)

/-- The function `rippleInsert(slot, token, client)`.  The first argument
bounds the depth of the recursion. -/
def rippleInsert (pl : Planner) : Nat → Db → Option Slot → Token → Run Unit
  | 0, db, _, _ => ⟨db, .outOfFuel, []⟩
  | _ + 1, db, none, token =>
    let db1 := Token.update db token.id none Status.WAITING
    ⟨db1, .ok (), [(.park token.id, db1)]⟩
  | fuel + 1, db, some slot, token =>
    let db1 := Token.update db token.id (some slot.id) Status.CONFIRMED
    match Slot.incrementUsage db1 slot.id with
    | .error e => ⟨db1, .error e, [(.seat slot.id token.id, db1)]⟩
    | .ok db2 =>
      let seated := [(Step.seat slot.id token.id, db1), (Step.increment slot.id, db2)]
      match Slot.findById db2 slot.id with
      | none => ⟨db2, .error "Cannot read properties of undefined (reading used)", seated⟩
      | some updatedSlot =>
        if updatedSlot.capacity < updatedSlot.used then
          match Token.findLowestPriorityInSlot pl db2 slot.id with
          | none => ⟨db2, .error "Slot overcapacity but no victim found", seated⟩
          | some victim =>
            let db3 := Token.update db2 victim.id none Status.WAITING
            let db4 := Slot.decrementUsage db3 slot.id
            let nextSlot := Slot.findNextSlot pl db4 slot.doctor_id slot.start_time
            let rest := rippleInsert pl fuel db4 nextSlot victim
            ⟨rest.db, rest.result,
              seated ++ [(Step.evict slot.id victim.id, db3), (Step.decrement slot.id, db4)] ++ rest.log⟩
        else
          ⟨db2, .ok (), seated⟩

/-- The function `insertEmergency`.  It returns the row that `Token.create`
returned. -/
def insertEmergency (pl : Planner) (clk : Clock) (db : Db) (data : EmergencyRequest) : Run Token :=
  match Slot.findByDoctorId pl db data.doctorId with
  | [] => ⟨db, .error "No slots available for this doctor", []⟩
  | slot0 :: others =>
    let priority := calculatePriority "EMERGENCY" clk.createdAt clk.now
    match Token.create db clk.dbNow
        ⟨data.patient, data.doctorId, none, "EMERGENCY", priority, Status.WAITING⟩ with
    | .error e => ⟨db, .error e, []⟩
    | .ok (db1, token) =>
      let rest := rippleInsert pl ((slot0 :: others).length + 1) db1 (some slot0) token
      match rest.result with
      | .ok _ => ⟨rest.db, .ok token, (Step.create token.id, db1) :: rest.log⟩
      | .error e => ⟨rest.db, .error e, (Step.create token.id, db1) :: rest.log⟩
      | .outOfFuel => ⟨rest.db, .outOfFuel, (Step.create token.id, db1) :: rest.log⟩

/-- The function `cancelToken`. -/
def cancelToken (pl : Planner) (db : Db) (tokenId : Nat) : Db × Except String String :=
  match Token.findById db tokenId with
  | none => (db, .error "Token not found")
  | some token =>
    if token.status = Status.CANCELLED then
      (db, .error "Token already cancelled")
    else
      match (if token.status = Status.CONFIRMED then truthyId token.slot_id else none) with
      | some slotId =>
        let db1 := Slot.decrementUsage db slotId
        match Token.findWaitingByDoctorId pl db1 token.doctor_id with
        | [] => (Token.cancel db1 tokenId, .ok "Token cancelled successfully")
        | toPromote :: _ =>
          let db2 := Token.update db1 toPromote.id (some slotId) Status.CONFIRMED
          match Slot.incrementUsage db2 slotId with
          | .error e => (db2, .error e)
          | .ok db3 => (Token.cancel db3 tokenId, .ok "Token cancelled successfully")
      | none => (Token.cancel db tokenId, .ok "Token cancelled successfully")

/-! ## Invariants -/

/-- The constraints that `scripts/setup.js` puts on the tables. -/
structure Schema (db : Db) : Prop where
  slot_pk : (db.slots.map (fun s => s.id)).Nodup
  token_pk : (db.tokens.map (fun t => t.id)).Nodup
  slot_serial : ∀ s ∈ db.slots, s.id ≠ 0
  token_seq : ∀ t ∈ db.tokens, t.id < db.tokens_id_seq
  slot_fk : ∀ t ∈ db.tokens, ∀ k ∈ t.slot_id, ∃ s ∈ db.slots, s.id = k
  check_capacity : ∀ s ∈ db.slots, s.used ≤ s.capacity + 5

/-- Number of CONFIRMED tokens whose `slot_id` is the given slot. -/
def occupancy (db : Db) (slotId : Nat) : Nat :=
  db.tokens.countP (fun t => t.status = Status.CONFIRMED ∧ t.slot_id = some slotId)

/-- No slot is used beyond its capacity. -/
def Bounded (db : Db) : Prop := ∀ s ∈ db.slots, s.used ≤ s.capacity

/-- Every `used` counter equals the occupancy of its slot. -/
def Counted (db : Db) : Prop := ∀ s ∈ db.slots, s.used = occupancy db s.id

/-- Token and slot records agree. -/
structure Consistent (db : Db) : Prop where
  confirmed_seated : ∀ t ∈ db.tokens, t.status = Status.CONFIRMED → t.slot_id ≠ none
  waiting_unseated : ∀ t ∈ db.tokens, t.status = Status.WAITING → t.slot_id = none
  used_counts : Counted db

/-- Every token that names a slot has the owner of that slot. -/
def OwnersAgree (db : Db) : Prop :=
  ∀ t ∈ db.tokens, ∀ s ∈ db.slots, t.slot_id = some s.id → t.doctor_id = s.doctor_id

/-- Number of writes in a log that seat a token into a slot. -/
def seats (log : List (Step × Db)) : Nat :=
  log.countP (fun e => match e.1 with
    | Step.seat _ _ => true
    | _ => false)

/-- Number of slots of a doctor that start after the given time. -/
def laterSlots (db : Db) (doctorId afterStartTime : Nat) : Nat :=
  db.slots.countP (fun s => s.doctor_id = doctorId ∧ afterStartTime < s.start_time)

/-- The columns of a slot that no statement of the engine writes. -/
def Slot.key (s : Slot) : Nat × Nat × Nat × Int := (s.id, s.doctor_id, s.start_time, s.capacity)

deriving instance DecidableEq for Except

instance (db : Db) : Decidable (Bounded db) := by unfold Bounded; infer_instance

instance (db : Db) : Decidable (Counted db) := by unfold Counted; infer_instance

instance (db : Db) : Decidable (OwnersAgree db) := by unfold OwnersAgree; infer_instance

/-! ## Sample stores -/

/-- A store with one doctor (id 7) whose two slots are full, and one token on
the waiting list. -/
def sampleDb : Db :=
  ⟨[⟨1, 7, 900, 1, 1⟩, ⟨2, 7, 1000, 1, 1⟩],
   [⟨1, "a", 7, some 1, "PRIORITY", 80, Status.CONFIRMED, 10⟩,
    ⟨2, "b", 7, some 2, "FOLLOWUP", 60, Status.CONFIRMED, 20⟩,
    ⟨3, "c", 7, none, "WALKIN", 20, Status.WAITING, 25⟩], 4⟩

/-- Clock readings of a request served without delay. -/
def sampleClock : Clock := ⟨5, 5, 30⟩

/-- Number of CONFIRMED tokens of an owner. -/
def confirmedCount (db : Db) (doctorId : Nat) : Nat :=
  db.tokens.countP (fun t => t.doctor_id = doctorId ∧ t.status = Status.CONFIRMED)

/-- Number of WAITING tokens of an owner. -/
def waitingCount (db : Db) (doctorId : Nat) : Nat :=
  db.tokens.countP (fun t => t.doctor_id = doctorId ∧ t.status = Status.WAITING)

/-- Whether the log ends a cascade by leaving its last token on the waiting
list (the base case of `rippleInsert`). -/
def parked (log : List (Step × Db)) : Bool :=
  log.any (fun e => match e.1 with
    | Step.park _ => true
    | _ => false)

/-- A store where the only slot sits at the ceiling that `check_capacity`
allows (`used = capacity + 5`), with six CONFIRMED tokens in it. -/
def overfullDb : Db :=
  ⟨[⟨1, 7, 900, 1, 6⟩],
   [⟨1, "a", 7, some 1, "WALKIN", 20, Status.CONFIRMED, 10⟩,
    ⟨2, "b", 7, some 1, "WALKIN", 20, Status.CONFIRMED, 11⟩,
    ⟨3, "c", 7, some 1, "WALKIN", 20, Status.CONFIRMED, 12⟩,
    ⟨4, "d", 7, some 1, "WALKIN", 20, Status.CONFIRMED, 13⟩,
    ⟨5, "e", 7, some 1, "WALKIN", 20, Status.CONFIRMED, 14⟩,
    ⟨6, "f", 7, some 1, "WALKIN", 20, Status.CONFIRMED, 15⟩], 7⟩

/-- The order that the tie-break rule of the specification describes:
priority descending, then `created_at` ascending, then id ascending. -/
def Token.specOrder (a b : Token) : Prop :=
  b.priority < a.priority ∨
    (a.priority = b.priority ∧
      (a.created_at < b.created_at ∨ (a.created_at = b.created_at ∧ a.id ≤ b.id)))

instance : DecidableRel Token.specOrder := fun a b => by unfold Token.specOrder; infer_instance

/-- The victim that the specification names for a slot: the last of its
CONFIRMED tokens under `Token.specOrder`. -/
def specVictim (db : Db) (slotId : Nat) : Option Token :=
  ((db.tokens.filter (fun t => t.slot_id = some slotId ∧ t.status = Status.CONFIRMED)).insertionSort
    Token.specOrder).getLast?

/-- A store with one full slot of capacity 2 whose two CONFIRMED tokens have
the same priority; token 1 was created before token 2. -/
def tieDb : Db :=
  ⟨[⟨1, 7, 900, 2, 2⟩],
   [⟨1, "a", 7, some 1, "WALKIN", 20, Status.CONFIRMED, 10⟩,
    ⟨2, "b", 7, some 1, "WALKIN", 20, Status.CONFIRMED, 20⟩], 3⟩

/-- The store `tieDb` right after an emergency token was seated in its slot. -/
def tieDbSeated : Db :=
  ⟨[⟨1, 7, 900, 2, 3⟩],
   [⟨1, "a", 7, some 1, "WALKIN", 20, Status.CONFIRMED, 10⟩,
    ⟨2, "b", 7, some 1, "WALKIN", 20, Status.CONFIRMED, 20⟩,
    ⟨3, "e", 7, some 1, "EMERGENCY", 100, Status.CONFIRMED, 30⟩], 4⟩

/-! ## The two-slot scenario -/

/-- The data of the two-slot scenario: an owner, two slots of capacity 1 and
two PRIORITY tokens, with the ids, start times and creation times left open. -/
structure Scenario where
  doctorId : Nat
  slot1 : Nat
  slot2 : Nat
  start1 : Nat
  start2 : Nat
  token1 : Nat
  token2 : Nat
  created1 : Nat
  created2 : Nat
  seq : Nat
  patient1 : String
  patient2 : String

/-- What the scenario asks of its data: two different slots, the first one
earlier; two different tokens with ids the sequence has handed out, the first
one created earlier. -/
structure Scenario.Valid (σ : Scenario) : Prop where
  slots_ne : σ.slot1 ≠ σ.slot2
  starts_lt : σ.start1 < σ.start2
  tokens_ne : σ.token1 ≠ σ.token2
  token1_lt : σ.token1 < σ.seq
  token2_lt : σ.token2 < σ.seq
  created_lt : σ.created1 < σ.created2

/-- The first slot of the scenario with a given `used`. -/
def Scenario.s1 (σ : Scenario) (used : Nat) : Slot := ⟨σ.slot1, σ.doctorId, σ.start1, 1, used⟩

/-- The second slot of the scenario with a given `used`. -/
def Scenario.s2 (σ : Scenario) (used : Nat) : Slot := ⟨σ.slot2, σ.doctorId, σ.start2, 1, used⟩

/-- The first PRIORITY token of the scenario with a given seat and status. -/
def Scenario.p1 (σ : Scenario) (slotId : Option Nat) (status : Status) : Token :=
  ⟨σ.token1, σ.patient1, σ.doctorId, slotId, "PRIORITY", 80, status, σ.created1⟩

/-- The second PRIORITY token of the scenario with a given seat and status. -/
def Scenario.p2 (σ : Scenario) (slotId : Option Nat) (status : Status) : Token :=
  ⟨σ.token2, σ.patient2, σ.doctorId, slotId, "PRIORITY", 80, status, σ.created2⟩

/-- The emergency token that the scenario adds, with a given seat and status. -/
def Scenario.em (σ : Scenario) (patient : String) (priority : ℚ) (createdAt : Nat)
    (slotId : Option Nat) (status : Status) : Token :=
  ⟨σ.seq, patient, σ.doctorId, slotId, "EMERGENCY", priority, status, createdAt⟩

/-- The store of the scenario: both slots full, each holding one of the two
PRIORITY tokens, and nothing else. -/
def Scenario.db (σ : Scenario) : Db :=
  ⟨[σ.s1 1, σ.s2 1],
   [σ.p1 (some σ.slot1) Status.CONFIRMED, σ.p2 (some σ.slot2) Status.CONFIRMED], σ.seq⟩

/-- The scenario with ids 1 and 2 for the slots and for the tokens. -/
def sampleScenario : Scenario := ⟨7, 1, 2, 900, 1000, 1, 2, 10, 20, 3, "a", "b"⟩

/-- The function `comparePriority(token1, token2)`. -/
def comparePriority (token1 token2 : Token) : ℚ := token2.priority - token1.priority

/-- The base score that the specification gives each type: the table, and 0
for every other type. -/
def specBase (type : String) : ℚ :=
  if type = "EMERGENCY" then 100
  else if type = "PRIORITY" then 80
  else if type = "FOLLOWUP" then 60
  else if type = "ONLINE" then 40
  else if type = "WALKIN" then 20
  else 0

/-! ## routes/tokenRoutes.js -/

/-- The list `validTypes` of `POST /token/book`. -/
def validTypes : List String := ["PRIORITY", "FOLLOWUP", "ONLINE", "WALKIN"]

/-- What a route answers: the HTTP status, and the error text or the token. -/
structure Reply where
  status : Nat
  body : Except String Token
deriving DecidableEq

/-- The handler of `POST /token/book`.  A field that is absent or falsy is an
empty string or a zero here. -/
def postBook (pl : Planner) (clk : Clock) (db : Db) (body : BookRequest) : Db × Reply :=
  if body.patient = "" ∨ body.doctorId = 0 ∨ body.type = "" then
    (db, ⟨400, .error "patient, doctorId, and type are required"⟩)
  else if body.type ∉ validTypes then
    (db, ⟨400, .error "type must be one of: PRIORITY, FOLLOWUP, ONLINE, WALKIN"⟩)
  else
    match allocateToken pl clk db ⟨body.patient, body.doctorId, body.type⟩ with
    | (db', .ok token) => (db', ⟨201, .ok token⟩)
    | (db', .error e) => (db', ⟨500, .error e⟩)

/-- Every slot is used at most one beyond its capacity. -/
def Transient (db : Db) : Prop := ∀ s ∈ db.slots, s.used ≤ s.capacity + 1

instance (db : Db) : Decidable (Transient db) := by unfold Transient; infer_instance

/-- The primary key of `tokens` and its sequence: the ids are distinct and
below the next value of the sequence. -/
structure TokenKeys (db : Db) : Prop where
  token_pk : (db.tokens.map (fun t => t.id)).Nodup
  token_seq : ∀ t ∈ db.tokens, t.id < db.tokens_id_seq

/-- One call of an operation of the engine, whatever its outcome: the store
before and the store it leaves. -/
inductive Call : Db → Db → Prop
  | book (pl : Planner) (clk : Clock) (db : Db) (data : BookRequest) :
      Call db (allocateToken pl clk db data).1
  | emergency (pl : Planner) (clk : Clock) (db : Db) (data : EmergencyRequest) :
      Call db (insertEmergency pl clk db data).db
  | cancel (pl : Planner) (db : Db) (tokenId : Nat) :
      Call db (cancelToken pl db tokenId).1

/-- The second store still has the token keys, and every CANCELLED row of the
first store is a row of the second. -/
def Keeps (db db' : Db) : Prop :=
  TokenKeys db' ∧ ∀ c ∈ db.tokens, c.status = Status.CANCELLED → c ∈ db'.tokens

/-- The slots of one owner, in table order. -/
def Db.slotsOf (db : Db) (d : Nat) : List Slot := db.slots.filter (fun s => s.doctor_id = d)

/-- The tokens of one owner, in table order. -/
def Db.tokensOf (db : Db) (d : Nat) : List Token := db.tokens.filter (fun t => t.doctor_id = d)

/-- Two stores hold the same rows for an owner. -/
def SameFor (d : Nat) (db db' : Db) : Prop :=
  db'.slotsOf d = db.slotsOf d ∧ db'.tokensOf d = db.tokensOf d

/-- A store with two owners: doctor 7 has slot 1 and doctor 8 has slot 2, both
full, and doctor 8 has a token on the waiting list. -/
def twoOwnersDb : Db :=
  ⟨[⟨1, 7, 900, 1, 1⟩, ⟨2, 8, 900, 1, 1⟩],
   [⟨1, "a", 7, some 1, "PRIORITY", 80, Status.CONFIRMED, 10⟩,
    ⟨2, "b", 8, some 2, "FOLLOWUP", 60, Status.CONFIRMED, 20⟩,
    ⟨3, "c", 8, none, "WALKIN", 20, Status.WAITING, 25⟩], 4⟩

/-- No token of the owner waits while a slot of the owner has room: when some
token of the owner is WAITING, every slot of the owner is full. -/
def NoIdleWaiting (db : Db) (d : Nat) : Prop :=
  (∃ t ∈ db.tokens, t.doctor_id = d ∧ t.status = Status.WAITING) →
    ∀ s ∈ db.slots, s.doctor_id = d → s.used = s.capacity

/-- Slots of the owner that start at the same time are the same slot. -/
def DistinctStarts (db : Db) (d : Nat) : Prop :=
  ∀ s ∈ db.slots, ∀ s' ∈ db.slots, s.doctor_id = d → s'.doctor_id = d →
    s.start_time = s'.start_time → s.id = s'.id

/-- What every store reached from an empty one by successful operations obeys:
the schema, the agreement of token and slot records, the agreement of owners,
and the capacity bound. -/
structure Sound (db : Db) : Prop where
  schema : Schema db
  consistent : Consistent db
  owners : OwnersAgree db
  bounded : Bounded db

/-- One successful operation of the engine: the store before and the store
after a call of `allocateToken`, `insertEmergency` or `cancelToken` that
returned. -/
inductive Succeeds : Db → Db → Prop
  | book (pl : Planner) (clk : Clock) (db db' : Db) (data : BookRequest) (tok : Token) :
      allocateToken pl clk db data = (db', .ok tok) → Succeeds db db'
  | emergency (pl : Planner) (clk : Clock) (db : Db) (data : EmergencyRequest) (tok : Token) :
      (insertEmergency pl clk db data).result = Outcome.ok tok →
      Succeeds db (insertEmergency pl clk db data).db
  | cancel (pl : Planner) (db db' : Db) (tokenId : Nat) (msg : String) :
      cancelToken pl db tokenId = (db', .ok msg) → Succeeds db db'

/-- A store right after setup: doctor 7 has one slot with one seat, and there
is no token yet. -/
def freshDb : Db := ⟨[⟨1, 7, 900, 1, 0⟩], [], 1⟩

/-- A store right after setup whose only slot has capacity -5, the lowest
value that `check_capacity` admits for a slot with no seat taken. -/
def steepDb : Db := ⟨[⟨1, 7, 900, -5, 0⟩], [], 1⟩

/-- The store that a booking followed by an `insertEmergency` leaves from
`steepDb`: the booked token waits, and the emergency token was marked CONFIRMED
in slot 1 before the increment of the slot was refused. -/
def steepDbStuck : Db :=
  ⟨[⟨1, 7, 900, -5, 0⟩],
   [⟨1, "w", 7, none, "WALKIN", 20, Status.WAITING, 30⟩,
    ⟨2, "e", 7, some 1, "EMERGENCY", 100, Status.CONFIRMED, 30⟩], 3⟩

/-- A store right after setup whose only slot has capacity -1: the column
accepts it, and so does the handler that creates slots. -/
def tightDb : Db := ⟨[⟨1, 7, 900, -1, 0⟩], [], 1⟩

/-- A store where doctor 7 has a full slot at 900, a slot with one seat left at
1000 and an empty slot at 1100. -/
def roomyDb : Db :=
  ⟨[⟨1, 7, 900, 1, 1⟩, ⟨2, 7, 1000, 2, 1⟩, ⟨3, 7, 1100, 1, 0⟩],
   [⟨1, "a", 7, some 1, "PRIORITY", 80, Status.CONFIRMED, 10⟩,
    ⟨2, "b", 7, some 2, "FOLLOWUP", 60, Status.CONFIRMED, 20⟩], 3⟩

/-! # Properties -/

/-! ## Effect of the statements -/

@[simp] theorem token_update_slots (db : Db) (i : Nat) (sl : Option Nat) (st : Status) :
    (Token.update db i sl st).slots = db.slots := rfl

@[simp] theorem token_update_seq (db : Db) (i : Nat) (sl : Option Nat) (st : Status) :
    (Token.update db i sl st).tokens_id_seq = db.tokens_id_seq := rfl

theorem token_update_tokens (db : Db) (i : Nat) (sl : Option Nat) (st : Status) :
    (Token.update db i sl st).tokens =
      db.tokens.map (fun t => if t.id = i then { t with slot_id := sl, status := st } else t) := rfl

@[simp] theorem token_cancel_slots (db : Db) (i : Nat) : (Token.cancel db i).slots = db.slots := rfl

@[simp] theorem token_cancel_seq (db : Db) (i : Nat) :
    (Token.cancel db i).tokens_id_seq = db.tokens_id_seq := rfl

theorem token_cancel_tokens (db : Db) (i : Nat) :
    (Token.cancel db i).tokens =
      db.tokens.map (fun t => if t.id = i then { t with status := Status.CANCELLED } else t) := rfl

@[simp] theorem decrement_tokens (db : Db) (k : Nat) : (Slot.decrementUsage db k).tokens = db.tokens := rfl

@[simp] theorem decrement_seq (db : Db) (k : Nat) :
    (Slot.decrementUsage db k).tokens_id_seq = db.tokens_id_seq := rfl

theorem decrement_slots (db : Db) (k : Nat) :
    (Slot.decrementUsage db k).slots =
      db.slots.map (fun s => if s.id = k ∧ 0 < s.used then { s with used := s.used - 1 } else s) := rfl

/-- A successful increment adds one to the rows with the given id, and every
such row stayed within `check_capacity`. -/
theorem increment_ok {db db' : Db} {k : Nat} (h : Slot.incrementUsage db k = .ok db') :
    db'.tokens = db.tokens ∧ db'.tokens_id_seq = db.tokens_id_seq ∧
    db'.slots = db.slots.map (fun s => if s.id = k then { s with used := s.used + 1 } else s) ∧
    ∀ s ∈ db.slots, s.id = k → s.used + 1 ≤ s.capacity + 5 := by
  unfold Slot.incrementUsage at h
  split at h
  · cases h
  · rename_i hany
    injection h with h
    subst h
    refine ⟨rfl, rfl, rfl, ?_⟩
    intro s hs hk
    by_contra hlt
    apply hany
    simp only [List.any_eq_true, decide_eq_true_eq]
    exact ⟨s, hs, hk, by omega⟩

/-- An increment succeeds when every row with the given id has room below the
ceiling of `check_capacity`. -/
theorem increment_succeeds (db : Db) (k : Nat)
    (h : ∀ s ∈ db.slots, s.id = k → s.used + 1 ≤ s.capacity + 5) :
    ∃ db', Slot.incrementUsage db k = .ok db' := by
  unfold Slot.incrementUsage
  split
  · rename_i hany
    simp only [List.any_eq_true, decide_eq_true_eq] at hany
    obtain ⟨s, hs, hk, hlt⟩ := hany
    have := h s hs hk
    omega
  · exact ⟨_, rfl⟩

/-- A successful insert appends one row with the next id of the sequence: the
patient as VARCHAR(255) stores it, the priority as NUMERIC(10, 2) stores it. -/
theorem create_ok {db db' : Db} {now : Nat} {d : NewToken} {tok : Token}
    (h : Token.create db now d = .ok (db', tok)) :
    d.type ∈ token_type ∧ (∃ p, d.priority = some p ∧ numeric_10_2 p = some tok.priority) ∧
    tok.id = db.tokens_id_seq ∧
    (db.tokens_id_seq ≤ 2147483647 ∧ Char.ofNat 0 ∉ d.patient.toList ∧
      varchar_255 d.patient = some tok.patient) ∧
    tok.doctor_id = d.doctorId ∧
    tok.slot_id = truthyId d.slotId ∧ tok.type = d.type ∧ tok.status = d.status ∧
    tok.created_at = now ∧
    db'.slots = db.slots ∧ db'.tokens = db.tokens ++ [tok] ∧
    db'.tokens_id_seq = db.tokens_id_seq + 1 := by
  unfold Token.create at h
  split at h
  · cases h
  · rename_i hnul
    split at h
    · rename_i hty
      split at h
      · cases h
      · rename_i p hp
        split at h
        · cases h
        · rename_i hseq
          split at h
          · cases h
          · rename_i name hname
            split at h
            · cases h
            · rename_i q hq
              injection h with h
              injection h with h1 h2
              subst h1 h2
              exact ⟨hty, ⟨p, hp, hq⟩, rfl, ⟨Nat.le_of_not_lt hseq, hnul, hname⟩, rfl, rfl, rfl,
                rfl, rfl, rfl, rfl, rfl⟩
    · cases h

/-! ## Sorted query results -/

instance : IsTotal Slot Slot.byStart := ⟨fun a b => Nat.le_total a.start_time b.start_time⟩

instance : IsTrans Slot Slot.byStart := ⟨fun _ _ _ h1 h2 => Nat.le_trans h1 h2⟩

instance : IsTotal Token Token.byPriorityAsc := ⟨fun a b => le_total a.priority b.priority⟩

instance : IsTrans Token Token.byPriorityAsc := ⟨fun _ _ _ h1 h2 => le_trans h1 h2⟩

instance : IsTotal Token Token.byPriorityDesc := ⟨fun a b => le_total b.priority a.priority⟩

instance : IsTrans Token Token.byPriorityDesc := ⟨fun _ _ _ h1 h2 => le_trans h2 h1⟩

/-- The first row of a sorted result is one of the rows and precedes them all. -/
theorem head_insertionSort {α : Type} (r : α → α → Prop) [DecidableRel r] [IsTotal α r]
    [IsTrans α r] {l : List α} {x : α} (h : (l.insertionSort r).head? = some x) :
    x ∈ l ∧ ∀ y ∈ l, r x y := by
  have hs := List.sorted_insertionSort r l
  have hp := List.perm_insertionSort r l
  cases hl : l.insertionSort r with
  | nil => rw [hl] at h; cases h
  | cons a rest =>
    rw [hl] at h hs hp
    simp only [List.head?_cons, Option.some.injEq] at h
    subst h
    refine ⟨hp.subset (List.mem_cons_self _ _), ?_⟩
    intro y hy
    have hy' : y ∈ a :: rest := hp.symm.subset hy
    rcases List.mem_cons.mp hy' with rfl | hmem
    · exact (IsTotal.total y y).elim id id
    · exact List.rel_of_sorted_cons hs y hmem

/-- A sorted result has no first row exactly when there are no rows. -/
theorem head_insertionSort_none {α : Type} (r : α → α → Prop) [DecidableRel r] {l : List α} :
    (l.insertionSort r).head? = none ↔ l = [] := by
  constructor
  · intro h
    have hlen := List.length_insertionSort r l
    cases hl : l.insertionSort r with
    | nil => rw [hl] at hlen; exact List.length_eq_zero.mp hlen.symm
    | cons a rest => rw [hl] at h; cases h
  · rintro rfl; rfl

theorem mem_scanSlots (pl : Planner) (l : List Slot) (s : Slot) : s ∈ pl.scanSlots l ↔ s ∈ l :=
  (pl.scanSlots_perm l).mem_iff

theorem mem_scanTokens (pl : Planner) (l : List Token) (t : Token) : t ∈ pl.scanTokens l ↔ t ∈ l :=
  (pl.scanTokens_perm l).mem_iff

/-- The rows of `Slot.findByDoctorId` are the slots of the doctor. -/
theorem mem_findByDoctorId (pl : Planner) (db : Db) (d : Nat) (s : Slot) :
    s ∈ Slot.findByDoctorId pl db d ↔ s ∈ db.slots ∧ s.doctor_id = d := by
  unfold Slot.findByDoctorId
  rw [List.mem_insertionSort, List.mem_filter, mem_scanSlots]
  simp

/-- The result of `Slot.findByDoctorId` is ordered by start time. -/
theorem findByDoctorId_sorted (pl : Planner) (db : Db) (d : Nat) :
    (Slot.findByDoctorId pl db d).Sorted Slot.byStart :=
  List.sorted_insertionSort _ _

/-- The result of `Slot.findByDoctorId` has one row for each slot of the doctor. -/
theorem findByDoctorId_length (pl : Planner) (db : Db) (d : Nat) :
    (Slot.findByDoctorId pl db d).length = db.slots.countP (fun s => s.doctor_id = d) := by
  unfold Slot.findByDoctorId
  rw [List.length_insertionSort, ← List.countP_eq_length_filter]
  exact (pl.scanSlots_perm db.slots).countP_eq _

/-- What `Slot.findNextSlot` returns is the earliest later slot of the doctor. -/
theorem findNextSlot_some {pl : Planner} {db : Db} {d a : Nat} {s : Slot}
    (h : Slot.findNextSlot pl db d a = some s) :
    s ∈ db.slots ∧ s.doctor_id = d ∧ a < s.start_time ∧
      ∀ s' ∈ db.slots, s'.doctor_id = d → a < s'.start_time → s.start_time ≤ s'.start_time := by
  unfold Slot.findNextSlot at h
  obtain ⟨hm, hmin⟩ := head_insertionSort Slot.byStart h
  rw [List.mem_filter, mem_scanSlots] at hm
  simp only [decide_eq_true_eq] at hm
  refine ⟨hm.1, hm.2.1, hm.2.2, ?_⟩
  intro s' hs' hd ha
  apply hmin s'
  rw [List.mem_filter, mem_scanSlots]
  simp only [decide_eq_true_eq]
  exact ⟨hs', hd, ha⟩

/-- The query `Slot.findNextSlot` returns nothing exactly when the doctor has no later slot. -/
theorem findNextSlot_none {pl : Planner} {db : Db} {d a : Nat} :
    Slot.findNextSlot pl db d a = none ↔
      ∀ s ∈ db.slots, ¬ (s.doctor_id = d ∧ a < s.start_time) := by
  unfold Slot.findNextSlot
  rw [head_insertionSort_none, List.filter_eq_nil_iff]
  simp only [decide_eq_true_eq, mem_scanSlots]

/-- What `Token.findLowestPriorityInSlot` returns is a CONFIRMED token of the
slot whose priority no CONFIRMED token of the slot undercuts. -/
theorem findLowest_some {pl : Planner} {db : Db} {k : Nat} {v : Token}
    (h : Token.findLowestPriorityInSlot pl db k = some v) :
    v ∈ db.tokens ∧ v.slot_id = some k ∧ v.status = Status.CONFIRMED ∧
      ∀ t ∈ db.tokens, t.slot_id = some k → t.status = Status.CONFIRMED →
        v.priority ≤ t.priority := by
  unfold Token.findLowestPriorityInSlot at h
  obtain ⟨hm, hmin⟩ := head_insertionSort Token.byPriorityAsc h
  rw [List.mem_filter, mem_scanTokens] at hm
  simp only [decide_eq_true_eq] at hm
  refine ⟨hm.1, hm.2.1, hm.2.2, ?_⟩
  intro t ht hk hc
  apply hmin t
  rw [List.mem_filter, mem_scanTokens]
  simp only [decide_eq_true_eq]
  exact ⟨ht, hk, hc⟩

/-- The query `Token.findLowestPriorityInSlot` returns nothing exactly when the slot has
no CONFIRMED token. -/
theorem findLowest_none {pl : Planner} {db : Db} {k : Nat} :
    Token.findLowestPriorityInSlot pl db k = none ↔
      ∀ t ∈ db.tokens, ¬ (t.slot_id = some k ∧ t.status = Status.CONFIRMED) := by
  unfold Token.findLowestPriorityInSlot
  rw [head_insertionSort_none, List.filter_eq_nil_iff]
  simp only [decide_eq_true_eq, mem_scanTokens]

/-- The rows of `Token.findWaitingByDoctorId` are the WAITING tokens of the doctor. -/
theorem mem_findWaiting (pl : Planner) (db : Db) (d : Nat) (t : Token) :
    t ∈ Token.findWaitingByDoctorId pl db d ↔
      t ∈ db.tokens ∧ t.doctor_id = d ∧ t.status = Status.WAITING := by
  unfold Token.findWaitingByDoctorId
  rw [List.mem_insertionSort, List.mem_filter, mem_scanTokens]
  simp

/-- The first row of `Token.findWaitingByDoctorId` has the highest priority
among the WAITING tokens of the doctor. -/
theorem findWaiting_head {pl : Planner} {db : Db} {d : Nat} {w : Token} {rest : List Token}
    (h : Token.findWaitingByDoctorId pl db d = w :: rest) :
    w ∈ db.tokens ∧ w.doctor_id = d ∧ w.status = Status.WAITING ∧
      ∀ t ∈ db.tokens, t.doctor_id = d → t.status = Status.WAITING → t.priority ≤ w.priority := by
  have hw : w ∈ Token.findWaitingByDoctorId pl db d := by rw [h]; exact List.mem_cons_self _ _
  have hw' := (mem_findWaiting pl db d w).mp hw
  refine ⟨hw'.1, hw'.2.1, hw'.2.2, ?_⟩
  intro t ht hd hs
  have hh : (((pl.scanTokens db.tokens).filter
      (fun t => t.doctor_id = d ∧ t.status = Status.WAITING)).insertionSort
      Token.byPriorityDesc).head? = some w := by
    have := h
    unfold Token.findWaitingByDoctorId at this
    rw [this]; rfl
  obtain ⟨_, hmax⟩ := head_insertionSort Token.byPriorityDesc hh
  apply hmax t
  rw [List.mem_filter, mem_scanTokens]
  simp only [decide_eq_true_eq]
  exact ⟨ht, hd, hs⟩

/-! ## The chain is never rewritten -/

theorem map_key_increment (l : List Slot) (k : Nat) :
    (l.map (fun s => if s.id = k then { s with used := s.used + 1 } else s)).map Slot.key =
      l.map Slot.key := by
  rw [List.map_map]
  apply List.map_congr_left
  intro s _
  simp only [Function.comp]
  split <;> rfl

theorem map_key_decrement (l : List Slot) (k : Nat) :
    (l.map (fun s => if s.id = k ∧ 0 < s.used then { s with used := s.used - 1 } else s)).map
      Slot.key = l.map Slot.key := by
  rw [List.map_map]
  apply List.map_congr_left
  intro s _
  simp only [Function.comp]
  split <;> rfl

/-- Decrementing right after a successful increment restores the slots. -/
theorem decrement_increment (l : List Slot) (k : Nat) :
    (l.map (fun s => if s.id = k then { s with used := s.used + 1 } else s)).map
      (fun s => if s.id = k ∧ 0 < s.used then { s with used := s.used - 1 } else s) = l := by
  rw [List.map_map]
  conv_rhs => rw [← List.map_id l]
  apply List.map_congr_left
  intro s _
  simp only [Function.comp, id]
  by_cases h : s.id = k
  · cases s
    simp_all
  · simp [h]

theorem laterSlots_congr {db db' : Db} (h : db'.slots.map Slot.key = db.slots.map Slot.key)
    (d a : Nat) : laterSlots db' d a = laterSlots db d a := by
  have e : ∀ l : List Slot, l.countP (fun s => s.doctor_id = d ∧ a < s.start_time) =
      (l.map Slot.key).countP (fun x => x.2.1 = d ∧ a < x.2.2.1) := by
    intro l
    rw [List.countP_map]
    rfl
  unfold laterSlots
  rw [e, e, h]

/-- A predicate that holds less often, and fails on a row where the other
holds, counts strictly fewer rows. -/
theorem countP_lt_of_witness {α : Type} (p q : α → Bool) (l : List α)
    (hpq : ∀ x ∈ l, p x = true → q x = true) (x : α) (hx : x ∈ l) (hq : q x = true)
    (hp : p x = false) : l.countP p < l.countP q := by
  induction l with
  | nil => cases hx
  | cons a rest ih =>
    rw [List.countP_cons, List.countP_cons]
    have hmono : rest.countP p ≤ rest.countP q :=
      List.countP_mono_left (fun y hy => hpq y (List.mem_cons_of_mem _ hy))
    rcases List.mem_cons.mp hx with rfl | hmem
    · rw [hq, hp]
      simp only [if_true]
      have : (if false = true then 1 else 0) = 0 := rfl
      omega
    · have hlt := ih (fun y hy => hpq y (List.mem_cons_of_mem _ hy)) hmem
      have ha := hpq a (List.mem_cons_self _ _)
      by_cases hpa : p a = true
      · rw [hpa, ha hpa]; omega
      · have hz : (if p a = true then 1 else 0) = 0 := if_neg hpa
        rw [hz]
        omega

/-- The slot that `Slot.findNextSlot` returns has fewer slots after it. -/
theorem laterSlots_next {pl : Planner} {db : Db} {d a : Nat} {s : Slot}
    (h : Slot.findNextSlot pl db d a = some s) :
    laterSlots db s.doctor_id s.start_time < laterSlots db d a := by
  obtain ⟨hm, hd, ha, _⟩ := findNextSlot_some h
  unfold laterSlots
  apply countP_lt_of_witness _ _ _ _ s hm
  · simp [hd, ha]
  · simp
  · intro x _ hx
    simp only [decide_eq_true_eq] at hx ⊢
    exact ⟨hx.1.trans hd, by omega⟩

/-- The first slot of a chain has fewer slots after it than the chain has slots. -/
theorem laterSlots_first {pl : Planner} {db : Db} {d : Nat} {s : Slot}
    (h : s ∈ Slot.findByDoctorId pl db d) :
    laterSlots db s.doctor_id s.start_time < (Slot.findByDoctorId pl db d).length := by
  rw [findByDoctorId_length]
  obtain ⟨hm, hd⟩ := (mem_findByDoctorId pl db d s).mp h
  unfold laterSlots
  apply countP_lt_of_witness _ _ _ _ s hm
  · simp [hd]
  · simp
  · intro x _ hx
    simp only [decide_eq_true_eq] at hx ⊢
    exact hx.1.trans hd

/-! ## Unfolding the cascade -/

theorem rippleInsert_zero (pl : Planner) (db : Db) (slot : Option Slot) (token : Token) :
    rippleInsert pl 0 db slot token = ⟨db, Outcome.outOfFuel, []⟩ := by
  cases slot <;> rfl

theorem rippleInsert_none (pl : Planner) (fuel : Nat) (db : Db) (token : Token) :
    rippleInsert pl (fuel + 1) db none token =
      ⟨Token.update db token.id none Status.WAITING, Outcome.ok (),
        [(Step.park token.id, Token.update db token.id none Status.WAITING)]⟩ := rfl

/-- The cascade stops with an error when the increment is rejected. -/
theorem rippleInsert_rejected (pl : Planner) (fuel : Nat) (db : Db) (slot : Slot) (token : Token)
    {e : String}
    (h : Slot.incrementUsage (Token.update db token.id (some slot.id) Status.CONFIRMED) slot.id
      = .error e) :
    rippleInsert pl (fuel + 1) db (some slot) token =
      ⟨Token.update db token.id (some slot.id) Status.CONFIRMED, Outcome.error e,
        [(Step.seat slot.id token.id,
          Token.update db token.id (some slot.id) Status.CONFIRMED)]⟩ := by
  simp only [rippleInsert, h]

/-- The cascade stops with an error when the seated slot cannot be read back. -/
theorem rippleInsert_missing (pl : Planner) (fuel : Nat) (db db2 : Db) (slot : Slot)
    (token : Token)
    (h : Slot.incrementUsage (Token.update db token.id (some slot.id) Status.CONFIRMED) slot.id
      = .ok db2)
    (hf : Slot.findById db2 slot.id = none) :
    rippleInsert pl (fuel + 1) db (some slot) token =
      ⟨db2, Outcome.error "Cannot read properties of undefined (reading used)",
        [(Step.seat slot.id token.id, Token.update db token.id (some slot.id) Status.CONFIRMED),
         (Step.increment slot.id, db2)]⟩ := by
  simp only [rippleInsert, h, hf]

/-- The cascade ends when the seated slot is within capacity. -/
theorem rippleInsert_fits (pl : Planner) (fuel : Nat) (db db2 : Db) (slot u : Slot)
    (token : Token)
    (h : Slot.incrementUsage (Token.update db token.id (some slot.id) Status.CONFIRMED) slot.id
      = .ok db2)
    (hf : Slot.findById db2 slot.id = some u) (hu : ¬ u.capacity < u.used) :
    rippleInsert pl (fuel + 1) db (some slot) token =
      ⟨db2, Outcome.ok (),
        [(Step.seat slot.id token.id, Token.update db token.id (some slot.id) Status.CONFIRMED),
         (Step.increment slot.id, db2)]⟩ := by
  simp only [rippleInsert, h, hf, hu, if_false]

/-- The cascade stops with an error when an overfull slot has no CONFIRMED token. -/
theorem rippleInsert_noVictim (pl : Planner) (fuel : Nat) (db db2 : Db) (slot u : Slot)
    (token : Token)
    (h : Slot.incrementUsage (Token.update db token.id (some slot.id) Status.CONFIRMED) slot.id
      = .ok db2)
    (hf : Slot.findById db2 slot.id = some u) (hu : u.capacity < u.used)
    (hv : Token.findLowestPriorityInSlot pl db2 slot.id = none) :
    rippleInsert pl (fuel + 1) db (some slot) token =
      ⟨db2, Outcome.error "Slot overcapacity but no victim found",
        [(Step.seat slot.id token.id, Token.update db token.id (some slot.id) Status.CONFIRMED),
         (Step.increment slot.id, db2)]⟩ := by
  simp only [rippleInsert, h, hf, hu, if_true, hv]

/-- The cascade goes on with the victim when the seated slot is overfull. -/
theorem rippleInsert_overflow (pl : Planner) (fuel : Nat) (db db2 : Db) (slot u : Slot)
    (token v : Token)
    (h : Slot.incrementUsage (Token.update db token.id (some slot.id) Status.CONFIRMED) slot.id
      = .ok db2)
    (hf : Slot.findById db2 slot.id = some u) (hu : u.capacity < u.used)
    (hv : Token.findLowestPriorityInSlot pl db2 slot.id = some v) :
    rippleInsert pl (fuel + 1) db (some slot) token =
      ⟨(rippleInsert pl fuel
          (Slot.decrementUsage (Token.update db2 v.id none Status.WAITING) slot.id)
          (Slot.findNextSlot pl
            (Slot.decrementUsage (Token.update db2 v.id none Status.WAITING) slot.id)
            slot.doctor_id slot.start_time) v).db,
       (rippleInsert pl fuel
          (Slot.decrementUsage (Token.update db2 v.id none Status.WAITING) slot.id)
          (Slot.findNextSlot pl
            (Slot.decrementUsage (Token.update db2 v.id none Status.WAITING) slot.id)
            slot.doctor_id slot.start_time) v).result,
       [(Step.seat slot.id token.id, Token.update db token.id (some slot.id) Status.CONFIRMED),
        (Step.increment slot.id, db2)] ++
       [(Step.evict slot.id v.id, Token.update db2 v.id none Status.WAITING),
        (Step.decrement slot.id,
          Slot.decrementUsage (Token.update db2 v.id none Status.WAITING) slot.id)] ++
       (rippleInsert pl fuel
          (Slot.decrementUsage (Token.update db2 v.id none Status.WAITING) slot.id)
          (Slot.findNextSlot pl
            (Slot.decrementUsage (Token.update db2 v.id none Status.WAITING) slot.id)
            slot.doctor_id slot.start_time) v).log⟩ := by
  simp only [rippleInsert, h, hf, hu, if_true, hv]

/-- After a seat and an eviction in the same slot the slots are as before. -/
theorem evict_slots {db db2 : Db} {i k v : Nat} {sl : Option Nat} {st : Status}
    (h : Slot.incrementUsage (Token.update db i sl st) k = .ok db2) :
    (Slot.decrementUsage (Token.update db2 v none Status.WAITING) k).slots = db.slots := by
  obtain ⟨_, _, hs, _⟩ := increment_ok h
  rw [decrement_slots, token_update_slots, hs, token_update_slots]
  exact decrement_increment db.slots k

/-! ## Termination of the cascade -/

/-- With more budget than the number of slots still ahead, the cascade never
uses its budget up, and it seats at most once per slot from the current one on. -/
theorem ripple_budget (pl : Planner) :
    ∀ (fuel : Nat) (db : Db) (slot : Slot) (token : Token),
      laterSlots db slot.doctor_id slot.start_time + 2 ≤ fuel →
      (rippleInsert pl fuel db (some slot) token).result ≠ Outcome.outOfFuel ∧
      seats (rippleInsert pl fuel db (some slot) token).log ≤
        laterSlots db slot.doctor_id slot.start_time + 1 := by
  intro fuel
  induction fuel with
  | zero => intro db slot token h; omega
  | succ fuel ih =>
    intro db slot token hfuel
    cases h : Slot.incrementUsage (Token.update db token.id (some slot.id) Status.CONFIRMED)
        slot.id with
    | error e =>
      rw [rippleInsert_rejected pl fuel db slot token h]
      exact ⟨by simp, by simp [seats]⟩
    | ok db2 =>
      cases hf : Slot.findById db2 slot.id with
      | none =>
        rw [rippleInsert_missing pl fuel db db2 slot token h hf]
        exact ⟨by simp, by simp [seats]⟩
      | some u =>
        by_cases hu : u.capacity < u.used
        · cases hv : Token.findLowestPriorityInSlot pl db2 slot.id with
          | none =>
            rw [rippleInsert_noVictim pl fuel db db2 slot u token h hf hu hv]
            exact ⟨by simp, by simp [seats]⟩
          | some v =>
            rw [rippleInsert_overflow pl fuel db db2 slot u token v h hf hu hv]
            have hsl : (Slot.decrementUsage (Token.update db2 v.id none Status.WAITING)
                slot.id).slots = db.slots := evict_slots h
            have hlater : ∀ d a, laterSlots (Slot.decrementUsage
                (Token.update db2 v.id none Status.WAITING) slot.id) d a = laterSlots db d a :=
              fun d a => laterSlots_congr (by rw [hsl]) d a
            cases hn : Slot.findNextSlot pl
                (Slot.decrementUsage (Token.update db2 v.id none Status.WAITING) slot.id)
                slot.doctor_id slot.start_time with
            | none =>
              obtain ⟨f, rfl⟩ : ∃ f, fuel = f + 1 := ⟨fuel - 1, by omega⟩
              simp only [rippleInsert_none]
              refine ⟨by simp, ?_⟩
              simp [seats]
            | some n =>
              have hlt := laterSlots_next hn
              rw [hlater, hlater] at hlt
              have hrec := ih (Slot.decrementUsage (Token.update db2 v.id none Status.WAITING)
                slot.id) n v (by rw [hlater]; omega)
              rw [hlater] at hrec
              refine ⟨hrec.1, ?_⟩
              have hs := hrec.2
              simp only [seats, List.countP_append, List.countP_cons, List.countP_nil] at hs ⊢
              simp only [if_true, if_false, Nat.zero_add] at hs ⊢
              simp at hs ⊢
              omega
        · rw [rippleInsert_fits pl fuel db db2 slot u token h hf hu]
          exact ⟨by simp, by simp [seats]⟩

/-- Extra budget does not change a run that did not use its budget up. -/
theorem ripple_budget_irrelevant (pl : Planner) :
    ∀ (fuel : Nat) (db : Db) (slot : Option Slot) (token : Token),
      (rippleInsert pl fuel db slot token).result ≠ Outcome.outOfFuel →
      rippleInsert pl (fuel + 1) db slot token = rippleInsert pl fuel db slot token := by
  intro fuel
  induction fuel with
  | zero =>
    intro db slot token h
    rw [rippleInsert_zero] at h
    exact absurd rfl h
  | succ fuel ih =>
    intro db slot token hres
    cases slot with
    | none => rfl
    | some slot =>
      cases h : Slot.incrementUsage (Token.update db token.id (some slot.id) Status.CONFIRMED)
          slot.id with
      | error e =>
        rw [rippleInsert_rejected pl fuel db slot token h,
          rippleInsert_rejected pl (fuel + 1) db slot token h]
      | ok db2 =>
        cases hf : Slot.findById db2 slot.id with
        | none =>
          rw [rippleInsert_missing pl fuel db db2 slot token h hf,
            rippleInsert_missing pl (fuel + 1) db db2 slot token h hf]
        | some u =>
          by_cases hu : u.capacity < u.used
          · cases hv : Token.findLowestPriorityInSlot pl db2 slot.id with
            | none =>
              rw [rippleInsert_noVictim pl fuel db db2 slot u token h hf hu hv,
                rippleInsert_noVictim pl (fuel + 1) db db2 slot u token h hf hu hv]
            | some v =>
              rw [rippleInsert_overflow pl fuel db db2 slot u token v h hf hu hv] at hres
              rw [rippleInsert_overflow pl fuel db db2 slot u token v h hf hu hv,
                rippleInsert_overflow pl (fuel + 1) db db2 slot u token v h hf hu hv]
              rw [ih _ _ _ hres]
          · rw [rippleInsert_fits pl fuel db db2 slot u token h hf hu,
              rippleInsert_fits pl (fuel + 1) db db2 slot u token h hf hu]

/-- The three ways `insertEmergency` can end after the token was created share
the store and the log of the cascade. -/
theorem insertEmergency_started {pl : Planner} {clk : Clock} {db db1 : Db}
    {data : EmergencyRequest} {slot0 : Slot} {others : List Slot} {token : Token}
    (hs : Slot.findByDoctorId pl db data.doctorId = slot0 :: others)
    (hc : Token.create db clk.dbNow ⟨data.patient, data.doctorId, none, "EMERGENCY",
      calculatePriority "EMERGENCY" clk.createdAt clk.now, Status.WAITING⟩ = .ok (db1, token)) :
    (insertEmergency pl clk db data).db =
      (rippleInsert pl ((slot0 :: others).length + 1) db1 (some slot0) token).db ∧
    (insertEmergency pl clk db data).log = (Step.create token.id, db1) ::
      (rippleInsert pl ((slot0 :: others).length + 1) db1 (some slot0) token).log ∧
    (insertEmergency pl clk db data).result =
      (match (rippleInsert pl ((slot0 :: others).length + 1) db1 (some slot0) token).result with
        | Outcome.ok _ => Outcome.ok token
        | Outcome.error e => Outcome.error e
        | Outcome.outOfFuel => Outcome.outOfFuel) := by
  unfold insertEmergency
  simp only [hs, hc]
  cases (rippleInsert pl ((slot0 :: others).length + 1) db1 (some slot0) token).result <;>
    exact ⟨rfl, rfl, rfl⟩

/-- Claim C3. Cascade termination.  For every store, planner and request, the
cascade that `insertEmergency` starts at the first slot of the chain returns
within the budget of one call per slot plus one (it never runs out of it), it
seats a token at most N times where N is the number of slots of the chain, and
every slot handed to a recursive call starts strictly later than the slot
before it. -/
theorem cascade_terminates (pl : Planner) (clk : Clock) (db : Db) (data : EmergencyRequest) :
    (insertEmergency pl clk db data).result ≠ Outcome.outOfFuel ∧
    seats (insertEmergency pl clk db data).log ≤
      (Slot.findByDoctorId pl db data.doctorId).length ∧
    ∀ (db' : Db) (slot next : Slot),
      Slot.findNextSlot pl db' slot.doctor_id slot.start_time = some next →
        next.doctor_id = slot.doctor_id ∧ slot.start_time < next.start_time := by
  refine ⟨?_, ?_, fun db' slot next h => ⟨(findNextSlot_some h).2.1, (findNextSlot_some h).2.2.1⟩⟩
  · cases hs : Slot.findByDoctorId pl db data.doctorId with
    | nil => simp [insertEmergency, hs]
    | cons slot0 others =>
      cases hc : Token.create db clk.dbNow ⟨data.patient, data.doctorId, none, "EMERGENCY",
          calculatePriority "EMERGENCY" clk.createdAt clk.now, Status.WAITING⟩ with
      | error e => simp [insertEmergency, hs, hc]
      | ok r =>
        obtain ⟨db1, token⟩ := r
        obtain ⟨_, _, hres⟩ := insertEmergency_started hs hc
        rw [hres]
        have hmem : slot0 ∈ Slot.findByDoctorId pl db data.doctorId := by
          rw [hs]; exact List.mem_cons_self _ _
        have hlt := laterSlots_first hmem
        rw [hs] at hlt
        have hsl : db1.slots = db.slots := (create_ok hc).2.2.2.2.2.2.2.2.2.1
        have hl : laterSlots db1 slot0.doctor_id slot0.start_time =
            laterSlots db slot0.doctor_id slot0.start_time :=
          laterSlots_congr (by rw [hsl]) _ _
        have hb := (ripple_budget pl ((slot0 :: others).length + 1) db1 slot0 token (by
          rw [hl]; omega)).1
        cases hr : (rippleInsert pl ((slot0 :: others).length + 1) db1 (some slot0) token).result with
        | ok _ => simp
        | error e => simp
        | outOfFuel => exact absurd hr hb
  · cases hs : Slot.findByDoctorId pl db data.doctorId with
    | nil => simp [insertEmergency, hs, seats]
    | cons slot0 others =>
      cases hc : Token.create db clk.dbNow ⟨data.patient, data.doctorId, none, "EMERGENCY",
          calculatePriority "EMERGENCY" clk.createdAt clk.now, Status.WAITING⟩ with
      | error e => simp [insertEmergency, hs, hc, seats]
      | ok r =>
        obtain ⟨db1, token⟩ := r
        obtain ⟨_, hlog, _⟩ := insertEmergency_started hs hc
        rw [hlog]
        have hmem : slot0 ∈ Slot.findByDoctorId pl db data.doctorId := by
          rw [hs]; exact List.mem_cons_self _ _
        have hlt := laterSlots_first hmem
        rw [hs] at hlt
        have hsl : db1.slots = db.slots := (create_ok hc).2.2.2.2.2.2.2.2.2.1
        have hl : laterSlots db1 slot0.doctor_id slot0.start_time =
            laterSlots db slot0.doctor_id slot0.start_time :=
          laterSlots_congr (by rw [hsl]) _ _
        have hb := (ripple_budget pl ((slot0 :: others).length + 1) db1 slot0 token (by
          rw [hl]; omega)).2
        rw [hl] at hb
        have : seats ((Step.create token.id, db1) ::
            (rippleInsert pl ((slot0 :: others).length + 1) db1 (some slot0) token).log) =
            seats (rippleInsert pl ((slot0 :: others).length + 1) db1 (some slot0) token).log := by
          simp [seats, List.countP_cons]
        rw [this]
        omega

/-! ## Rows and their keys -/

/-- Two slots of a table with a primary key that share an id are the same row. -/
theorem slot_eq_of_id {l : List Slot} (hnd : (l.map (fun s => s.id)).Nodup) {a b : Slot}
    (ha : a ∈ l) (hb : b ∈ l) (h : a.id = b.id) : a = b :=
  List.inj_on_of_nodup_map hnd ha hb h

/-- Two tokens of a table with a primary key that share an id are the same row. -/
theorem token_eq_of_id {l : List Token} (hnd : (l.map (fun t => t.id)).Nodup) {a b : Token}
    (ha : a ∈ l) (hb : b ∈ l) (h : a.id = b.id) : a = b :=
  List.inj_on_of_nodup_map hnd ha hb h

theorem slot_ids_of_key {l l' : List Slot} (h : l'.map Slot.key = l.map Slot.key) :
    l'.map (fun s => s.id) = l.map (fun s => s.id) := by
  have e : ∀ m : List Slot, m.map (fun s => s.id) = (m.map Slot.key).map (fun x => x.1) := by
    intro m; rw [List.map_map]; rfl
  rw [e, e, h]

theorem findById_mem {db : Db} {k : Nat} {u : Slot} (h : Slot.findById db k = some u) :
    u ∈ db.slots ∧ u.id = k := by
  unfold Slot.findById at h
  exact ⟨List.mem_of_find?_eq_some h, by simpa using List.find?_some h⟩

theorem token_findById_mem {db : Db} {i : Nat} {t : Token} (h : Token.findById db i = some t) :
    t ∈ db.tokens ∧ t.id = i := by
  unfold Token.findById at h
  exact ⟨List.mem_of_find?_eq_some h, by simpa using List.find?_some h⟩

theorem token_findById_none {db : Db} {i : Nat} (h : Token.findById db i = none) :
    ∀ t ∈ db.tokens, t.id ≠ i := by
  unfold Token.findById at h
  simpa using h

/-! ## The capacity bound -/

/-- A slot within capacity stays so after a successful booking increment. -/
theorem bounded_after_fit {db db2 : Db} {i k : Nat} {sl : Option Nat} {st : Status} {u : Slot}
    (hnd : (db.slots.map (fun s => s.id)).Nodup) (hb : Bounded db)
    (h : Slot.incrementUsage (Token.update db i sl st) k = .ok db2)
    (hf : Slot.findById db2 k = some u) (hu : ¬ u.capacity < u.used) : Bounded db2 := by
  obtain ⟨_, _, hs, _⟩ := increment_ok h
  rw [token_update_slots] at hs
  have hnd2 : (db2.slots.map (fun s => s.id)).Nodup := by
    have hids : db2.slots.map (fun s => s.id) = db.slots.map (fun s => s.id) :=
      slot_ids_of_key (by rw [hs]; exact map_key_increment db.slots k)
    rw [hids]; exact hnd
  obtain ⟨hum, huk⟩ := findById_mem hf
  intro s' hs'
  by_cases hk : s'.id = k
  · have : s' = u := slot_eq_of_id hnd2 hs' hum (by rw [hk, huk])
    subst this
    omega
  · rw [hs] at hs'
    obtain ⟨s, hsm, rfl⟩ := List.mem_map.mp hs'
    by_cases hsk : s.id = k
    · simp [hsk] at hk
    · simp only [hsk, if_false]
      exact hb s hsm

/-- A cascade that returns leaves every slot within capacity. -/
theorem ripple_bounded (pl : Planner) :
    ∀ (fuel : Nat) (db : Db) (slot : Option Slot) (token : Token),
      (db.slots.map (fun s => s.id)).Nodup → Bounded db →
      (rippleInsert pl fuel db slot token).result = Outcome.ok () →
      Bounded (rippleInsert pl fuel db slot token).db := by
  intro fuel
  induction fuel with
  | zero =>
    intro db slot token _ _ h
    rw [rippleInsert_zero] at h
    cases h
  | succ fuel ih =>
    intro db slot token hnd hb hres
    cases slot with
    | none => rw [rippleInsert_none]; exact hb
    | some slot =>
      cases h : Slot.incrementUsage (Token.update db token.id (some slot.id) Status.CONFIRMED)
          slot.id with
      | error e =>
        rw [rippleInsert_rejected pl fuel db slot token h] at hres
        cases hres
      | ok db2 =>
        cases hf : Slot.findById db2 slot.id with
        | none =>
          rw [rippleInsert_missing pl fuel db db2 slot token h hf] at hres
          cases hres
        | some u =>
          by_cases hu : u.capacity < u.used
          · cases hv : Token.findLowestPriorityInSlot pl db2 slot.id with
            | none =>
              rw [rippleInsert_noVictim pl fuel db db2 slot u token h hf hu hv] at hres
              cases hres
            | some v =>
              rw [rippleInsert_overflow pl fuel db db2 slot u token v h hf hu hv] at hres ⊢
              have hsl : (Slot.decrementUsage (Token.update db2 v.id none Status.WAITING)
                  slot.id).slots = db.slots := evict_slots h
              apply ih
              · rw [hsl]; exact hnd
              · intro s hs; rw [hsl] at hs; exact hb s hs
              · exact hres
          · rw [rippleInsert_fits pl fuel db db2 slot u token h hf hu]
            exact bounded_after_fit hnd hb h hf hu

/-! ## How the operations succeed -/

/-- A booking that returns a token either seated it in the first slot with
room or put it on the waiting list. -/
theorem allocateToken_ok {pl : Planner} {clk : Clock} {db db' : Db} {data : BookRequest}
    {tok : Token} (h : allocateToken pl clk db data = (db', .ok tok)) :
    (∃ slot db1,
      (Slot.findByDoctorId pl db data.doctorId).find? (fun slot => (slot.used : Int) < slot.capacity)
        = some slot ∧
      Token.create db clk.dbNow ⟨data.patient, data.doctorId, some slot.id, data.type,
        calculatePriority data.type clk.createdAt clk.now, Status.CONFIRMED⟩ = .ok (db1, tok) ∧
      Slot.incrementUsage db1 slot.id = .ok db') ∨
    ((Slot.findByDoctorId pl db data.doctorId).find? (fun slot => (slot.used : Int) < slot.capacity)
        = none ∧
      Slot.findByDoctorId pl db data.doctorId ≠ [] ∧
      Token.create db clk.dbNow ⟨data.patient, data.doctorId, none, data.type,
        calculatePriority data.type clk.createdAt clk.now, Status.WAITING⟩ = .ok (db', tok)) := by
  unfold allocateToken at h
  simp only at h
  split at h
  · cases h
  · rename_i hlen
    split at h
    · rename_i slot hfind
      left
      split at h
      · cases h
      · rename_i db1 token hc
        split at h
        · cases h
        · rename_i db2 hi
          simp only [Prod.mk.injEq, Except.ok.injEq] at h
          obtain ⟨rfl, rfl⟩ := h
          exact ⟨slot, db1, hfind, hc, hi⟩
    · rename_i hfind
      right
      split at h
      · cases h
      · rename_i db1 token hc
        simp only [Prod.mk.injEq, Except.ok.injEq] at h
        obtain ⟨rfl, rfl⟩ := h
        refine ⟨hfind, ?_, hc⟩
        intro hnil
        rw [hnil] at hlen
        exact hlen rfl

/-- A cancellation that returns found the token not yet CANCELLED, and either
freed its slot (promoting the first waiting token if there is one) or only
changed the status. -/
theorem cancelToken_ok {pl : Planner} {db db' : Db} {tokenId : Nat} {msg : String}
    (h : cancelToken pl db tokenId = (db', .ok msg)) :
    ∃ token, Token.findById db tokenId = some token ∧ token.status ≠ Status.CANCELLED ∧
      ((∃ slotId, token.status = Status.CONFIRMED ∧ truthyId token.slot_id = some slotId ∧
          ((Token.findWaitingByDoctorId pl (Slot.decrementUsage db slotId) token.doctor_id = [] ∧
              db' = Token.cancel (Slot.decrementUsage db slotId) tokenId) ∨
            (∃ w rest db3,
              Token.findWaitingByDoctorId pl (Slot.decrementUsage db slotId) token.doctor_id
                = w :: rest ∧
              Slot.incrementUsage
                (Token.update (Slot.decrementUsage db slotId) w.id (some slotId) Status.CONFIRMED)
                slotId = .ok db3 ∧
              db' = Token.cancel db3 tokenId))) ∨
        ((token.status ≠ Status.CONFIRMED ∨ truthyId token.slot_id = none) ∧
          db' = Token.cancel db tokenId)) := by
  unfold cancelToken at h
  split at h
  · cases h
  · rename_i token hfind
    refine ⟨token, hfind, ?_⟩
    split at h
    · cases h
    · rename_i hst
      refine ⟨hst, ?_⟩
      split at h
      · rename_i slotId hfreed
        left
        have hconf : token.status = Status.CONFIRMED ∧ truthyId token.slot_id = some slotId := by
          by_cases hc : token.status = Status.CONFIRMED
          · simp only [hc, if_true] at hfreed
            exact ⟨hc, hfreed⟩
          · simp only [hc, if_false] at hfreed
            cases hfreed
        refine ⟨slotId, hconf.1, hconf.2, ?_⟩
        simp only at h
        split at h
        · rename_i hw
          left
          simp only [Prod.mk.injEq, Except.ok.injEq] at h
          exact ⟨hw, h.1.symm⟩
        · rename_i w rest hw
          right
          split at h
          · cases h
          · rename_i db3 hi
            simp only [Prod.mk.injEq, Except.ok.injEq] at h
            exact ⟨w, rest, db3, hw, hi, h.1.symm⟩
      · rename_i hfreed
        right
        simp only [Prod.mk.injEq, Except.ok.injEq] at h
        refine ⟨?_, h.1.symm⟩
        by_cases hc : token.status = Status.CONFIRMED
        · simp only [hc, if_true] at hfreed
          exact Or.inr hfreed
        · exact Or.inl hc

/-- A non-null result of the truthiness test is the id itself, and it is not 0. -/
theorem truthyId_some {o : Option Nat} {k : Nat} (h : truthyId o = some k) : o = some k ∧ k ≠ 0 := by
  unfold truthyId at h
  cases o with
  | none => cases h
  | some s =>
    simp only [Option.bind] at h
    split at h
    · cases h
    · rename_i hs
      injection h with h
      subst h
      exact ⟨rfl, hs⟩

theorem truthyId_of_ne_zero {k : Nat} (h : k ≠ 0) : truthyId (some k) = some k := by
  simp [truthyId, h]

/-- A CONFIRMED token of a slot makes the occupancy of the slot positive. -/
theorem occupancy_pos {db : Db} {t : Token} {k : Nat} (ht : t ∈ db.tokens)
    (hs : t.status = Status.CONFIRMED) (hk : t.slot_id = some k) : 0 < occupancy db k := by
  unfold occupancy
  rw [List.countP_pos_iff]
  exact ⟨t, ht, by simp [hs, hk]⟩

/-- A successful `insertEmergency` ran its cascade to the end. -/
theorem insertEmergency_ok {pl : Planner} {clk : Clock} {db : Db} {data : EmergencyRequest}
    {tok : Token} (h : (insertEmergency pl clk db data).result = Outcome.ok tok) :
    ∃ slot0 others db1,
      Slot.findByDoctorId pl db data.doctorId = slot0 :: others ∧
      Token.create db clk.dbNow ⟨data.patient, data.doctorId, none, "EMERGENCY",
        calculatePriority "EMERGENCY" clk.createdAt clk.now, Status.WAITING⟩ = .ok (db1, tok) ∧
      (rippleInsert pl ((slot0 :: others).length + 1) db1 (some slot0) tok).result
        = Outcome.ok () ∧
      (insertEmergency pl clk db data).db =
        (rippleInsert pl ((slot0 :: others).length + 1) db1 (some slot0) tok).db ∧
      (insertEmergency pl clk db data).log = (Step.create tok.id, db1) ::
        (rippleInsert pl ((slot0 :: others).length + 1) db1 (some slot0) tok).log := by
  cases hs : Slot.findByDoctorId pl db data.doctorId with
  | nil => simp [insertEmergency, hs] at h
  | cons slot0 others =>
    cases hc : Token.create db clk.dbNow ⟨data.patient, data.doctorId, none, "EMERGENCY",
        calculatePriority "EMERGENCY" clk.createdAt clk.now, Status.WAITING⟩ with
    | error e => simp [insertEmergency, hs, hc] at h
    | ok r =>
      obtain ⟨db1, token⟩ := r
      obtain ⟨hdb, hlog, hres⟩ := insertEmergency_started hs hc
      rw [hres] at h
      cases hr : (rippleInsert pl ((slot0 :: others).length + 1) db1 (some slot0) token).result with
      | ok u =>
        rw [hr] at h
        simp only [Outcome.ok.injEq] at h
        subst h
        exact ⟨slot0, others, db1, rfl, rfl, hr, hdb, hlog⟩
      | error e => rw [hr] at h; cases h
      | outOfFuel => rw [hr] at h; cases h

/-- Claim C1. Capacity invariant.  In every store whose slots have distinct ids
(the primary key), where each slot has `used <= capacity` (and `0 <= used`,
which the type of `used` gives) and `used` equals the number of CONFIRMED
tokens of the slot, the store left by a successful `allocateToken`,
`insertEmergency` or `cancelToken` again has `used <= capacity` in every slot. -/
theorem capacity_invariant (pl : Planner) (clk : Clock) (db : Db)
    (hpk : (db.slots.map (fun s => s.id)).Nodup) (hb : Bounded db) (hc : Counted db) :
    (∀ data db' tok, allocateToken pl clk db data = (db', .ok tok) → Bounded db') ∧
    (∀ data tok, (insertEmergency pl clk db data).result = Outcome.ok tok →
      Bounded (insertEmergency pl clk db data).db) ∧
    (∀ tokenId db' msg, cancelToken pl db tokenId = (db', .ok msg) → Bounded db') := by
  refine ⟨?_, ?_, ?_⟩
  · intro data db' tok h
    rcases allocateToken_ok h with ⟨slot, db1, hfind, hcr, hinc⟩ | ⟨_, _, hcr⟩
    · have hslot : slot ∈ db.slots :=
        ((mem_findByDoctorId pl db data.doctorId slot).mp (List.mem_of_find?_eq_some hfind)).1
      have hroom : slot.used < slot.capacity := by simpa using List.find?_some hfind
      have hs1 : db1.slots = db.slots := (create_ok hcr).2.2.2.2.2.2.2.2.2.1
      obtain ⟨_, _, hs2, _⟩ := increment_ok hinc
      intro s' hs'
      rw [hs2, hs1] at hs'
      obtain ⟨s, hsm, rfl⟩ := List.mem_map.mp hs'
      by_cases hk : s.id = slot.id
      · have : s = slot := slot_eq_of_id hpk hsm hslot hk
        subst this
        simp only [if_true]
        omega
      · simp only [hk, if_false]
        exact hb s hsm
    · have hs1 : db'.slots = db.slots := (create_ok hcr).2.2.2.2.2.2.2.2.2.1
      intro s hs
      rw [hs1] at hs
      exact hb s hs
  · intro data tok h
    obtain ⟨slot0, others, db1, _, hcr, hres, hdb, _⟩ := insertEmergency_ok h
    have hs1 : db1.slots = db.slots := (create_ok hcr).2.2.2.2.2.2.2.2.2.1
    rw [hdb]
    apply ripple_bounded pl _ db1 (some slot0) tok
    · rw [hs1]; exact hpk
    · intro s hs; rw [hs1] at hs; exact hb s hs
    · exact hres
  · intro tokenId db' msg h
    obtain ⟨token, hfind, _, hcase⟩ := cancelToken_ok h
    obtain ⟨htm, _⟩ := token_findById_mem hfind
    rcases hcase with ⟨slotId, hconf, hsl, hcase⟩ | ⟨_, rfl⟩
    · obtain ⟨hslot, _⟩ := truthyId_some hsl
      rcases hcase with ⟨_, rfl⟩ | ⟨w, rest, db3, _, hinc, rfl⟩
      · intro s' hs'
        rw [token_cancel_slots, decrement_slots] at hs'
        obtain ⟨s, hsm, rfl⟩ := List.mem_map.mp hs'
        have := hb s hsm
        split
        · show ((s.used - 1 : Nat) : Int) ≤ s.capacity
          omega
        · exact this
      · obtain ⟨_, _, hs3, _⟩ := increment_ok hinc
        intro s' hs'
        rw [token_cancel_slots, hs3, token_update_slots, decrement_slots, List.map_map] at hs'
        obtain ⟨s, hsm, rfl⟩ := List.mem_map.mp hs'
        have hbs := hb s hsm
        simp only [Function.comp]
        by_cases hk : s.id = slotId
        · have hpos : 0 < s.used := by
            rw [hc s hsm, hk]
            exact occupancy_pos htm hconf hslot
          simp only [hk, hpos, and_self, if_true]
          show ((s.used - 1 + 1 : Nat) : Int) ≤ s.capacity
          omega
        · simp only [hk, false_and, if_false]
          exact hbs
    · intro s hs
      rw [token_cancel_slots] at hs
      exact hb s hs

/-! ## Counting tokens across an update -/

/-- Rewriting rows whose id is absent changes nothing. -/
theorem map_update_absent {l : List Token} {i : Nat} (g : Token → Token)
    (h : ∀ t ∈ l, t.id ≠ i) : l.map (fun t => if t.id = i then g t else t) = l := by
  conv_rhs => rw [← List.map_id l]
  apply List.map_congr_left
  intro t ht
  simp [h t ht]

/-- Rewriting the one row with a given id moves a count by what that row
contributed before and after. -/
theorem countP_update {l : List Token} (hnd : (l.map (fun t => t.id)).Nodup) {t0 : Token}
    (h0 : t0 ∈ l) (g : Token → Token) (p : Token → Bool) :
    (l.map (fun t => if t.id = t0.id then g t else t)).countP p + (if p t0 then 1 else 0) =
      l.countP p + (if p (g t0) then 1 else 0) := by
  induction l with
  | nil => cases h0
  | cons a rest ih =>
    rw [List.map_cons, List.nodup_cons] at hnd
    obtain ⟨hna, hrest⟩ := hnd
    rcases List.mem_cons.mp h0 with rfl | hmem
    · have habs : ∀ t ∈ rest, t.id ≠ t0.id := by
        intro t ht he
        exact hna (List.mem_map.mpr ⟨t, ht, he⟩)
      rw [List.map_cons, map_update_absent g habs]
      simp only [if_true, List.countP_cons]
      omega
    · have hne : a.id ≠ t0.id := by
        intro he
        exact hna (List.mem_map.mpr ⟨t0, hmem, he.symm⟩)
      have := ih hrest hmem
      rw [List.map_cons]
      simp only [hne, if_false, List.countP_cons]
      omega

theorem update_ids (db : Db) (i : Nat) (sl : Option Nat) (st : Status) :
    (Token.update db i sl st).tokens.map (fun t => t.id) = db.tokens.map (fun t => t.id) := by
  rw [token_update_tokens, List.map_map]
  apply List.map_congr_left
  intro t _
  simp only [Function.comp]
  split <;> rfl

theorem cancel_ids (db : Db) (i : Nat) :
    (Token.cancel db i).tokens.map (fun t => t.id) = db.tokens.map (fun t => t.id) := by
  rw [token_cancel_tokens, List.map_map]
  apply List.map_congr_left
  intro t _
  simp only [Function.comp]
  split <;> rfl

/-- A row of the table after `Token.update` is the rewritten target or an
untouched row. -/
theorem mem_update {db : Db} {i : Nat} {sl : Option Nat} {st : Status} {t' : Token}
    (h : t' ∈ (Token.update db i sl st).tokens) :
    (∃ t ∈ db.tokens, t.id = i ∧ t' = { t with slot_id := sl, status := st }) ∨
    (t' ∈ db.tokens ∧ t'.id ≠ i) := by
  rw [token_update_tokens] at h
  obtain ⟨t, ht, rfl⟩ := List.mem_map.mp h
  by_cases hi : t.id = i
  · left; exact ⟨t, ht, hi, by simp [hi]⟩
  · right; simp only [hi, if_false]; exact ⟨ht, hi⟩

/-- The rewritten target is a row of the table after `Token.update`. -/
theorem update_mem_target {db : Db} {sl : Option Nat} {st : Status} {t : Token}
    (h : t ∈ db.tokens) :
    ({ t with slot_id := sl, status := st } : Token) ∈ (Token.update db t.id sl st).tokens := by
  rw [token_update_tokens]
  exact List.mem_map.mpr ⟨t, h, by simp⟩

/-- An untouched row is a row of the table after `Token.update`. -/
theorem update_mem_other {db : Db} {i : Nat} {sl : Option Nat} {st : Status} {t : Token}
    (h : t ∈ db.tokens) (hi : t.id ≠ i) : t ∈ (Token.update db i sl st).tokens := by
  rw [token_update_tokens]
  exact List.mem_map.mpr ⟨t, h, by simp [hi]⟩

/-- A row of the table after `Token.cancel` is the cancelled target or an
untouched row. -/
theorem mem_cancel {db : Db} {i : Nat} {t' : Token} (h : t' ∈ (Token.cancel db i).tokens) :
    (∃ t ∈ db.tokens, t.id = i ∧ t' = { t with status := Status.CANCELLED }) ∨
    (t' ∈ db.tokens ∧ t'.id ≠ i) := by
  rw [token_cancel_tokens] at h
  obtain ⟨t, ht, rfl⟩ := List.mem_map.mp h
  by_cases hi : t.id = i
  · left; exact ⟨t, ht, hi, by simp [hi]⟩
  · right; simp only [hi, if_false]; exact ⟨ht, hi⟩

/-- Occupancy of a slot across `Token.update` of an existing row. -/
theorem occupancy_update {db : Db} (hnd : (db.tokens.map (fun t => t.id)).Nodup) {row : Token}
    (hrow : row ∈ db.tokens) (sl : Option Nat) (st : Status) (k : Nat) :
    occupancy (Token.update db row.id sl st) k +
        (if row.status = Status.CONFIRMED ∧ row.slot_id = some k then 1 else 0) =
      occupancy db k + (if st = Status.CONFIRMED ∧ sl = some k then 1 else 0) := by
  unfold occupancy
  rw [token_update_tokens]
  have := countP_update hnd hrow (fun t => { t with slot_id := sl, status := st })
    (fun t => decide (t.status = Status.CONFIRMED ∧ t.slot_id = some k))
  simp only [decide_eq_true_eq] at this
  exact this

/-- Occupancy of a slot across `Token.cancel` of an existing row. -/
theorem occupancy_cancel {db : Db} (hnd : (db.tokens.map (fun t => t.id)).Nodup) {row : Token}
    (hrow : row ∈ db.tokens) (k : Nat) :
    occupancy (Token.cancel db row.id) k +
        (if row.status = Status.CONFIRMED ∧ row.slot_id = some k then 1 else 0) =
      occupancy db k := by
  unfold occupancy
  rw [token_cancel_tokens]
  have := countP_update hnd hrow (fun t => { t with status := Status.CANCELLED })
    (fun t => decide (t.status = Status.CONFIRMED ∧ t.slot_id = some k))
  simp only [decide_eq_true_eq] at this
  simpa using this

/-- Occupancy only reads the tokens. -/
theorem occupancy_congr {db db' : Db} (h : db'.tokens = db.tokens) (k : Nat) :
    occupancy db' k = occupancy db k := by
  unfold occupancy; rw [h]

/-! ## Seating and evicting keep the records in agreement -/

/-- Seating an existing token that is not CONFIRMED into an existing slot keeps
the schema constraints and the agreement of tokens and slots. -/
theorem seat_keeps {db db2 : Db} {row : Token} {k : Nat} (hs : Schema db) (hc : Consistent db)
    (hrow : row ∈ db.tokens) (hst : row.status ≠ Status.CONFIRMED)
    (hk : ∃ s ∈ db.slots, s.id = k)
    (h : Slot.incrementUsage (Token.update db row.id (some k) Status.CONFIRMED) k = .ok db2) :
    Schema db2 ∧ Consistent db2 := by
  obtain ⟨ht2, hq2, hs2, hchk⟩ := increment_ok h
  rw [token_update_slots] at hs2 hchk
  rw [token_update_seq] at hq2
  have hslotmem : ∀ s' ∈ db2.slots, ∃ s ∈ db.slots,
      s' = (if s.id = k then { s with used := s.used + 1 } else s) := by
    intro s' hs'
    rw [hs2] at hs'
    obtain ⟨s, hsm, rfl⟩ := List.mem_map.mp hs'
    exact ⟨s, hsm, rfl⟩
  have hslotid : ∀ s ∈ db.slots, ∃ s' ∈ db2.slots, s'.id = s.id := by
    intro s hsm
    refine ⟨if s.id = k then { s with used := s.used + 1 } else s, ?_, ?_⟩
    · rw [hs2]; exact List.mem_map_of_mem _ hsm
    · split <;> rfl
  constructor
  · constructor
    · have hids : db2.slots.map (fun s => s.id) = db.slots.map (fun s => s.id) :=
        slot_ids_of_key (by rw [hs2]; exact map_key_increment db.slots k)
      rw [hids]; exact hs.slot_pk
    · rw [ht2, update_ids]; exact hs.token_pk
    · intro s' hs'
      obtain ⟨s, hsm, rfl⟩ := hslotmem s' hs'
      have := hs.slot_serial s hsm
      split <;> exact this
    · intro t' ht'
      rw [ht2] at ht'
      rw [hq2]
      rcases mem_update ht' with ⟨t, htm, _, rfl⟩ | ⟨htm, _⟩
      · exact hs.token_seq t htm
      · exact hs.token_seq t' htm
    · intro t' ht' k' hk'
      rw [ht2] at ht'
      rcases mem_update ht' with ⟨t, htm, _, rfl⟩ | ⟨htm, _⟩
      · simp only [Option.mem_def, Option.some.injEq] at hk'
        subst hk'
        obtain ⟨s, hsm, hsk⟩ := hk
        obtain ⟨s', hs'm, hs'id⟩ := hslotid s hsm
        exact ⟨s', hs'm, hs'id.trans hsk⟩
      · obtain ⟨s, hsm, hsk⟩ := hs.slot_fk t' htm k' hk'
        obtain ⟨s', hs'm, hs'id⟩ := hslotid s hsm
        exact ⟨s', hs'm, hs'id.trans hsk⟩
    · intro s' hs'
      obtain ⟨s, hsm, rfl⟩ := hslotmem s' hs'
      by_cases hsk : s.id = k
      · simp only [hsk, if_true]
        exact hchk s hsm hsk
      · simp only [hsk, if_false]
        exact hs.check_capacity s hsm
  · constructor
    · intro t' ht' hconf
      rw [ht2] at ht'
      rcases mem_update ht' with ⟨t, htm, _, rfl⟩ | ⟨htm, _⟩
      · simp
      · exact hc.confirmed_seated t' htm hconf
    · intro t' ht' hwait
      rw [ht2] at ht'
      rcases mem_update ht' with ⟨t, htm, _, rfl⟩ | ⟨htm, _⟩
      · simp at hwait
      · exact hc.waiting_unseated t' htm hwait
    · intro s' hs'
      obtain ⟨s, hsm, rfl⟩ := hslotmem s' hs'
      have hocc := occupancy_update hs.token_pk hrow (some k) Status.CONFIRMED s.id
      have hzero : (if row.status = Status.CONFIRMED ∧ row.slot_id = some s.id then 1 else 0) = 0 :=
        if_neg (fun hh => hst hh.1)
      rw [hzero] at hocc
      have hused := hc.used_counts s hsm
      have hid : (if s.id = k then { s with used := s.used + 1 } else s).id = s.id := by
        split <;> rfl
      rw [hid, occupancy_congr ht2]
      by_cases hsk : s.id = k
      · have hone : (if Status.CONFIRMED = Status.CONFIRMED ∧ some k = some s.id then 1 else 0) = 1 :=
          if_pos ⟨rfl, by rw [hsk]⟩
        rw [hone] at hocc
        simp only [hsk, if_true]
        rw [hsk] at hused hocc
        omega
      · have hnone : (if Status.CONFIRMED = Status.CONFIRMED ∧ some k = some s.id then 1 else 0) = 0 :=
          if_neg (fun hh => hsk (by injection hh.2 with e; exact e.symm))
        rw [hnone] at hocc
        simp only [hsk, if_false]
        omega

/-- Evicting a CONFIRMED token of a slot keeps the schema constraints and the
agreement of tokens and slots. -/
theorem evict_keeps {db : Db} {v : Token} {k : Nat} (hs : Schema db) (hc : Consistent db)
    (hv : v ∈ db.tokens) (hst : v.status = Status.CONFIRMED) (hsl : v.slot_id = some k) :
    Schema (Slot.decrementUsage (Token.update db v.id none Status.WAITING) k) ∧
    Consistent (Slot.decrementUsage (Token.update db v.id none Status.WAITING) k) := by
  have hslotmem : ∀ s' ∈ (Slot.decrementUsage (Token.update db v.id none Status.WAITING) k).slots,
      ∃ s ∈ db.slots, s' = (if s.id = k ∧ 0 < s.used then { s with used := s.used - 1 } else s) := by
    intro s' hs'
    rw [decrement_slots, token_update_slots] at hs'
    obtain ⟨s, hsm, rfl⟩ := List.mem_map.mp hs'
    exact ⟨s, hsm, rfl⟩
  have hslotid : ∀ s ∈ db.slots,
      ∃ s' ∈ (Slot.decrementUsage (Token.update db v.id none Status.WAITING) k).slots,
        s'.id = s.id := by
    intro s hsm
    refine ⟨if s.id = k ∧ 0 < s.used then { s with used := s.used - 1 } else s, ?_, ?_⟩
    · rw [decrement_slots, token_update_slots]; exact List.mem_map_of_mem _ hsm
    · split <;> rfl
  constructor
  · constructor
    · have hids : (Slot.decrementUsage (Token.update db v.id none Status.WAITING) k).slots.map
          (fun s => s.id) = db.slots.map (fun s => s.id) :=
        slot_ids_of_key (by
          rw [decrement_slots, token_update_slots]; exact map_key_decrement db.slots k)
      rw [hids]; exact hs.slot_pk
    · rw [decrement_tokens, update_ids]; exact hs.token_pk
    · intro s' hs'
      obtain ⟨s, hsm, rfl⟩ := hslotmem s' hs'
      have := hs.slot_serial s hsm
      split <;> exact this
    · intro t' ht'
      rw [decrement_tokens] at ht'
      rw [decrement_seq, token_update_seq]
      rcases mem_update ht' with ⟨t, htm, _, rfl⟩ | ⟨htm, _⟩
      · exact hs.token_seq t htm
      · exact hs.token_seq t' htm
    · intro t' ht' k' hk'
      rw [decrement_tokens] at ht'
      rcases mem_update ht' with ⟨t, htm, _, rfl⟩ | ⟨htm, _⟩
      · simp at hk'
      · obtain ⟨s, hsm, hsk⟩ := hs.slot_fk t' htm k' hk'
        obtain ⟨s', hs'm, hs'id⟩ := hslotid s hsm
        exact ⟨s', hs'm, hs'id.trans hsk⟩
    · intro s' hs'
      obtain ⟨s, hsm, rfl⟩ := hslotmem s' hs'
      have := hs.check_capacity s hsm
      split
      · show ((s.used - 1 : Nat) : Int) ≤ s.capacity + 5
        omega
      · exact this
  · constructor
    · intro t' ht' hconf
      rw [decrement_tokens] at ht'
      rcases mem_update ht' with ⟨t, htm, _, rfl⟩ | ⟨htm, _⟩
      · simp at hconf
      · exact hc.confirmed_seated t' htm hconf
    · intro t' ht' hwait
      rw [decrement_tokens] at ht'
      rcases mem_update ht' with ⟨t, htm, _, rfl⟩ | ⟨htm, _⟩
      · rfl
      · exact hc.waiting_unseated t' htm hwait
    · intro s' hs'
      obtain ⟨s, hsm, rfl⟩ := hslotmem s' hs'
      have hocc := occupancy_update hs.token_pk hv none Status.WAITING s.id
      have hzero : (if Status.WAITING = Status.CONFIRMED ∧ (none : Option Nat) = some s.id
          then 1 else 0) = 0 := if_neg (fun hh => by cases hh.1)
      rw [hzero] at hocc
      have hused := hc.used_counts s hsm
      have hid : (if s.id = k ∧ 0 < s.used then { s with used := s.used - 1 } else s).id = s.id := by
        split <;> rfl
      rw [hid, occupancy_congr (decrement_tokens _ k)]
      by_cases hsk : s.id = k
      · have hone : (if v.status = Status.CONFIRMED ∧ v.slot_id = some s.id then 1 else 0) = 1 :=
          if_pos ⟨hst, by rw [hsl, hsk]⟩
        rw [hone] at hocc
        have hpos : 0 < s.used := by
          rw [hused, hsk]; exact occupancy_pos hv hst hsl
        simp only [hsk, hpos, and_self, if_true]
        rw [hsk] at hused hocc
        show s.used - 1 = _
        omega
      · have hnone : (if v.status = Status.CONFIRMED ∧ v.slot_id = some s.id then 1 else 0) = 0 :=
          if_neg (fun hh => hsk (by rw [hsl] at hh; injection hh.2 with e; exact e.symm))
        rw [hnone] at hocc
        simp only [hsk, false_and, if_false]
        omega

/-- Leaving an existing token that is not CONFIRMED on the waiting list keeps
the schema constraints and the agreement of tokens and slots. -/
theorem park_keeps {db : Db} {row : Token} (hs : Schema db) (hc : Consistent db)
    (hrow : row ∈ db.tokens) (hst : row.status ≠ Status.CONFIRMED) :
    Schema (Token.update db row.id none Status.WAITING) ∧
    Consistent (Token.update db row.id none Status.WAITING) := by
  constructor
  · constructor
    · exact hs.slot_pk
    · rw [update_ids]; exact hs.token_pk
    · exact hs.slot_serial
    · intro t' ht'
      rw [token_update_seq]
      rcases mem_update ht' with ⟨t, htm, _, rfl⟩ | ⟨htm, _⟩
      · exact hs.token_seq t htm
      · exact hs.token_seq t' htm
    · intro t' ht' k' hk'
      rcases mem_update ht' with ⟨t, htm, _, rfl⟩ | ⟨htm, _⟩
      · simp at hk'
      · exact hs.slot_fk t' htm k' hk'
    · exact hs.check_capacity
  · constructor
    · intro t' ht' hconf
      rcases mem_update ht' with ⟨t, htm, _, rfl⟩ | ⟨htm, _⟩
      · simp at hconf
      · exact hc.confirmed_seated t' htm hconf
    · intro t' ht' hwait
      rcases mem_update ht' with ⟨t, htm, _, rfl⟩ | ⟨htm, _⟩
      · rfl
      · exact hc.waiting_unseated t' htm hwait
    · intro s hsm
      rw [token_update_slots] at hsm
      have hocc := occupancy_update hs.token_pk hrow none Status.WAITING s.id
      have h1 : (if row.status = Status.CONFIRMED ∧ row.slot_id = some s.id then 1 else 0) = 0 :=
        if_neg (fun hh => hst hh.1)
      have h2 : (if Status.WAITING = Status.CONFIRMED ∧ (none : Option Nat) = some s.id
          then 1 else 0) = 0 := if_neg (fun hh => by cases hh.1)
      rw [h1, h2] at hocc
      have := hc.used_counts s hsm
      omega

/-- A cascade that returns keeps the schema constraints and the agreement of
tokens and slots, when it starts with a token of the store that is not CONFIRMED. -/
theorem ripple_keeps (pl : Planner) :
    ∀ (fuel : Nat) (db : Db) (slot : Option Slot) (token : Token),
      Schema db → Consistent db →
      (∃ row ∈ db.tokens, row.id = token.id ∧ row.status ≠ Status.CONFIRMED) →
      (rippleInsert pl fuel db slot token).result = Outcome.ok () →
      Schema (rippleInsert pl fuel db slot token).db ∧
      Consistent (rippleInsert pl fuel db slot token).db := by
  intro fuel
  induction fuel with
  | zero =>
    intro db slot token _ _ _ h
    rw [rippleInsert_zero] at h
    cases h
  | succ fuel ih =>
    intro db slot token hs hc hrow hres
    obtain ⟨row, hrm, hrid, hrst⟩ := hrow
    cases slot with
    | none =>
      rw [rippleInsert_none, ← hrid]
      exact park_keeps hs hc hrm hrst
    | some slot =>
      cases h : Slot.incrementUsage (Token.update db token.id (some slot.id) Status.CONFIRMED)
          slot.id with
      | error e =>
        rw [rippleInsert_rejected pl fuel db slot token h] at hres
        cases hres
      | ok db2 =>
        cases hf : Slot.findById db2 slot.id with
        | none =>
          rw [rippleInsert_missing pl fuel db db2 slot token h hf] at hres
          cases hres
        | some u =>
          have hk : ∃ s ∈ db.slots, s.id = slot.id := by
            obtain ⟨hum, huk⟩ := findById_mem hf
            obtain ⟨_, _, hs2, _⟩ := increment_ok h
            rw [hs2, token_update_slots] at hum
            obtain ⟨s, hsm, rfl⟩ := List.mem_map.mp hum
            refine ⟨s, hsm, ?_⟩
            rw [← huk]
            split <;> rfl
          have h' := h
          rw [← hrid] at h'
          obtain ⟨hs2, hc2⟩ := seat_keeps hs hc hrm hrst hk h'
          by_cases hu : u.capacity < u.used
          · cases hv : Token.findLowestPriorityInSlot pl db2 slot.id with
            | none =>
              rw [rippleInsert_noVictim pl fuel db db2 slot u token h hf hu hv] at hres
              cases hres
            | some v =>
              rw [rippleInsert_overflow pl fuel db db2 slot u token v h hf hu hv] at hres ⊢
              obtain ⟨hvm, hvsl, hvst, _⟩ := findLowest_some hv
              obtain ⟨hs4, hc4⟩ := evict_keeps hs2 hc2 hvm hvst hvsl
              apply ih _ _ _ hs4 hc4 _ hres
              refine ⟨{ v with slot_id := none, status := Status.WAITING }, ?_, rfl, by simp⟩
              rw [decrement_tokens]
              exact update_mem_target hvm
          · rw [rippleInsert_fits pl fuel db db2 slot u token h hf hu]
            exact ⟨hs2, hc2⟩

/-! ## Each statement keeps the schema constraints -/

theorem update_schema {db : Db} (hs : Schema db) (i : Nat) (sl : Option Nat) (st : Status)
    (hsl : ∀ k ∈ sl, ∃ s ∈ db.slots, s.id = k) : Schema (Token.update db i sl st) := by
  constructor
  · exact hs.slot_pk
  · rw [update_ids]; exact hs.token_pk
  · exact hs.slot_serial
  · intro t' ht'
    rw [token_update_seq]
    rcases mem_update ht' with ⟨t, htm, _, rfl⟩ | ⟨htm, _⟩
    · exact hs.token_seq t htm
    · exact hs.token_seq t' htm
  · intro t' ht' k' hk'
    rcases mem_update ht' with ⟨t, htm, _, rfl⟩ | ⟨htm, _⟩
    · exact hsl k' hk'
    · exact hs.slot_fk t' htm k' hk'
  · exact hs.check_capacity

theorem cancel_schema {db : Db} (hs : Schema db) (i : Nat) : Schema (Token.cancel db i) := by
  constructor
  · exact hs.slot_pk
  · rw [cancel_ids]; exact hs.token_pk
  · exact hs.slot_serial
  · intro t' ht'
    rw [token_cancel_seq]
    rcases mem_cancel ht' with ⟨t, htm, _, rfl⟩ | ⟨htm, _⟩
    · exact hs.token_seq t htm
    · exact hs.token_seq t' htm
  · intro t' ht' k' hk'
    rcases mem_cancel ht' with ⟨t, htm, _, rfl⟩ | ⟨htm, _⟩
    · exact hs.slot_fk t htm k' hk'
    · exact hs.slot_fk t' htm k' hk'
  · exact hs.check_capacity

theorem decrement_schema {db : Db} (hs : Schema db) (k : Nat) :
    Schema (Slot.decrementUsage db k) := by
  have hslotmem : ∀ s' ∈ (Slot.decrementUsage db k).slots, ∃ s ∈ db.slots,
      s' = (if s.id = k ∧ 0 < s.used then { s with used := s.used - 1 } else s) := by
    intro s' hs'
    rw [decrement_slots] at hs'
    obtain ⟨s, hsm, rfl⟩ := List.mem_map.mp hs'
    exact ⟨s, hsm, rfl⟩
  constructor
  · have hids : (Slot.decrementUsage db k).slots.map (fun s => s.id) =
        db.slots.map (fun s => s.id) :=
      slot_ids_of_key (by rw [decrement_slots]; exact map_key_decrement db.slots k)
    rw [hids]; exact hs.slot_pk
  · exact hs.token_pk
  · intro s' hs'
    obtain ⟨s, hsm, rfl⟩ := hslotmem s' hs'
    have := hs.slot_serial s hsm
    split <;> exact this
  · exact hs.token_seq
  · intro t ht k' hk'
    obtain ⟨s, hsm, hsk⟩ := hs.slot_fk t ht k' hk'
    refine ⟨if s.id = k ∧ 0 < s.used then { s with used := s.used - 1 } else s, ?_, ?_⟩
    · rw [decrement_slots]; exact List.mem_map_of_mem _ hsm
    · rw [← hsk]; split <;> rfl
  · intro s' hs'
    obtain ⟨s, hsm, rfl⟩ := hslotmem s' hs'
    have := hs.check_capacity s hsm
    split
    · show ((s.used - 1 : Nat) : Int) ≤ s.capacity + 5
      omega
    · exact this

theorem increment_schema {db db2 : Db} {k : Nat} (hs : Schema db)
    (h : Slot.incrementUsage db k = .ok db2) : Schema db2 := by
  obtain ⟨ht2, hq2, hs2, hchk⟩ := increment_ok h
  have hslotmem : ∀ s' ∈ db2.slots, ∃ s ∈ db.slots,
      s' = (if s.id = k then { s with used := s.used + 1 } else s) := by
    intro s' hs'
    rw [hs2] at hs'
    obtain ⟨s, hsm, rfl⟩ := List.mem_map.mp hs'
    exact ⟨s, hsm, rfl⟩
  constructor
  · have hids : db2.slots.map (fun s => s.id) = db.slots.map (fun s => s.id) :=
      slot_ids_of_key (by rw [hs2]; exact map_key_increment db.slots k)
    rw [hids]; exact hs.slot_pk
  · rw [ht2]; exact hs.token_pk
  · intro s' hs'
    obtain ⟨s, hsm, rfl⟩ := hslotmem s' hs'
    have := hs.slot_serial s hsm
    split <;> exact this
  · rw [ht2, hq2]; exact hs.token_seq
  · intro t ht k' hk'
    rw [ht2] at ht
    obtain ⟨s, hsm, hsk⟩ := hs.slot_fk t ht k' hk'
    refine ⟨if s.id = k then { s with used := s.used + 1 } else s, ?_, ?_⟩
    · rw [hs2]; exact List.mem_map_of_mem _ hsm
    · rw [← hsk]; split <;> rfl
  · intro s' hs'
    obtain ⟨s, hsm, rfl⟩ := hslotmem s' hs'
    by_cases hsk : s.id = k
    · simp only [hsk, if_true]
      exact hchk s hsm hsk
    · simp only [hsk, if_false]
      exact hs.check_capacity s hsm

theorem create_schema {db db1 : Db} {now : Nat} {d : NewToken} {tok : Token} (hs : Schema db)
    (hsl : ∀ k ∈ truthyId d.slotId, ∃ s ∈ db.slots, s.id = k)
    (h : Token.create db now d = .ok (db1, tok)) : Schema db1 := by
  obtain ⟨_, _, hid, _, _, hslot, _, _, _, hs1, ht1, hq1⟩ := create_ok h
  constructor
  · rw [hs1]; exact hs.slot_pk
  · rw [ht1, List.map_append, List.nodup_append]
    refine ⟨hs.token_pk, by simp, ?_⟩
    intro a ha hb
    simp only [List.map_cons, List.map_nil, List.mem_singleton] at hb
    obtain ⟨t, htm, rfl⟩ := List.mem_map.mp ha
    have := hs.token_seq t htm
    rw [hb, hid] at this
    exact absurd this (lt_irrefl _)
  · rw [hs1]; exact hs.slot_serial
  · intro t ht
    rw [ht1] at ht
    rw [hq1]
    rcases List.mem_append.mp ht with htm | htm
    · exact Nat.lt_succ_of_lt (hs.token_seq t htm)
    · simp only [List.mem_singleton] at htm
      rw [htm, hid]; exact Nat.lt_succ_self _
  · intro t ht k' hk'
    rw [ht1] at ht
    rw [hs1]
    rcases List.mem_append.mp ht with htm | htm
    · exact hs.slot_fk t htm k' hk'
    · simp only [List.mem_singleton] at htm
      rw [htm, hslot] at hk'
      exact hsl k' hk'
  · rw [hs1]; exact hs.check_capacity

/-- Occupancy of a slot after an insert. -/
theorem occupancy_create {db db1 : Db} {now : Nat} {d : NewToken} {tok : Token}
    (h : Token.create db now d = .ok (db1, tok)) (k : Nat) :
    occupancy db1 k =
      occupancy db k + (if tok.status = Status.CONFIRMED ∧ tok.slot_id = some k then 1 else 0) := by
  obtain ⟨_, _, _, _, _, _, _, _, _, _, ht1, _⟩ := create_ok h
  unfold occupancy
  rw [ht1, List.countP_append, List.countP_cons, List.countP_nil]
  simp

/-! ## Each operation keeps the records in agreement -/

/-- A successful booking keeps the schema constraints and the agreement of
tokens and slots. -/
theorem allocateToken_keeps {pl : Planner} {clk : Clock} {db db' : Db} {data : BookRequest}
    {tok : Token} (hs : Schema db) (hc : Consistent db)
    (h : allocateToken pl clk db data = (db', .ok tok)) : Schema db' ∧ Consistent db' := by
  rcases allocateToken_ok h with ⟨slot, db1, hfind, hcr, hinc⟩ | ⟨_, _, hcr⟩
  · have hslot : slot ∈ db.slots :=
      ((mem_findByDoctorId pl db data.doctorId slot).mp (List.mem_of_find?_eq_some hfind)).1
    have hne : slot.id ≠ 0 := hs.slot_serial slot hslot
    have hs1 : Schema db1 := by
      apply create_schema hs _ hcr
      intro k hk
      simp only [truthyId_of_ne_zero hne, Option.mem_def, Option.some.injEq] at hk
      exact ⟨slot, hslot, hk⟩
    refine ⟨increment_schema hs1 hinc, ?_⟩
    obtain ⟨_, _, _, _, _, htsl, _, htst, _, hsl1, ht1, _⟩ := create_ok hcr
    obtain ⟨ht2, _, hsl2, _⟩ := increment_ok hinc
    simp only [truthyId_of_ne_zero hne] at htsl
    simp only at htst
    constructor
    · intro t ht hconf
      rw [ht2, ht1] at ht
      rcases List.mem_append.mp ht with htm | htm
      · exact hc.confirmed_seated t htm hconf
      · simp only [List.mem_singleton] at htm
        rw [htm, htsl]; simp
    · intro t ht hwait
      rw [ht2, ht1] at ht
      rcases List.mem_append.mp ht with htm | htm
      · exact hc.waiting_unseated t htm hwait
      · simp only [List.mem_singleton] at htm
        rw [htm, htst] at hwait
        cases hwait
    · intro s' hs'
      rw [hsl2, hsl1] at hs'
      obtain ⟨s, hsm, rfl⟩ := List.mem_map.mp hs'
      have hid : (if s.id = slot.id then { s with used := s.used + 1 } else s).id = s.id := by
        split <;> rfl
      rw [hid, occupancy_congr ht2, occupancy_create hcr, htst, htsl]
      have hused := hc.used_counts s hsm
      by_cases hsk : s.id = slot.id
      · have h1 : (if Status.CONFIRMED = Status.CONFIRMED ∧ some slot.id = some s.id then 1 else 0)
            = 1 := if_pos ⟨rfl, by rw [hsk]⟩
        rw [h1]
        simp only [hsk, if_true]
        rw [hsk] at hused
        show s.used + 1 = _
        omega
      · have h0 : (if Status.CONFIRMED = Status.CONFIRMED ∧ some slot.id = some s.id then 1 else 0)
            = 0 := if_neg (fun hh => hsk (by injection hh.2 with e; exact e.symm))
        rw [h0]
        simp only [hsk, if_false]
        omega
  · have hs1 : Schema db' := by
      apply create_schema hs _ hcr
      intro k hk
      simp [truthyId] at hk
    refine ⟨hs1, ?_⟩
    obtain ⟨_, _, _, _, _, htsl, _, htst, _, hsl1, ht1, _⟩ := create_ok hcr
    simp only at htst
    have htsl' : tok.slot_id = none := by rw [htsl]; rfl
    constructor
    · intro t ht hconf
      rw [ht1] at ht
      rcases List.mem_append.mp ht with htm | htm
      · exact hc.confirmed_seated t htm hconf
      · simp only [List.mem_singleton] at htm
        rw [htm, htst] at hconf
        cases hconf
    · intro t ht hwait
      rw [ht1] at ht
      rcases List.mem_append.mp ht with htm | htm
      · exact hc.waiting_unseated t htm hwait
      · simp only [List.mem_singleton] at htm
        rw [htm, htsl']
    · intro s hsm
      rw [hsl1] at hsm
      rw [occupancy_create hcr, htst]
      have := hc.used_counts s hsm
      simp only [reduceCtorEq, false_and, if_false]
      omega

/-- A successful emergency insertion keeps the schema constraints and the
agreement of tokens and slots. -/
theorem insertEmergency_keeps {pl : Planner} {clk : Clock} {db : Db} {data : EmergencyRequest}
    {tok : Token} (hs : Schema db) (hc : Consistent db)
    (h : (insertEmergency pl clk db data).result = Outcome.ok tok) :
    Schema (insertEmergency pl clk db data).db ∧ Consistent (insertEmergency pl clk db data).db := by
  obtain ⟨slot0, others, db1, _, hcr, hres, hdb, _⟩ := insertEmergency_ok h
  have hs1 : Schema db1 := by
    apply create_schema hs _ hcr
    intro k hk
    simp [truthyId] at hk
  obtain ⟨_, _, _, _, _, htsl, _, htst, _, hsl1, ht1, _⟩ := create_ok hcr
  simp only at htst
  have htsl' : tok.slot_id = none := by rw [htsl]; rfl
  have hc1 : Consistent db1 := by
    constructor
    · intro t ht hconf
      rw [ht1] at ht
      rcases List.mem_append.mp ht with htm | htm
      · exact hc.confirmed_seated t htm hconf
      · simp only [List.mem_singleton] at htm
        rw [htm, htst] at hconf
        cases hconf
    · intro t ht hwait
      rw [ht1] at ht
      rcases List.mem_append.mp ht with htm | htm
      · exact hc.waiting_unseated t htm hwait
      · simp only [List.mem_singleton] at htm
        rw [htm, htsl']
    · intro s hsm
      rw [hsl1] at hsm
      rw [occupancy_create hcr, htst]
      have := hc.used_counts s hsm
      simp only [reduceCtorEq, false_and, if_false]
      omega
  rw [hdb]
  apply ripple_keeps pl _ db1 (some slot0) tok hs1 hc1 _ hres
  refine ⟨tok, ?_, rfl, ?_⟩
  · rw [ht1]; simp
  · rw [htst]; simp

/-- In a store that obeys its schema and whose records agree, the slot of a
CONFIRMED token passes the truthiness test of `cancelToken`. -/
theorem confirmed_truthy {db : Db} {t : Token} (hs : Schema db) (hc : Consistent db)
    (ht : t ∈ db.tokens) (hst : t.status = Status.CONFIRMED) :
    ∃ k, t.slot_id = some k ∧ truthyId t.slot_id = some k ∧ ∃ s ∈ db.slots, s.id = k := by
  have hne := hc.confirmed_seated t ht hst
  cases hsl : t.slot_id with
  | none => exact absurd hsl hne
  | some k =>
    obtain ⟨s, hsm, hsk⟩ := hs.slot_fk t ht k (by rw [hsl]; rfl)
    have hk0 : k ≠ 0 := by rw [← hsk]; exact hs.slot_serial s hsm
    exact ⟨k, rfl, truthyId_of_ne_zero hk0, s, hsm, hsk⟩

/-- Incrementing right after a decrement that took effect restores the slots. -/
theorem increment_decrement (l : List Slot) (k : Nat) (hpos : ∀ s ∈ l, s.id = k → 0 < s.used) :
    (l.map (fun s => if s.id = k ∧ 0 < s.used then { s with used := s.used - 1 } else s)).map
      (fun s => if s.id = k then { s with used := s.used + 1 } else s) = l := by
  rw [List.map_map]
  conv_rhs => rw [← List.map_id l]
  apply List.map_congr_left
  intro s hs
  simp only [Function.comp, id]
  by_cases h : s.id = k
  · have hp := hpos s hs h
    simp only [h, hp, and_self, if_true]
    cases s
    simp only [Slot.mk.injEq, true_and] at h ⊢
    refine ⟨h.symm, ?_⟩
    simp only at hp
    omega
  · simp [h]

/-- A successful cancellation keeps the schema constraints and the agreement of
tokens and slots. -/
theorem cancelToken_keeps {pl : Planner} {db db' : Db} {tokenId : Nat} {msg : String}
    (hs : Schema db) (hc : Consistent db) (h : cancelToken pl db tokenId = (db', .ok msg)) :
    Schema db' ∧ Consistent db' := by
  obtain ⟨token, hfind, hnc, hcase⟩ := cancelToken_ok h
  obtain ⟨htm, hid⟩ := token_findById_mem hfind
  subst hid
  rcases hcase with ⟨slotId, hconf, htr, hcase⟩ | ⟨hA, rfl⟩
  · obtain ⟨hsl, _⟩ := truthyId_some htr
    obtain ⟨k, hk1, _, sk, hskm, hskid⟩ := confirmed_truthy hs hc htm hconf
    rw [hsl] at hk1
    injection hk1 with hk1
    subst hk1
    have hpos : ∀ s ∈ db.slots, s.id = slotId → 0 < s.used := by
      intro s hsm hsid
      rw [hc.used_counts s hsm, hsid]
      exact occupancy_pos htm hconf hsl
    rcases hcase with ⟨_, rfl⟩ | ⟨w, rest, db3, hw, hinc, rfl⟩
    · refine ⟨cancel_schema (decrement_schema hs slotId) _, ?_⟩
      constructor
      · intro t' ht' hconf'
        rcases mem_cancel ht' with ⟨t, _, _, rfl⟩ | ⟨htm', _⟩
        · cases hconf'
        · exact hc.confirmed_seated t' htm' hconf'
      · intro t' ht' hwait
        rcases mem_cancel ht' with ⟨t, _, _, rfl⟩ | ⟨htm', _⟩
        · cases hwait
        · exact hc.waiting_unseated t' htm' hwait
      · intro s' hs'
        rw [token_cancel_slots, decrement_slots] at hs'
        obtain ⟨s, hsm, rfl⟩ := List.mem_map.mp hs'
        have hocc := @occupancy_cancel (Slot.decrementUsage db slotId) hs.token_pk token htm s.id
        rw [occupancy_congr (decrement_tokens db slotId)] at hocc
        have hused := hc.used_counts s hsm
        have hid : (if s.id = slotId ∧ 0 < s.used then { s with used := s.used - 1 } else s).id
            = s.id := by split <;> rfl
        rw [hid]
        by_cases hsk : s.id = slotId
        · have h1 : (if token.status = Status.CONFIRMED ∧ token.slot_id = some s.id then 1 else 0)
              = 1 := if_pos ⟨hconf, by rw [hsl, hsk]⟩
          rw [h1] at hocc
          have hp := hpos s hsm hsk
          simp only [hsk, hp, and_self, if_true]
          rw [hsk] at hocc hused
          show s.used - 1 = _
          omega
        · have h0 : (if token.status = Status.CONFIRMED ∧ token.slot_id = some s.id then 1 else 0)
              = 0 := if_neg (fun hh => hsk (by rw [hsl] at hh; injection hh.2 with e; exact e.symm))
          rw [h0] at hocc
          simp only [hsk, false_and, if_false]
          omega
    · obtain ⟨hwm, _, hwst, _⟩ := findWaiting_head hw
      rw [decrement_tokens] at hwm
      have hne : token.id ≠ w.id := by
        intro he
        have := token_eq_of_id hs.token_pk htm hwm he
        rw [this, hwst] at hconf
        cases hconf
      have hs1 := decrement_schema hs slotId
      have hs2 : Schema (Token.update (Slot.decrementUsage db slotId) w.id (some slotId)
          Status.CONFIRMED) := by
        have hex := hs1.slot_fk token (by rw [decrement_tokens]; exact htm) slotId
          (by rw [hsl]; rfl)
        apply update_schema hs1
        intro k hk
        simp only [Option.mem_def, Option.some.injEq] at hk
        rw [← hk]
        exact hex
      have hs3 := increment_schema hs2 hinc
      refine ⟨cancel_schema hs3 _, ?_⟩
      obtain ⟨ht3, _, hsl3, _⟩ := increment_ok hinc
      have hslots : db3.slots = db.slots := by
        rw [hsl3, token_update_slots, decrement_slots]
        exact increment_decrement db.slots slotId hpos
      constructor
      · intro t' ht' hconf'
        rcases mem_cancel ht' with ⟨t, _, _, rfl⟩ | ⟨htm', _⟩
        · cases hconf'
        · rw [ht3] at htm'
          rcases mem_update htm' with ⟨t, _, _, rfl⟩ | ⟨htm'', _⟩
          · simp
          · exact hc.confirmed_seated t' htm'' hconf'
      · intro t' ht' hwait
        rcases mem_cancel ht' with ⟨t, _, _, rfl⟩ | ⟨htm', _⟩
        · cases hwait
        · rw [ht3] at htm'
          rcases mem_update htm' with ⟨t, _, _, rfl⟩ | ⟨htm'', _⟩
          · cases hwait
          · exact hc.waiting_unseated t' htm'' hwait
      · intro s hsm
        rw [token_cancel_slots, hslots] at hsm
        have htm3 : token ∈ db3.tokens := by
          rw [ht3]; exact update_mem_other (by rw [decrement_tokens]; exact htm) hne
        have hocc3 := occupancy_cancel hs3.token_pk htm3 s.id
        have hocc2 := @occupancy_update (Slot.decrementUsage db slotId) hs.token_pk w hwm
          (some slotId) Status.CONFIRMED s.id
        rw [occupancy_congr (decrement_tokens db slotId)] at hocc2
        rw [occupancy_congr ht3] at hocc3
        have hw0 : (if w.status = Status.CONFIRMED ∧ w.slot_id = some s.id then 1 else 0) = 0 :=
          if_neg (fun hh => by rw [hwst] at hh; cases hh.1)
        rw [hw0] at hocc2
        have hused := hc.used_counts s hsm
        by_cases hsk : s.id = slotId
        · have h1 : (if token.status = Status.CONFIRMED ∧ token.slot_id = some s.id then 1 else 0)
              = 1 := if_pos ⟨hconf, by rw [hsl, hsk]⟩
          have h2 : (if Status.CONFIRMED = Status.CONFIRMED ∧ some slotId = some s.id then 1 else 0)
              = 1 := if_pos ⟨rfl, by rw [hsk]⟩
          rw [h1] at hocc3
          rw [h2] at hocc2
          omega
        · have h1 : (if token.status = Status.CONFIRMED ∧ token.slot_id = some s.id then 1 else 0)
              = 0 := if_neg (fun hh => hsk (by rw [hsl] at hh; injection hh.2 with e; exact e.symm))
          have h2 : (if Status.CONFIRMED = Status.CONFIRMED ∧ some slotId = some s.id then 1 else 0)
              = 0 := if_neg (fun hh => hsk (by injection hh.2 with e; exact e.symm))
          rw [h1] at hocc3
          rw [h2] at hocc2
          omega
  · have hnconf : token.status ≠ Status.CONFIRMED := by
      intro hconf
      obtain ⟨k, _, htr, _⟩ := confirmed_truthy hs hc htm hconf
      rcases hA with hA | hA
      · exact hA hconf
      · rw [hA] at htr; cases htr
    refine ⟨cancel_schema hs _, ?_⟩
    constructor
    · intro t' ht' hconf'
      rcases mem_cancel ht' with ⟨t, _, _, rfl⟩ | ⟨htm', _⟩
      · cases hconf'
      · exact hc.confirmed_seated t' htm' hconf'
    · intro t' ht' hwait
      rcases mem_cancel ht' with ⟨t, _, _, rfl⟩ | ⟨htm', _⟩
      · cases hwait
      · exact hc.waiting_unseated t' htm' hwait
    · intro s hsm
      rw [token_cancel_slots] at hsm
      have hocc := occupancy_cancel hs.token_pk htm s.id
      have h0 : (if token.status = Status.CONFIRMED ∧ token.slot_id = some s.id then 1 else 0)
          = 0 := if_neg (fun hh => hnconf hh.1)
      rw [h0] at hocc
      have := hc.used_counts s hsm
      omega

/-- Claim C10. Token/slot consistency invariant.  The predicate "every CONFIRMED
token has a non-null `slot_id`, every WAITING token has a null `slot_id`, and
every slot's `used` equals the number of CONFIRMED tokens whose `slot_id` is
that slot" holds in the initial state (no tokens, every `used` zero), and in a
store that obeys the constraints of its schema it is preserved by every
successful `allocateToken`, `insertEmergency` and `cancelToken`. -/
theorem consistency_invariant :
    (∀ (slots : List Slot) (seq : Nat), (∀ s ∈ slots, s.used = 0) →
      Consistent ⟨slots, [], seq⟩) ∧
    (∀ (pl : Planner) (clk : Clock) (db : Db), Schema db → Consistent db →
      (∀ data db' tok, allocateToken pl clk db data = (db', .ok tok) → Consistent db') ∧
      (∀ data tok, (insertEmergency pl clk db data).result = Outcome.ok tok →
        Consistent (insertEmergency pl clk db data).db) ∧
      (∀ tokenId db' msg, cancelToken pl db tokenId = (db', .ok msg) → Consistent db')) := by
  constructor
  · intro slots seq h0
    refine ⟨by simp, by simp, ?_⟩
    intro s hs
    simp only [occupancy, List.countP_nil]
    exact h0 s hs
  · intro pl clk db hs hc
    exact ⟨fun _ _ _ h => (allocateToken_keeps hs hc h).2,
      fun _ _ h => (insertEmergency_keeps hs hc h).2,
      fun _ _ _ h => (cancelToken_keeps hs hc h).2⟩

/-- The sample store obeys its schema. -/
theorem sampleDb_schema : Schema sampleDb :=
  ⟨by decide, by decide, by decide, by decide, by decide, by decide⟩

/-- The records of the sample store agree. -/
theorem sampleDb_consistent : Consistent sampleDb := ⟨by decide, by decide, by decide⟩

/-- Instance of C10 on the sample store: a booking, an emergency insertion and
a cancellation, each successful, leave the records in agreement. -/
theorem consistency_invariant_witness :
    Consistent ⟨sampleDb.slots.map (fun s => { s with used := 0 }), [], 1⟩ ∧
    Consistent (allocateToken Planner.heapOrder sampleClock sampleDb ⟨"w", 7, "WALKIN"⟩).1 ∧
    Consistent (insertEmergency Planner.heapOrder sampleClock sampleDb ⟨"e", 7⟩).db ∧
    Consistent (cancelToken Planner.heapOrder sampleDb 1).1 :=
  ⟨consistency_invariant.1 _ 1 (by decide),
   (consistency_invariant.2 Planner.heapOrder sampleClock sampleDb sampleDb_schema
      sampleDb_consistent).1 ⟨"w", 7, "WALKIN"⟩ _
      ⟨4, "w", 7, none, "WALKIN", 20, Status.WAITING, 30⟩ (by decide!),
   (consistency_invariant.2 Planner.heapOrder sampleClock sampleDb sampleDb_schema
      sampleDb_consistent).2.1 ⟨"e", 7⟩
      ⟨4, "e", 7, none, "EMERGENCY", 100, Status.WAITING, 30⟩ (by decide!),
   (consistency_invariant.2 Planner.heapOrder sampleClock sampleDb sampleDb_schema
      sampleDb_consistent).2.2 1 _ "Token cancelled successfully" (by decide!)⟩

/-- Instance of C1 on the sample store. -/
theorem capacity_invariant_witness :
    Bounded (allocateToken Planner.heapOrder sampleClock sampleDb ⟨"w", 7, "WALKIN"⟩).1 ∧
    Bounded (insertEmergency Planner.heapOrder sampleClock sampleDb ⟨"e", 7⟩).db ∧
    Bounded (cancelToken Planner.heapOrder sampleDb 1).1 :=
  ⟨(capacity_invariant Planner.heapOrder sampleClock sampleDb (by decide) (by decide)
      (by decide)).1 ⟨"w", 7, "WALKIN"⟩ _
      ⟨4, "w", 7, none, "WALKIN", 20, Status.WAITING, 30⟩ (by decide!),
   (capacity_invariant Planner.heapOrder sampleClock sampleDb (by decide) (by decide)
      (by decide)).2.1 ⟨"e", 7⟩
      ⟨4, "e", 7, none, "EMERGENCY", 100, Status.WAITING, 30⟩ (by decide!),
   (capacity_invariant Planner.heapOrder sampleClock sampleDb (by decide) (by decide)
      (by decide)).2.2 1 _ "Token cancelled successfully" (by decide!)⟩

/-- Instance of C3 on the sample store: the cascade returns and seats twice. -/
theorem cascade_terminates_witness :
    (insertEmergency Planner.heapOrder sampleClock sampleDb ⟨"e", 7⟩).result
      ≠ Outcome.outOfFuel ∧
    seats (insertEmergency Planner.heapOrder sampleClock sampleDb ⟨"e", 7⟩).log ≤ 2 :=
  ⟨(cascade_terminates Planner.heapOrder sampleClock sampleDb ⟨"e", 7⟩).1,
   (cascade_terminates Planner.heapOrder sampleClock sampleDb ⟨"e", 7⟩).2.1⟩

/-! ## Booking -/

/-- Every label of `token_type` has a numeric priority. -/
theorem calculatePriority_of_type {type : String} (h : type ∈ token_type) (createdAt now : Int) :
    ∃ p, calculatePriority type createdAt now = some p := by
  have hb : ∃ b, getBasePriority type = some b := by
    simp only [token_type, List.mem_cons, List.mem_singleton, List.not_mem_nil, or_false] at h
    rcases h with rfl | rfl | rfl | rfl | rfl <;> exact ⟨_, rfl⟩
  obtain ⟨b, hb⟩ := hb
  unfold calculatePriority
  rw [hb]
  exact ⟨_, rfl⟩

/-- A string of at most 255 characters is stored as it is. -/
theorem varchar_255_of_length {s : String} (h : s.length ≤ 255) : varchar_255 s = some s := by
  unfold varchar_255
  rw [if_pos h]

/-- An insert succeeds when the sequence of ids is not used up, the patient is
valid text that fits its column, the type is a label of `token_type` and the
priority is a number that fits its column. -/
theorem create_succeeds (db : Db) (now : Nat) (d : NewToken) {p q : ℚ} {name : String}
    (hseq : db.tokens_id_seq ≤ 2147483647)
    (hnul : Char.ofNat 0 ∉ d.patient.toList) (hty : d.type ∈ token_type)
    (hp : d.priority = some p) (hname : varchar_255 d.patient = some name)
    (hq : numeric_10_2 p = some q) :
    Token.create db now d =
      .ok ({ db with
              tokens := db.tokens ++ [⟨db.tokens_id_seq, name, d.doctorId, truthyId d.slotId,
                d.type, q, d.status, now⟩]
              tokens_id_seq := db.tokens_id_seq + 1 },
           ⟨db.tokens_id_seq, name, d.doctorId, truthyId d.slotId, d.type, q, d.status, now⟩) := by
  unfold Token.create
  rw [if_neg hnul, if_pos hty, hp]
  simp only [Nat.not_lt.mpr hseq, if_false, hname, hq]

/-- The first row of a sorted list that passes a test precedes every row that
passes it. -/
theorem find_sorted_min {α : Type} {r : α → α → Prop} [IsTotal α r] {l : List α}
    (hsorted : l.Sorted r) {p : α → Bool} {x : α} (h : l.find? p = some x) :
    ∀ y ∈ l, p y = true → r x y := by
  obtain ⟨_, front, back, hl, hfront⟩ := List.find?_eq_some.mp h
  intro y hy hpy
  rw [hl] at hy hsorted
  rcases List.mem_append.mp hy with hm | hm
  · have := hfront y hm
    simp [hpy] at this
  · rcases List.mem_cons.mp hm with rfl | hb
    · exact (IsTotal.total y y).elim id id
    · have hs2 : (x :: back).Sorted r := (List.pairwise_append.mp hsorted).2.1
      exact List.rel_of_sorted_cons hs2 y hb

/-- Claim C4. First-fit booking.  In a store that obeys its schema, for a request
that the insert accepts (a patient name without NUL character and of at most
255 characters, a label of `token_type`, a priority that fits NUMERIC(10, 2),
and a sequence of ids that is not used up) and an owner whose chain is not
empty, `allocateToken` succeeds and appends exactly one token, of that owner.  If some
slot of the owner has `used < capacity`, the token is CONFIRMED with `slot_id`
the id of such a slot that no other such slot precedes in start time, that
slot's `used` grows by one and every other slot is unchanged (the seated slot
had `used < capacity`).  If no slot of the owner has `used < capacity`, the
token is WAITING with null `slot_id` and no slot changes. -/
theorem first_fit_booking (pl : Planner) (clk : Clock) (db : Db) (data : BookRequest)
    (hs : Schema db) (hseq : db.tokens_id_seq ≤ 2147483647)
    (hnul : Char.ofNat 0 ∉ data.patient.toList)
    (hname : data.patient.length ≤ 255) (hty : data.type ∈ token_type)
    (hfit : ∃ p q, calculatePriority data.type clk.createdAt clk.now = some p ∧
      numeric_10_2 p = some q)
    (hchain : Slot.findByDoctorId pl db data.doctorId ≠ []) :
    ∃ db' tok, allocateToken pl clk db data = (db', .ok tok) ∧
      db'.tokens = db.tokens ++ [tok] ∧ tok.doctor_id = data.doctorId ∧
      ((∃ s ∈ db.slots, s.doctor_id = data.doctorId ∧ s.used < s.capacity) →
        tok.status = Status.CONFIRMED ∧
        ∃ slot ∈ db.slots, slot.doctor_id = data.doctorId ∧ slot.used < slot.capacity ∧
          (∀ s ∈ db.slots, s.doctor_id = data.doctorId → s.used < s.capacity →
            slot.start_time ≤ s.start_time) ∧
          tok.slot_id = some slot.id ∧
          { slot with used := slot.used + 1 } ∈ db'.slots ∧
          (∀ s ∈ db.slots, s ≠ slot → s ∈ db'.slots) ∧
          db'.slots = db.slots.map (fun s => if s = slot then { s with used := s.used + 1 } else s)) ∧
      ((∀ s ∈ db.slots, s.doctor_id = data.doctorId → ¬ s.used < s.capacity) →
        tok.status = Status.WAITING ∧ tok.slot_id = none ∧ db'.slots = db.slots) := by
  obtain ⟨p, q, hp, hq⟩ := hfit
  have hlen : ¬ (Slot.findByDoctorId pl db data.doctorId).length = 0 := by
    intro h; exact hchain (List.length_eq_zero.mp h)
  cases hfind : (Slot.findByDoctorId pl db data.doctorId).find?
      (fun slot => (slot.used : Int) < slot.capacity) with
  | none =>
    have hcr := create_succeeds db clk.dbNow
      ⟨data.patient, data.doctorId, none, data.type,
        calculatePriority data.type clk.createdAt clk.now, Status.WAITING⟩ hseq hnul hty hp
        (varchar_255_of_length hname) hq
    refine ⟨{ db with
        tokens := db.tokens ++ [⟨db.tokens_id_seq, data.patient, data.doctorId, truthyId none,
          data.type, q, Status.WAITING, clk.dbNow⟩]
        tokens_id_seq := db.tokens_id_seq + 1 },
      ⟨db.tokens_id_seq, data.patient, data.doctorId, truthyId none,
        data.type, q, Status.WAITING, clk.dbNow⟩, ?_, rfl, rfl, ?_, ?_⟩
    · simp only [allocateToken, hlen, if_false, hfind, hcr]
    · rintro ⟨s, hsm, hd, hroom⟩
      rw [List.find?_eq_none] at hfind
      exact absurd (by simpa using hroom) (hfind s ((mem_findByDoctorId pl db _ s).mpr ⟨hsm, hd⟩))
    · intro _
      exact ⟨rfl, rfl, rfl⟩
  | some slot =>
    have hslotmem := (mem_findByDoctorId pl db data.doctorId slot).mp
      (List.mem_of_find?_eq_some hfind)
    have hroom : slot.used < slot.capacity := by simpa using List.find?_some hfind
    have hne : slot.id ≠ 0 := hs.slot_serial slot hslotmem.1
    have hcr := create_succeeds db clk.dbNow
      ⟨data.patient, data.doctorId, some slot.id, data.type,
        calculatePriority data.type clk.createdAt clk.now, Status.CONFIRMED⟩ hseq hnul hty hp
        (varchar_255_of_length hname) hq
    obtain ⟨db2, hinc⟩ := increment_succeeds
      { db with
          tokens := db.tokens ++ [⟨db.tokens_id_seq, data.patient, data.doctorId,
            truthyId (some slot.id), data.type, q, Status.CONFIRMED, clk.dbNow⟩]
          tokens_id_seq := db.tokens_id_seq + 1 } slot.id (by
        intro s hsm hsid
        have : s = slot := slot_eq_of_id hs.slot_pk hsm hslotmem.1 hsid
        subst this
        omega)
    obtain ⟨ht2, _, hsl2, _⟩ := increment_ok hinc
    have hmapeq : db2.slots =
        db.slots.map (fun s => if s = slot then { s with used := s.used + 1 } else s) := by
      rw [hsl2]
      apply List.map_congr_left
      intro s hsm
      by_cases hsid : s.id = slot.id
      · have : s = slot := slot_eq_of_id hs.slot_pk hsm hslotmem.1 hsid
        simp [this]
      · have : s ≠ slot := fun he => hsid (by rw [he])
        simp [hsid, this]
    refine ⟨db2, ⟨db.tokens_id_seq, data.patient, data.doctorId, truthyId (some slot.id),
      data.type, q, Status.CONFIRMED, clk.dbNow⟩, ?_, ht2, rfl, ?_, ?_⟩
    · simp only [allocateToken, hlen, if_false, hfind, hcr, hinc]
    · intro _
      refine ⟨rfl, slot, hslotmem.1, hslotmem.2, hroom, ?_, ?_, ?_, ?_, hmapeq⟩
      · intro s hsm hd hr
        exact find_sorted_min (findByDoctorId_sorted pl db data.doctorId) hfind s
          ((mem_findByDoctorId pl db _ s).mpr ⟨hsm, hd⟩) (by simpa using hr)
      · show truthyId (some slot.id) = some slot.id
        exact truthyId_of_ne_zero hne
      · rw [hmapeq]
        exact List.mem_map.mpr ⟨slot, hslotmem.1, by simp⟩
      · intro s hsm hsne
        rw [hmapeq]
        exact List.mem_map.mpr ⟨s, hsm, by simp [hsne]⟩
    · intro hfull
      exact absurd hroom (hfull slot hslotmem.1 hslotmem.2)

/-! ## Cancellation -/

/-- With a primary key on `tokens`, looking a token up by its id finds it. -/
theorem findById_of_mem {db : Db} (hpk : (db.tokens.map (fun t => t.id)).Nodup) {t : Token}
    (ht : t ∈ db.tokens) : Token.findById db t.id = some t := by
  cases hf : Token.findById db t.id with
  | none => exact absurd rfl (token_findById_none hf t ht)
  | some t' =>
    obtain ⟨hm, hid⟩ := token_findById_mem hf
    rw [token_eq_of_id hpk hm ht hid]

/-- The increment that follows the decrement of `cancelToken` is never rejected
in a store that obeys `check_capacity`, when the freed slot had a seat taken. -/
theorem increment_after_decrement (db : Db) (hchk : ∀ s ∈ db.slots, s.used ≤ s.capacity + 5)
    (i k : Nat) (sl : Option Nat) (st : Status)
    (hpos : ∀ s ∈ db.slots, s.id = k → 0 < s.used) :
    ∃ db3, Slot.incrementUsage (Token.update (Slot.decrementUsage db k) i sl st) k = .ok db3 := by
  apply increment_succeeds
  intro s' hs' hid
  rw [token_update_slots, decrement_slots] at hs'
  obtain ⟨s, hsm, rfl⟩ := List.mem_map.mp hs'
  have := hchk s hsm
  by_cases hcond : s.id = k ∧ 0 < s.used
  · rw [if_pos hcond]
    show ((s.used - 1 + 1 : Nat) : Int) ≤ s.capacity + 5
    omega
  · rw [if_neg hcond] at hid
    exact absurd ⟨hid, hpos s hsm hid⟩ hcond

/-- Claim C6 (counterexample). Not every CONFIRMED token can be cancelled.  From
a fresh store whose slot has capacity -5, a booking (which waits) and an
`insertEmergency` (whose increment is refused after the token was marked
CONFIRMED) leave `steepDbStuck`, a store that obeys the schema.  There
`cancelToken` of the CONFIRMED token 2 promotes the waiting token and is then
refused by `check_capacity`: it fails with neither of the two errors of the
claim, and the store has changed. -/
theorem cancel_refused_counterexample :
    (insertEmergency Planner.heapOrder sampleClock
      (allocateToken Planner.heapOrder sampleClock steepDb ⟨"w", 7, "WALKIN"⟩).1
      ⟨"e", 7⟩).db = steepDbStuck ∧
    Schema steepDbStuck ∧
    (⟨2, "e", 7, some 1, "EMERGENCY", 100, Status.CONFIRMED, 30⟩ : Token) ∈ steepDbStuck.tokens ∧
    (cancelToken Planner.heapOrder steepDbStuck 2).2 =
      .error "new row for relation slots violates check constraint check_capacity" ∧
    (cancelToken Planner.heapOrder steepDbStuck 2).1 ≠ steepDbStuck := by
  refine ⟨by decide!, ?_, by decide!, by decide!, by decide!⟩
  exact ⟨by decide, by decide, by decide, by decide, by decide, by decide⟩

/-- Claim C6 (amended). Failure cases of `cancelToken`.  In a store that obeys
its schema, for a token id within the range of the column `tokens.id`: when no
token has the id the call fails with "Token not found"; when the token with
that id is CANCELLED it fails with "Token already cancelled", a different
message; in both cases the store is returned unchanged.  When moreover the
records of the store agree (every CONFIRMED token has a slot, and `used` counts
the CONFIRMED tokens of each slot), the call succeeds for every token that is
CONFIRMED or WAITING, so those two are the only failures. -/
theorem cancel_failure_cases (pl : Planner) (db : Db) (tokenId : Nat) (hs : Schema db)
    (hrange : tokenId ≤ 2147483647) :
    ((∀ t ∈ db.tokens, t.id ≠ tokenId) →
      cancelToken pl db tokenId = (db, .error "Token not found")) ∧
    (∀ t ∈ db.tokens, t.id = tokenId → t.status = Status.CANCELLED →
      cancelToken pl db tokenId = (db, .error "Token already cancelled")) ∧
    (Consistent db → ∀ t ∈ db.tokens, t.id = tokenId →
      (t.status = Status.CONFIRMED ∨ t.status = Status.WAITING) →
      ∃ db', cancelToken pl db tokenId = (db', .ok "Token cancelled successfully")) ∧
    (Consistent db → ∀ db' e, cancelToken pl db tokenId = (db', .error e) →
      db' = db ∧
      ((e = "Token not found" ∧ ∀ t ∈ db.tokens, t.id ≠ tokenId) ∨
       (e = "Token already cancelled" ∧
          ∃ t ∈ db.tokens, t.id = tokenId ∧ t.status = Status.CANCELLED))) ∧
    ("Token not found" : String) ≠ "Token already cancelled" := by
  have hsucc : Consistent db → ∀ t ∈ db.tokens, t.id = tokenId →
      (t.status = Status.CONFIRMED ∨ t.status = Status.WAITING) →
      ∃ db', cancelToken pl db tokenId = (db', .ok "Token cancelled successfully") := by
    intro hc t ht hid hst
    subst hid
    have hf := findById_of_mem hs.token_pk ht
    have hnc : ¬ t.status = Status.CANCELLED := by
      rcases hst with h | h <;> rw [h] <;> simp
    cases hfreed : (if t.status = Status.CONFIRMED then truthyId t.slot_id else none) with
    | none =>
      exact ⟨Token.cancel db t.id, by simp only [cancelToken, hf, hnc, if_false, hfreed]⟩
    | some slotId =>
      have hconf : t.status = Status.CONFIRMED ∧ truthyId t.slot_id = some slotId := by
        by_cases hcf : t.status = Status.CONFIRMED
        · simp only [hcf, if_true] at hfreed
          exact ⟨hcf, hfreed⟩
        · simp only [hcf, if_false] at hfreed
          cases hfreed
      obtain ⟨hsl, _⟩ := truthyId_some hconf.2
      have hpos : ∀ s ∈ db.slots, s.id = slotId → 0 < s.used := by
        intro s hsm hsid
        rw [hc.used_counts s hsm, hsid]
        exact occupancy_pos ht hconf.1 hsl
      cases hw : Token.findWaitingByDoctorId pl (Slot.decrementUsage db slotId) t.doctor_id with
      | nil =>
        exact ⟨Token.cancel (Slot.decrementUsage db slotId) t.id,
          by simp only [cancelToken, hf, hnc, if_false, hfreed, hw]⟩
      | cons w rest =>
        obtain ⟨db3, hinc⟩ := increment_after_decrement db hs.check_capacity w.id slotId
          (some slotId) Status.CONFIRMED hpos
        exact ⟨Token.cancel db3 t.id,
          by simp only [cancelToken, hf, hnc, if_false, hfreed, hw, hinc]⟩
  have hnone : (∀ t ∈ db.tokens, t.id ≠ tokenId) →
      cancelToken pl db tokenId = (db, .error "Token not found") := by
    intro habs
    have hf : Token.findById db tokenId = none := by
      unfold Token.findById
      rw [List.find?_eq_none]
      intro t ht
      simpa using habs t ht
    simp only [cancelToken, hf]
  have hcancelled : ∀ t ∈ db.tokens, t.id = tokenId → t.status = Status.CANCELLED →
      cancelToken pl db tokenId = (db, .error "Token already cancelled") := by
    intro t ht hid hst
    subst hid
    have hf := findById_of_mem hs.token_pk ht
    simp only [cancelToken, hf, hst, if_true]
  refine ⟨hnone, hcancelled, hsucc, ?_, by decide⟩
  intro hc db' e herr
  by_cases habs : ∀ t ∈ db.tokens, t.id ≠ tokenId
  · rw [hnone habs] at herr
    simp only [Prod.mk.injEq, Except.error.injEq] at herr
    exact ⟨herr.1.symm, Or.inl ⟨herr.2.symm, habs⟩⟩
  · simp only [not_forall, not_not] at habs
    obtain ⟨t, ht, hid⟩ := habs
    by_cases hst : t.status = Status.CANCELLED
    · rw [hcancelled t ht hid hst] at herr
      simp only [Prod.mk.injEq, Except.error.injEq] at herr
      exact ⟨herr.1.symm, Or.inr ⟨herr.2.symm, t, ht, hid, hst⟩⟩
    · have hcw : t.status = Status.CONFIRMED ∨ t.status = Status.WAITING := by
        cases hs' : t.status with
        | CONFIRMED => exact Or.inl rfl
        | WAITING => exact Or.inr rfl
        | CANCELLED => exact absurd hs' hst
      obtain ⟨db'', hok⟩ := hsucc hc t ht hid hcw
      rw [hok] at herr
      simp only [Prod.mk.injEq] at herr
      exact absurd herr.2 (by simp)

/-- Claim C5. Promotion on cancel.  In a store that obeys its schema and whose
records agree, cancelling a CONFIRMED token whose owner has a WAITING token
succeeds, leaves every slot (the freed one included) with the `used` it had,
promotes exactly one token, which was WAITING for that owner with a priority
no WAITING token of the owner exceeded and is now CONFIRMED in the freed slot,
marks the cancelled token CANCELLED, and changes no other token. -/
theorem promotion_on_cancel (pl : Planner) (db : Db) (t : Token) (hs : Schema db)
    (hc : Consistent db) (ht : t ∈ db.tokens) (hconf : t.status = Status.CONFIRMED)
    (hwait : ∃ w ∈ db.tokens, w.doctor_id = t.doctor_id ∧ w.status = Status.WAITING) :
    ∃ db' slotId w, cancelToken pl db t.id = (db', .ok "Token cancelled successfully") ∧
      t.slot_id = some slotId ∧ db'.slots = db.slots ∧
      w ∈ db.tokens ∧ w.doctor_id = t.doctor_id ∧ w.status = Status.WAITING ∧
      (∀ x ∈ db.tokens, x.doctor_id = t.doctor_id → x.status = Status.WAITING →
        x.priority ≤ w.priority) ∧
      db'.tokens = db.tokens.map (fun x =>
        if x = w then { x with slot_id := some slotId, status := Status.CONFIRMED }
        else if x = t then { x with status := Status.CANCELLED } else x) := by
  have hf := findById_of_mem hs.token_pk ht
  have hnc : ¬ t.status = Status.CANCELLED := by rw [hconf]; simp
  obtain ⟨slotId, hsl, htr, _⟩ := confirmed_truthy hs hc ht hconf
  have hfreed : (if t.status = Status.CONFIRMED then truthyId t.slot_id else none)
      = some slotId := by rw [if_pos hconf, htr]
  have hpos : ∀ s ∈ db.slots, s.id = slotId → 0 < s.used := by
    intro s hsm hsid
    rw [hc.used_counts s hsm, hsid]
    exact occupancy_pos ht hconf hsl
  cases hw : Token.findWaitingByDoctorId pl (Slot.decrementUsage db slotId) t.doctor_id with
  | nil =>
    obtain ⟨w0, hw0m, hw0d, hw0s⟩ := hwait
    have : w0 ∈ Token.findWaitingByDoctorId pl (Slot.decrementUsage db slotId) t.doctor_id :=
      (mem_findWaiting pl _ _ w0).mpr ⟨by rw [decrement_tokens]; exact hw0m, hw0d, hw0s⟩
    rw [hw] at this
    cases this
  | cons w rest =>
    obtain ⟨hwm, hwd, hwst, hwmax⟩ := findWaiting_head hw
    rw [decrement_tokens] at hwm hwmax
    obtain ⟨db3, hinc⟩ := increment_after_decrement db hs.check_capacity w.id slotId
      (some slotId) Status.CONFIRMED hpos
    obtain ⟨ht3, _, hsl3, _⟩ := increment_ok hinc
    have hne : t.id ≠ w.id := by
      intro he
      have := token_eq_of_id hs.token_pk ht hwm he
      rw [this, hwst] at hconf
      cases hconf
    refine ⟨Token.cancel db3 t.id, slotId, w, ?_, hsl, ?_, hwm, hwd, hwst, hwmax, ?_⟩
    · simp only [cancelToken, hf, hnc, if_false, hfreed, hw, hinc]
    · rw [token_cancel_slots, hsl3, token_update_slots, decrement_slots]
      exact increment_decrement db.slots slotId hpos
    · rw [token_cancel_tokens, ht3, token_update_tokens, decrement_tokens, List.map_map]
      apply List.map_congr_left
      intro x hx
      simp only [Function.comp]
      by_cases hxw : x = w
      · subst hxw
        simp only [if_true]
        rw [if_neg (fun he : x.id = t.id => hne he.symm)]
      · have hxid : x.id ≠ w.id := fun he => hxw (token_eq_of_id hs.token_pk hx hwm he)
        simp only [hxid, if_false, hxw]
        by_cases hxt : x = t
        · subst hxt
          simp
        · have : x.id ≠ t.id := fun he => hxt (token_eq_of_id hs.token_pk hx ht he)
          simp [this, hxt]

/-! ## Counting the tokens of an owner across the cascade -/

theorem confirmedCount_update {db : Db} (hnd : (db.tokens.map (fun t => t.id)).Nodup)
    {row : Token} (hrow : row ∈ db.tokens) (sl : Option Nat) (st : Status) (d : Nat) :
    confirmedCount (Token.update db row.id sl st) d +
        (if row.doctor_id = d ∧ row.status = Status.CONFIRMED then 1 else 0) =
      confirmedCount db d + (if row.doctor_id = d ∧ st = Status.CONFIRMED then 1 else 0) := by
  unfold confirmedCount
  rw [token_update_tokens]
  have := countP_update hnd hrow (fun t => { t with slot_id := sl, status := st })
    (fun t => decide (t.doctor_id = d ∧ t.status = Status.CONFIRMED))
  simp only [decide_eq_true_eq] at this
  exact this

theorem waitingCount_update {db : Db} (hnd : (db.tokens.map (fun t => t.id)).Nodup)
    {row : Token} (hrow : row ∈ db.tokens) (sl : Option Nat) (st : Status) (d : Nat) :
    waitingCount (Token.update db row.id sl st) d +
        (if row.doctor_id = d ∧ row.status = Status.WAITING then 1 else 0) =
      waitingCount db d + (if row.doctor_id = d ∧ st = Status.WAITING then 1 else 0) := by
  unfold waitingCount
  rw [token_update_tokens]
  have := countP_update hnd hrow (fun t => { t with slot_id := sl, status := st })
    (fun t => decide (t.doctor_id = d ∧ t.status = Status.WAITING))
  simp only [decide_eq_true_eq] at this
  exact this

theorem confirmedCount_congr {db db' : Db} (h : db'.tokens = db.tokens) (d : Nat) :
    confirmedCount db' d = confirmedCount db d := by
  unfold confirmedCount; rw [h]

theorem waitingCount_congr {db db' : Db} (h : db'.tokens = db.tokens) (d : Nat) :
    waitingCount db' d = waitingCount db d := by
  unfold waitingCount; rw [h]

/-- Owners still agree after a token of the slot's owner is given the slot, or
any token is given no slot. -/
theorem ownersAgree_update {db : Db} (ho : OwnersAgree db) (i : Nat) (sl : Option Nat)
    (st : Status)
    (hsl : ∀ k ∈ sl, ∀ s ∈ db.slots, s.id = k → ∀ t ∈ db.tokens, t.id = i →
      t.doctor_id = s.doctor_id) :
    OwnersAgree (Token.update db i sl st) := by
  intro t' ht' s hs hts
  rw [token_update_slots] at hs
  rcases mem_update ht' with ⟨t, htm, hti, rfl⟩ | ⟨htm, _⟩
  · exact hsl s.id hts s hs rfl t htm hti
  · exact ho t' htm s hs hts

/-- Owners still agree when only the `used` counters changed. -/
theorem ownersAgree_slots {db db' : Db} (ho : OwnersAgree db) (ht : db'.tokens = db.tokens)
    (hk : db'.slots.map Slot.key = db.slots.map Slot.key) : OwnersAgree db' := by
  intro t htm s' hs' hts
  rw [ht] at htm
  have : Slot.key s' ∈ db.slots.map Slot.key := by
    rw [← hk]; exact List.mem_map_of_mem _ hs'
  obtain ⟨s, hsm, hkey⟩ := List.mem_map.mp this
  simp only [Slot.key, Prod.mk.injEq] at hkey
  have := ho t htm s hsm (by rw [hkey.1]; exact hts)
  rw [this, hkey.2.1]

/-- A cascade that returns, started with a WAITING token of the owner at a
slot of the owner, either seats one more token of the owner than it evicts and
leaves nobody behind, or seats as many as it evicts and leaves one WAITING. -/
theorem ripple_counts (pl : Planner) (d : Nat) :
    ∀ (fuel : Nat) (db : Db) (slot : Option Slot) (token : Token),
      Schema db → OwnersAgree db →
      (∀ s, slot = some s → s.doctor_id = d ∧ ∃ row ∈ db.slots, row.id = s.id ∧ row.doctor_id = d) →
      (∃ row ∈ db.tokens, row.id = token.id ∧ row.doctor_id = d ∧ row.status = Status.WAITING) →
      (rippleInsert pl fuel db slot token).result = Outcome.ok () →
      (parked (rippleInsert pl fuel db slot token).log = true ∧
        confirmedCount (rippleInsert pl fuel db slot token).db d = confirmedCount db d ∧
        waitingCount (rippleInsert pl fuel db slot token).db d = waitingCount db d) ∨
      (parked (rippleInsert pl fuel db slot token).log = false ∧
        confirmedCount (rippleInsert pl fuel db slot token).db d = confirmedCount db d + 1 ∧
        waitingCount (rippleInsert pl fuel db slot token).db d + 1 = waitingCount db d) := by
  intro fuel
  induction fuel with
  | zero =>
    intro db slot token _ _ _ _ h
    rw [rippleInsert_zero] at h
    cases h
  | succ fuel ih =>
    intro db slot token hs ho hslot hrow hres
    obtain ⟨row, hrm, hrid, hrd, hrst⟩ := hrow
    cases slot with
    | none =>
      left
      rw [rippleInsert_none, ← hrid]
      have hC := confirmedCount_update hs.token_pk hrm none Status.WAITING d
      have hW := waitingCount_update hs.token_pk hrm none Status.WAITING d
      rw [hrst] at hC hW
      simp only [hrd, reduceCtorEq, and_false, if_false, and_self, if_true] at hC hW
      dsimp only
      refine ⟨by simp [parked], by omega, by omega⟩
    | some slot =>
      obtain ⟨hsd, srow, hsrm, hsrid, hsrd⟩ := hslot slot rfl
      cases h : Slot.incrementUsage (Token.update db token.id (some slot.id) Status.CONFIRMED)
          slot.id with
      | error e =>
        rw [rippleInsert_rejected pl fuel db slot token h] at hres
        cases hres
      | ok db2 =>
        obtain ⟨ht2, _, hsl2, _⟩ := increment_ok h
        rw [token_update_slots] at hsl2
        have hC1 := confirmedCount_update hs.token_pk hrm (some slot.id) Status.CONFIRMED d
        have hW1 := waitingCount_update hs.token_pk hrm (some slot.id) Status.CONFIRMED d
        rw [hrst] at hC1 hW1
        simp only [hrd, reduceCtorEq, and_false, if_false, and_self, if_true] at hC1 hW1
        rw [hrid, ← confirmedCount_congr ht2] at hC1
        rw [hrid, ← waitingCount_congr ht2] at hW1
        cases hf : Slot.findById db2 slot.id with
        | none =>
          rw [rippleInsert_missing pl fuel db db2 slot token h hf] at hres
          cases hres
        | some u =>
          by_cases hu : u.capacity < u.used
          · cases hv : Token.findLowestPriorityInSlot pl db2 slot.id with
            | none =>
              rw [rippleInsert_noVictim pl fuel db db2 slot u token h hf hu hv] at hres
              cases hres
            | some v =>
              rw [rippleInsert_overflow pl fuel db db2 slot u token v h hf hu hv] at hres ⊢
              dsimp only at hres ⊢
              obtain ⟨hvm, hvsl, hvst, _⟩ := findLowest_some hv
              have hs1 : Schema (Token.update db token.id (some slot.id) Status.CONFIRMED) := by
                apply update_schema hs
                intro k hk
                simp only [Option.mem_def, Option.some.injEq] at hk
                exact ⟨srow, hsrm, hsrid.trans hk⟩
              have hs2 : Schema db2 := increment_schema hs1 h
              have ho1 : OwnersAgree (Token.update db token.id (some slot.id) Status.CONFIRMED) := by
                apply ownersAgree_update ho
                intro k hk s hsm hsk t htm hti
                simp only [Option.mem_def, Option.some.injEq] at hk
                have hs_eq : s = srow :=
                  slot_eq_of_id hs.slot_pk hsm hsrm (by rw [hsk, ← hk, hsrid])
                have ht_eq : t = row :=
                  token_eq_of_id hs.token_pk htm hrm (by rw [hti, hrid])
                rw [hs_eq, ht_eq, hrd, hsrd]
              have ho2 : OwnersAgree db2 :=
                ownersAgree_slots ho1 ht2 (by
                  rw [hsl2, token_update_slots]; exact map_key_increment db.slots slot.id)
              have hvd : v.doctor_id = d := by
                obtain ⟨hum, huid⟩ := findById_mem hf
                have hud : u.doctor_id = d := by
                  rw [hsl2] at hum
                  obtain ⟨s, hsm, rfl⟩ := List.mem_map.mp hum
                  have hsid : s.id = slot.id := by
                    rw [← huid]; split <;> rfl
                  have : s = srow := slot_eq_of_id hs.slot_pk hsm hsrm (by rw [hsid, hsrid])
                  rw [this]
                  split <;> exact hsrd
                rw [ho2 v hvm u hum (by rw [hvsl, huid]), hud]
              have hC2 := confirmedCount_update hs2.token_pk hvm none Status.WAITING d
              have hW2 := waitingCount_update hs2.token_pk hvm none Status.WAITING d
              rw [hvst] at hC2 hW2
              simp only [hvd, reduceCtorEq, and_false, if_false, and_self, if_true] at hC2 hW2
              have hs3 : Schema (Token.update db2 v.id none Status.WAITING) :=
                update_schema hs2 _ _ _ (by intro k hk; simp at hk)
              have hs4 := decrement_schema hs3 slot.id
              have ho3 : OwnersAgree (Token.update db2 v.id none Status.WAITING) :=
                ownersAgree_update ho2 _ _ _ (by intro k hk; simp at hk)
              have ho4 : OwnersAgree (Slot.decrementUsage
                  (Token.update db2 v.id none Status.WAITING) slot.id) :=
                ownersAgree_slots ho3 (decrement_tokens _ _) (by
                  rw [decrement_slots]; exact map_key_decrement _ slot.id)
              have hslots4 : (Slot.decrementUsage (Token.update db2 v.id none Status.WAITING)
                  slot.id).slots = db.slots := evict_slots h
              have hrec := ih _ (Slot.findNextSlot pl
                (Slot.decrementUsage (Token.update db2 v.id none Status.WAITING) slot.id)
                slot.doctor_id slot.start_time) v hs4 ho4 (by
                  intro n hn
                  obtain ⟨hnm, hnd, _, _⟩ := findNextSlot_some hn
                  exact ⟨hnd.trans hsd, n, hnm, rfl, hnd.trans hsd⟩)
                ⟨{ v with slot_id := none, status := Status.WAITING },
                  by rw [decrement_tokens]; exact update_mem_target hvm, rfl, hvd, rfl⟩ hres
              rw [confirmedCount_congr (decrement_tokens _ slot.id),
                waitingCount_congr (decrement_tokens _ slot.id)] at hrec
              have hpk : ∀ l1 l2 : List (Step × Db), parked (l1 ++ l2) = (parked l1 || parked l2) := by
                intro l1 l2; simp [parked, List.any_append]
              rw [hpk, hpk]
              have hp1 : parked [(Step.seat slot.id token.id,
                  Token.update db token.id (some slot.id) Status.CONFIRMED),
                  (Step.increment slot.id, db2)] = false := by simp [parked]
              have hp2 : parked [(Step.evict slot.id v.id,
                  Token.update db2 v.id none Status.WAITING),
                  (Step.decrement slot.id, Slot.decrementUsage
                    (Token.update db2 v.id none Status.WAITING) slot.id)] = false := by
                simp [parked]
              rw [hp1, hp2, Bool.false_or, Bool.false_or]
              rcases hrec with ⟨hp, hC, hW⟩ | ⟨hp, hC, hW⟩
              · left; exact ⟨hp, by omega, by omega⟩
              · right; exact ⟨hp, by omega, by omega⟩
          · rw [rippleInsert_fits pl fuel db db2 slot u token h hf hu]
            dsimp only
            right
            exact ⟨by simp [parked], by omega, by omega⟩

/-- Claim C2. Cascade conservation.  In a store that obeys its schema and where
every token that names a slot has the owner of that slot, let the owner have C
CONFIRMED and W WAITING tokens.  After a successful `insertEmergency` for that
owner: when the cascade leaves no token on the waiting list the owner has C+1
CONFIRMED and W WAITING tokens; when it leaves its last displaced token
WAITING the owner has C CONFIRMED and W+1 WAITING tokens; in both cases the
WAITING count is at most W+1 and CONFIRMED + WAITING = C + W + 1. -/
theorem cascade_conservation (pl : Planner) (clk : Clock) (db : Db) (data : EmergencyRequest)
    (tok : Token) (hs : Schema db) (ho : OwnersAgree db)
    (hrun : (insertEmergency pl clk db data).result = Outcome.ok tok) :
    (parked (insertEmergency pl clk db data).log = false →
      confirmedCount (insertEmergency pl clk db data).db data.doctorId
          = confirmedCount db data.doctorId + 1 ∧
        waitingCount (insertEmergency pl clk db data).db data.doctorId
          = waitingCount db data.doctorId) ∧
    (parked (insertEmergency pl clk db data).log = true →
      confirmedCount (insertEmergency pl clk db data).db data.doctorId
          = confirmedCount db data.doctorId ∧
        waitingCount (insertEmergency pl clk db data).db data.doctorId
          = waitingCount db data.doctorId + 1) ∧
    waitingCount (insertEmergency pl clk db data).db data.doctorId
      ≤ waitingCount db data.doctorId + 1 ∧
    confirmedCount (insertEmergency pl clk db data).db data.doctorId +
        waitingCount (insertEmergency pl clk db data).db data.doctorId
      = confirmedCount db data.doctorId + waitingCount db data.doctorId + 1 := by
  obtain ⟨slot0, others, db1, hchain, hcr, hres, hdb, hlog⟩ := insertEmergency_ok hrun
  obtain ⟨_, _, _, _, htd, htsl, _, htst, _, hsl1, ht1, _⟩ := create_ok hcr
  simp only at htd htst
  have htsl' : tok.slot_id = none := by rw [htsl]; rfl
  have hs1 : Schema db1 := by
    apply create_schema hs _ hcr
    intro k hk
    simp [truthyId] at hk
  have ho1 : OwnersAgree db1 := by
    intro t ht s hsm hts
    rw [ht1] at ht
    rw [hsl1] at hsm
    rcases List.mem_append.mp ht with htm | htm
    · exact ho t htm s hsm hts
    · simp only [List.mem_singleton] at htm
      rw [htm, htsl'] at hts
      cases hts
  have hC1 : confirmedCount db1 data.doctorId = confirmedCount db data.doctorId := by
    unfold confirmedCount
    rw [ht1, List.countP_append, List.countP_cons, List.countP_nil, htst]
    simp
  have hW1 : waitingCount db1 data.doctorId = waitingCount db data.doctorId + 1 := by
    unfold waitingCount
    rw [ht1, List.countP_append, List.countP_cons, List.countP_nil, htst, htd]
    simp
  have hslot0 := (mem_findByDoctorId pl db data.doctorId slot0).mp (by
    rw [hchain]; exact List.mem_cons_self _ _)
  have hrec := ripple_counts pl data.doctorId _ db1 (some slot0) tok hs1 ho1 (by
      intro s hs0
      injection hs0 with hs0
      subst hs0
      exact ⟨hslot0.2, slot0, by rw [hsl1]; exact hslot0.1, rfl, hslot0.2⟩)
    ⟨tok, by rw [ht1]; simp, rfl, htd, htst⟩ hres
  have hpark : parked (insertEmergency pl clk db data).log =
      parked (rippleInsert pl ((slot0 :: others).length + 1) db1 (some slot0) tok).log := by
    rw [hlog]; simp [parked]
  rw [hpark, hdb]
  rcases hrec with ⟨hp, hC, hW⟩ | ⟨hp, hC, hW⟩
  · rw [hp]
    refine ⟨?_, ?_, ?_, ?_⟩
    · intro hne
      cases hne
    · intro _
      exact ⟨by omega, by omega⟩
    · omega
    · omega
  · rw [hp]
    refine ⟨?_, ?_, ?_, ?_⟩
    · intro _
      exact ⟨by omega, by omega⟩
    · intro hne
      cases hne
    · omega
    · omega

/-- Every token of the sample store that names a slot has the owner of the slot. -/
theorem sampleDb_ownersAgree : OwnersAgree sampleDb := by decide

/-- Instance of C2 on the sample store: both slots are full, so the cascade
leaves its last displaced token WAITING; the owner keeps two CONFIRMED tokens
and the waiting list grows from one to two. -/
theorem cascade_conservation_witness :
    parked (insertEmergency Planner.heapOrder sampleClock sampleDb ⟨"e", 7⟩).log = true ∧
    confirmedCount (insertEmergency Planner.heapOrder sampleClock sampleDb ⟨"e", 7⟩).db 7 = 2 ∧
    waitingCount (insertEmergency Planner.heapOrder sampleClock sampleDb ⟨"e", 7⟩).db 7 = 2 :=
  ⟨by decide!,
   ((cascade_conservation Planner.heapOrder sampleClock sampleDb ⟨"e", 7⟩
      ⟨4, "e", 7, none, "EMERGENCY", 100, Status.WAITING, 30⟩ sampleDb_schema
      sampleDb_ownersAgree (by decide!)).2.1 (by decide!)).1,
   ((cascade_conservation Planner.heapOrder sampleClock sampleDb ⟨"e", 7⟩
      ⟨4, "e", 7, none, "EMERGENCY", 100, Status.WAITING, 30⟩ sampleDb_schema
      sampleDb_ownersAgree (by decide!)).2.1 (by decide!)).2⟩

/-! ## Errors after the first write -/

/-- Claim C7 (the code at the failing input). `insertEmergency` on a store whose
slot is at the ceiling of `check_capacity` throws, because the increment is
rejected, and yet the token it created stays in the store, CONFIRMED in that
slot: the store after the error differs from the store before the call. -/
theorem emergency_error_leaves_token :
    (insertEmergency Planner.heapOrder sampleClock overfullDb ⟨"x", 7⟩).result =
      Outcome.error "new row for relation slots violates check constraint check_capacity" ∧
    (insertEmergency Planner.heapOrder sampleClock overfullDb ⟨"x", 7⟩).db.tokens =
      overfullDb.tokens ++ [⟨7, "x", 7, some 1, "EMERGENCY", 100, Status.CONFIRMED, 30⟩] ∧
    (insertEmergency Planner.heapOrder sampleClock overfullDb ⟨"x", 7⟩).db.slots =
      overfullDb.slots ∧
    (insertEmergency Planner.heapOrder sampleClock overfullDb ⟨"x", 7⟩).db ≠ overfullDb ∧
    Schema overfullDb ∧ Consistent overfullDb := by
  refine ⟨by decide!, by decide!, by decide!, by decide!, ?_, ?_⟩
  · exact ⟨by decide, by decide, by decide, by decide, by decide, by decide⟩
  · exact ⟨by decide, by decide, by decide⟩

/-! ## Victim selection -/

/-- Claim C8 (counterexample). In `tieDb` the two CONFIRMED tokens of the slot
share the lowest priority.  When the store lists rows in table order the
cascade evicts token 1, the one created first, while the rule of the claim
names token 2; when the store lists rows in reverse order the cascade evicts
token 2.  So the victim is not fixed by `created_at` and id. -/
theorem victim_tie_counterexample :
    (insertEmergency Planner.heapOrder sampleClock tieDb ⟨"e", 7⟩).log.map (fun e => e.1) =
      [Step.create 3, Step.seat 1 3, Step.increment 1, Step.evict 1 1, Step.decrement 1,
       Step.park 1] ∧
    (insertEmergency Planner.heapOrder sampleClock tieDb ⟨"e", 7⟩).log.get? 2 =
      some (Step.increment 1, tieDbSeated) ∧
    (Token.findLowestPriorityInSlot Planner.heapOrder tieDbSeated 1).map (fun t => t.id) = some 1 ∧
    (specVictim tieDbSeated 1).map (fun t => t.id) = some 2 ∧
    (insertEmergency Planner.backward sampleClock tieDb ⟨"e", 7⟩).log.map (fun e => e.1) =
      [Step.create 3, Step.seat 1 3, Step.increment 1, Step.evict 1 2, Step.decrement 1,
       Step.park 2] := by
  refine ⟨by decide!, by decide!, by decide!, by decide!, by decide!⟩

/-- Claim C8 (amended). Victim selection.  In every cascade step where the slot
overflows, the token that the step evicts is the one that
`Token.findLowestPriorityInSlot` returns: a CONFIRMED token of that slot whose
priority no CONFIRMED token of the slot undercuts, chosen among candidates that
include the token just seated.  When one candidate has a priority strictly
below all others, the victim is that candidate; among several candidates that
share the lowest priority the choice is left to the store. -/
theorem victim_is_lowest (pl : Planner) (fuel : Nat) (db db2 : Db) (slot u : Slot)
    (token v : Token)
    (h : Slot.incrementUsage (Token.update db token.id (some slot.id) Status.CONFIRMED) slot.id
      = .ok db2)
    (hf : Slot.findById db2 slot.id = some u) (hu : u.capacity < u.used)
    (hv : Token.findLowestPriorityInSlot pl db2 slot.id = some v) :
    (rippleInsert pl (fuel + 1) db (some slot) token).log.get? 2 =
      some (Step.evict slot.id v.id, Token.update db2 v.id none Status.WAITING) ∧
    v ∈ db2.tokens ∧ v.status = Status.CONFIRMED ∧ v.slot_id = some slot.id ∧
    (∀ t ∈ db2.tokens, t.status = Status.CONFIRMED → t.slot_id = some slot.id →
      v.priority ≤ t.priority) ∧
    (∀ row ∈ db.tokens, row.id = token.id →
      ({ row with slot_id := some slot.id, status := Status.CONFIRMED } : Token) ∈ db2.tokens) ∧
    (∀ x ∈ db2.tokens, x.status = Status.CONFIRMED → x.slot_id = some slot.id →
      (∀ t ∈ db2.tokens, t.status = Status.CONFIRMED → t.slot_id = some slot.id → t ≠ x →
        x.priority < t.priority) → v = x) := by
  obtain ⟨hvm, hvsl, hvst, hmin⟩ := findLowest_some hv
  obtain ⟨ht2, _, _, _⟩ := increment_ok h
  refine ⟨?_, hvm, hvst, hvsl, fun t ht hst hsl => hmin t ht hsl hst, ?_, ?_⟩
  · rw [rippleInsert_overflow pl fuel db db2 slot u token v h hf hu hv]
    rfl
  · intro row hrow hid
    rw [ht2, ← hid]
    exact update_mem_target hrow
  · intro x hx hxst hxsl hstrict
    by_contra hne
    have h1 := hstrict v hvm hvst hvsl hne
    have h2 := hmin x hx hxsl hxst
    exact absurd h1 (not_lt.mpr h2)

/-- Instance of the amended C8 on `tieDb`: the step that overflows evicts
token 1, one of the two tokens of lowest priority. -/
theorem victim_is_lowest_witness :
    (rippleInsert Planner.heapOrder 2
        ⟨tieDb.slots, tieDb.tokens ++ [⟨3, "e", 7, none, "EMERGENCY", 100, Status.WAITING, 30⟩], 4⟩
        (some ⟨1, 7, 900, 2, 2⟩)
        ⟨3, "e", 7, none, "EMERGENCY", 100, Status.WAITING, 30⟩).log.get? 2 =
      some (Step.evict 1 1, Token.update tieDbSeated 1 none Status.WAITING) :=
  (victim_is_lowest Planner.heapOrder 1
    ⟨tieDb.slots, tieDb.tokens ++ [⟨3, "e", 7, none, "EMERGENCY", 100, Status.WAITING, 30⟩], 4⟩
    tieDbSeated ⟨1, 7, 900, 2, 2⟩ ⟨1, 7, 900, 2, 3⟩
    ⟨3, "e", 7, none, "EMERGENCY", 100, Status.WAITING, 30⟩
    ⟨1, "a", 7, some 1, "WALKIN", 20, Status.CONFIRMED, 10⟩
    (by decide!) (by decide!) (by decide) (by decide!)).1

/-! ## The two-slot scenario -/

/-- Claim C9 (counterexample). In the two-slot scenario the outcome depends on
the order in which the store returns rows of equal priority, which SQL leaves
open.  Under a plan that returns the first PRIORITY token before the second,
the cascade evicts the first PRIORITY token from slot 1, seats it in slot 2,
and then evicts that same token again, because it and the occupant of slot 2
have the same priority: the first PRIORITY token ends WAITING and the second
stays CONFIRMED in slot 2, the opposite of the claim.  Under a plan that
returns them the other way round the outcome is the one of the claim. -/
theorem two_slot_counterexample :
    (insertEmergency Planner.heapOrder sampleClock sampleScenario.db ⟨"e", 7⟩).result =
      Outcome.ok (sampleScenario.em "e" 100 30 none Status.WAITING) ∧
    (insertEmergency Planner.heapOrder sampleClock sampleScenario.db ⟨"e", 7⟩).db =
      ⟨[sampleScenario.s1 1, sampleScenario.s2 1],
       [sampleScenario.p1 none Status.WAITING,
        sampleScenario.p2 (some 2) Status.CONFIRMED,
        sampleScenario.em "e" 100 30 (some 1) Status.CONFIRMED], 4⟩ ∧
    (insertEmergency Planner.backward sampleClock sampleScenario.db ⟨"e", 7⟩).db =
      ⟨[sampleScenario.s1 1, sampleScenario.s2 1],
       [sampleScenario.p1 (some 2) Status.CONFIRMED,
        sampleScenario.p2 none Status.WAITING,
        sampleScenario.em "e" 100 30 (some 1) Status.CONFIRMED], 4⟩ ∧
    sampleScenario.Valid := by
  refine ⟨by decide!, by decide!, by decide!, ?_⟩
  exact ⟨by decide, by decide, by decide, by decide, by decide, by decide⟩

/-- A sorted arrangement of two slots with different start times lists the
earlier one first. -/
theorem sorted_pair {l : List Slot} {x y : Slot} (hp : l.Perm [x, y])
    (hs : l.Sorted Slot.byStart) (hlt : x.start_time < y.start_time) : l = [x, y] := by
  have hlen := hp.length_eq
  match l, hlen with
  | [a, b], _ =>
    have hx : x ∈ [a, b] := hp.symm.subset (by simp)
    have hy : y ∈ [a, b] := hp.symm.subset (by simp)
    have hab : Slot.byStart a b := List.rel_of_sorted_cons hs b (by simp)
    have hnd : x ≠ y := fun he => by rw [he] at hlt; exact lt_irrefl _ hlt
    have hcount : [a, b].count x = [x, y].count x := hp.count_eq x
    simp only [List.mem_cons, List.mem_singleton, List.not_mem_nil, or_false] at hx hy
    unfold Slot.byStart at hab
    rcases hx with rfl | rfl
    · rcases hy with rfl | rfl
      · exact absurd rfl hnd
      · rfl
    · rcases hy with rfl | rfl
      · omega
      · exact absurd rfl hnd

/-- The chain of the scenario's owner is its two slots, the earlier one first. -/
theorem scenario_chain (pl : Planner) (σ : Scenario) (hσ : σ.Valid) (tokens : List Token)
    (seq : Nat) :
    Slot.findByDoctorId pl ⟨[σ.s1 1, σ.s2 1], tokens, seq⟩ σ.doctorId = [σ.s1 1, σ.s2 1] := by
  unfold Slot.findByDoctorId
  apply sorted_pair _ (List.sorted_insertionSort _ _) hσ.starts_lt
  refine (List.perm_insertionSort _ _).trans ?_
  have hf : [σ.s1 1, σ.s2 1].filter (fun s => decide (s.doctor_id = σ.doctorId))
      = [σ.s1 1, σ.s2 1] := by simp [Scenario.s1, Scenario.s2]
  have := (pl.scanSlots_perm [σ.s1 1, σ.s2 1]).filter
    (fun s => decide (s.doctor_id = σ.doctorId))
  rw [hf] at this
  exact this

/-- Rounding to hundredths does not go below an integer that the number reaches. -/
theorem roundCents_ge {x : ℚ} {n : Int} (hn : 0 ≤ n) (hx : (n : ℚ) ≤ x) :
    n * 100 ≤ roundCents x := by
  have h0 : (0 : ℚ) ≤ x := le_trans (by exact_mod_cast hn) hx
  unfold roundCents
  rw [if_pos h0, Int.le_floor]
  push_cast
  linarith

/-- Rounding to hundredths does not go above an integer that bounds the number. -/
theorem roundCents_le {x : ℚ} {n : Int} (h0 : 0 ≤ x) (hx : x ≤ (n : ℚ)) :
    roundCents x ≤ n * 100 := by
  unfold roundCents
  rw [if_pos h0]
  have : ⌊x * 100 + 1 / 2⌋ < n * 100 + 1 := by
    rw [Int.floor_lt]
    push_cast
    linarith
  omega

theorem roundCents_nonneg {x : ℚ} (h0 : 0 ≤ x) : 0 ≤ roundCents x := by
  have := @roundCents_ge x 0 (le_refl _) (by exact_mod_cast h0)
  simpa using this

/-- The stored value of a number that reaches an integer reaches it too. -/
theorem numeric_ge {x q : ℚ} {n : Int} (hn : 0 ≤ n) (hx : (n : ℚ) ≤ x)
    (h : numeric_10_2 x = some q) : (n : ℚ) ≤ q := by
  unfold numeric_10_2 at h
  split at h
  · injection h with h
    rw [← h, le_div_iff₀ (by norm_num)]
    exact_mod_cast roundCents_ge hn hx
  · cases h

/-- A number between 0 and 99999999 fits the column NUMERIC(10, 2). -/
theorem numeric_fits {x : ℚ} (h0 : 0 ≤ x) (hx : x ≤ 99999999) :
    ∃ q, numeric_10_2 x = some q := by
  unfold numeric_10_2
  have h1 := roundCents_nonneg h0
  have h2 := @roundCents_le x 99999999 h0 (by exact_mod_cast hx)
  rw [if_pos (by omega)]
  exact ⟨_, rfl⟩

/-- For a label of `token_type` and a clock whose second reading is not before
the first and at most 10^12 ms after it, the priority is a number that fits
the column NUMERIC(10, 2). -/
theorem priority_fits {type : String} (hty : type ∈ token_type) {createdAt now : Int}
    (h0 : createdAt ≤ now) (h1 : now ≤ createdAt + 1000000000000) :
    ∃ p q, calculatePriority type createdAt now = some p ∧ numeric_10_2 p = some q := by
  have hb : ∃ b : ℚ, getBasePriority type = some b ∧ 0 ≤ b ∧ b ≤ 100 := by
    simp only [token_type, List.mem_cons, List.mem_singleton, List.not_mem_nil, or_false] at hty
    rcases hty with rfl | rfl | rfl | rfl | rfl
    · exact ⟨100, rfl, by norm_num, by norm_num⟩
    · exact ⟨80, rfl, by norm_num, by norm_num⟩
    · exact ⟨60, rfl, by norm_num, by norm_num⟩
    · exact ⟨40, rfl, by norm_num, by norm_num⟩
    · exact ⟨20, rfl, by norm_num, by norm_num⟩
  obtain ⟨b, hb, hb0, hb100⟩ := hb
  have hd0 : (0 : ℚ) ≤ ((now - createdAt : Int) : ℚ) := by
    exact_mod_cast sub_nonneg.mpr h0
  have hd1 : ((now - createdAt : Int) : ℚ) ≤ 1000000000000 := by
    have : now - createdAt ≤ 1000000000000 := by omega
    exact_mod_cast this
  have hbonus0 : (0 : ℚ) ≤ ((now - createdAt : Int) : ℚ) / (1000 * 60) / 5 := by positivity
  have hbonus1 : ((now - createdAt : Int) : ℚ) / (1000 * 60) / 5 ≤ 3333334 := by
    rw [div_div, div_le_iff₀ (by norm_num)]
    linarith
  obtain ⟨q, hq⟩ := @numeric_fits (b + ((now - createdAt : Int) : ℚ) / (1000 * 60) / 5)
    (by linarith) (by linarith)
  refine ⟨_, q, ?_, hq⟩
  unfold calculatePriority
  rw [hb]
  rfl

/-- The priority of an emergency token is a number, at least 100 when the
clock did not run backwards between the two readings. -/
theorem emergency_priority (createdAt now : Int) :
    ∃ pe, calculatePriority "EMERGENCY" createdAt now = some pe ∧
      (createdAt ≤ now → 100 ≤ pe) := by
  refine ⟨100 + ((now - createdAt : Int) : ℚ) / (1000 * 60) / 5, rfl, ?_⟩
  intro h
  have h0 : (0 : ℚ) ≤ ((now - createdAt : Int) : ℚ) := by
    exact_mod_cast sub_nonneg.mpr h
  have : (0 : ℚ) ≤ ((now - createdAt : Int) : ℚ) / (1000 * 60) / 5 := by positivity
  linarith

/-- Claim C9 (amended). Two-slot ripple scenario.  For every owner whose chain is
two slots s1 then s2, each with capacity 1 and used 1, holding CONFIRMED
PRIORITY tokens p1 in s1 and p2 in s2 of priority 80 (p1 created before p2) and
no other tokens, take an `insertEmergency` that the insert accepts (a patient
name without NUL character and of at most 255 characters, a priority that fits
NUMERIC(10, 2), a sequence of ids that is not used up) and whose clock does
not run backwards between its two readings (`createdAt <= now`, so that the emergency priority is at least 100).
It succeeds; afterwards the new EMERGENCY token is CONFIRMED in s1, both slots
have used = 1, and one of p1, p2 is CONFIRMED in s2 while the other is WAITING
with null `slot_id`.  Which one is left WAITING is the token that the victim
query returns for s2 when both are CONFIRMED there with equal priority: p2
when the store returns p2, p1 when the store returns p1. -/
theorem two_slot_ripple (pl : Planner) (clk : Clock) (σ : Scenario) (patient : String)
    (hσ : σ.Valid) (hseq : σ.seq ≤ 2147483647) (hnul : Char.ofNat 0 ∉ patient.toList)
    (hname : patient.length ≤ 255) (hclk : clk.createdAt ≤ clk.now)
    (hfit : ∃ p q, calculatePriority "EMERGENCY" clk.createdAt clk.now = some p ∧
      numeric_10_2 p = some q) :
    ∃ pe : ℚ, (∃ p, calculatePriority "EMERGENCY" clk.createdAt clk.now = some p ∧
        numeric_10_2 p = some pe) ∧
      (insertEmergency pl clk σ.db ⟨patient, σ.doctorId⟩).result =
        Outcome.ok (σ.em patient pe clk.dbNow none Status.WAITING) ∧
      ((Token.findLowestPriorityInSlot pl
            ⟨[σ.s1 1, σ.s2 2],
             [σ.p1 (some σ.slot2) Status.CONFIRMED, σ.p2 (some σ.slot2) Status.CONFIRMED,
              σ.em patient pe clk.dbNow (some σ.slot1) Status.CONFIRMED], σ.seq + 1⟩ σ.slot2
          = some (σ.p2 (some σ.slot2) Status.CONFIRMED) ∧
        (insertEmergency pl clk σ.db ⟨patient, σ.doctorId⟩).db =
          ⟨[σ.s1 1, σ.s2 1],
           [σ.p1 (some σ.slot2) Status.CONFIRMED, σ.p2 none Status.WAITING,
            σ.em patient pe clk.dbNow (some σ.slot1) Status.CONFIRMED], σ.seq + 1⟩) ∨
       (Token.findLowestPriorityInSlot pl
            ⟨[σ.s1 1, σ.s2 2],
             [σ.p1 (some σ.slot2) Status.CONFIRMED, σ.p2 (some σ.slot2) Status.CONFIRMED,
              σ.em patient pe clk.dbNow (some σ.slot1) Status.CONFIRMED], σ.seq + 1⟩ σ.slot2
          = some (σ.p1 (some σ.slot2) Status.CONFIRMED) ∧
        (insertEmergency pl clk σ.db ⟨patient, σ.doctorId⟩).db =
          ⟨[σ.s1 1, σ.s2 1],
           [σ.p1 none Status.WAITING, σ.p2 (some σ.slot2) Status.CONFIRMED,
            σ.em patient pe clk.dbNow (some σ.slot1) Status.CONFIRMED], σ.seq + 1⟩)) := by
  obtain ⟨p0, hp0, hge⟩ := emergency_priority clk.createdAt clk.now
  obtain ⟨p, pe, hp, hq⟩ := hfit
  have hpp : p = p0 := by
    rw [hp0] at hp
    injection hp with hp
    exact hp.symm
  have hpe100 : (100 : ℚ) ≤ pe := by
    have h100 : ((100 : Int) : ℚ) ≤ p := by
      rw [hpp]
      exact_mod_cast hge hclk
    exact_mod_cast numeric_ge (by norm_num) h100 hq
  have hk := hσ.slots_ne
  have hi := hσ.tokens_ne
  have h1 : σ.token1 ≠ σ.seq := Nat.ne_of_lt hσ.token1_lt
  have h2 : σ.token2 ≠ σ.seq := Nat.ne_of_lt hσ.token2_lt
  have ha := hσ.starts_lt
  refine ⟨pe, ⟨p, hp, hq⟩, ?_⟩
  -- the chain and the new token
  have hchain : Slot.findByDoctorId pl σ.db σ.doctorId = [σ.s1 1, σ.s2 1] :=
    scenario_chain pl σ hσ _ _
  have hcr : Token.create σ.db clk.dbNow ⟨patient, σ.doctorId, none, "EMERGENCY",
      calculatePriority "EMERGENCY" clk.createdAt clk.now, Status.WAITING⟩ =
      .ok (⟨[σ.s1 1, σ.s2 1],
        [σ.p1 (some σ.slot1) Status.CONFIRMED, σ.p2 (some σ.slot2) Status.CONFIRMED,
         σ.em patient pe clk.dbNow none Status.WAITING], σ.seq + 1⟩,
        σ.em patient pe clk.dbNow none Status.WAITING) := by
    rw [create_succeeds σ.db clk.dbNow _ hseq hnul (show "EMERGENCY" ∈ token_type by decide) hp
      (varchar_255_of_length hname) hq]
    rfl
  obtain ⟨hdb, _, hres⟩ :=
    @insertEmergency_started pl clk σ.db _ ⟨patient, σ.doctorId⟩ _ _ _ hchain hcr
  -- first step: the emergency token is seated in slot 1, which overflows
  have hI1 : Slot.incrementUsage (Token.update ⟨[σ.s1 1, σ.s2 1],
        [σ.p1 (some σ.slot1) Status.CONFIRMED, σ.p2 (some σ.slot2) Status.CONFIRMED,
         σ.em patient pe clk.dbNow none Status.WAITING], σ.seq + 1⟩
        (σ.em patient pe clk.dbNow none Status.WAITING).id (some (σ.s1 1).id) Status.CONFIRMED)
        (σ.s1 1).id =
      .ok ⟨[σ.s1 2, σ.s2 1],
        [σ.p1 (some σ.slot1) Status.CONFIRMED, σ.p2 (some σ.slot2) Status.CONFIRMED,
         σ.em patient pe clk.dbNow (some σ.slot1) Status.CONFIRMED], σ.seq + 1⟩ := by
    simp [Slot.incrementUsage, Token.update, Scenario.s1, Scenario.s2, Scenario.p1, Scenario.p2,
      Scenario.em, h1, h2, hk.symm]
  have hF1 : Slot.findById ⟨[σ.s1 2, σ.s2 1],
        [σ.p1 (some σ.slot1) Status.CONFIRMED, σ.p2 (some σ.slot2) Status.CONFIRMED,
         σ.em patient pe clk.dbNow (some σ.slot1) Status.CONFIRMED], σ.seq + 1⟩ (σ.s1 1).id
      = some (σ.s1 2) := by
    simp [Slot.findById, Scenario.s1]
  have hu1 : (σ.s1 2).capacity < (σ.s1 2).used := by simp [Scenario.s1]
  have hV1 : Token.findLowestPriorityInSlot pl ⟨[σ.s1 2, σ.s2 1],
        [σ.p1 (some σ.slot1) Status.CONFIRMED, σ.p2 (some σ.slot2) Status.CONFIRMED,
         σ.em patient pe clk.dbNow (some σ.slot1) Status.CONFIRMED], σ.seq + 1⟩ (σ.s1 1).id
      = some (σ.p1 (some σ.slot1) Status.CONFIRMED) := by
    cases hv : Token.findLowestPriorityInSlot pl ⟨[σ.s1 2, σ.s2 1],
        [σ.p1 (some σ.slot1) Status.CONFIRMED, σ.p2 (some σ.slot2) Status.CONFIRMED,
         σ.em patient pe clk.dbNow (some σ.slot1) Status.CONFIRMED], σ.seq + 1⟩ (σ.s1 1).id with
    | none =>
      have := findLowest_none.mp hv (σ.p1 (some σ.slot1) Status.CONFIRMED) (by simp)
      exact absurd ⟨rfl, rfl⟩ this
    | some v =>
      obtain ⟨hvm, hvsl, _, hmin⟩ := findLowest_some hv
      simp only [List.mem_cons, List.mem_singleton, List.not_mem_nil, or_false] at hvm
      rcases hvm with rfl | rfl | rfl
      · rfl
      · simp [Scenario.p2, Scenario.s1, hk.symm] at hvsl
      · have := hmin (σ.p1 (some σ.slot1) Status.CONFIRMED) (by simp) rfl rfl
        simp only [Scenario.em, Scenario.p1] at this
        linarith
  have hE1 : Slot.decrementUsage (Token.update ⟨[σ.s1 2, σ.s2 1],
        [σ.p1 (some σ.slot1) Status.CONFIRMED, σ.p2 (some σ.slot2) Status.CONFIRMED,
         σ.em patient pe clk.dbNow (some σ.slot1) Status.CONFIRMED], σ.seq + 1⟩
        (σ.p1 (some σ.slot1) Status.CONFIRMED).id none Status.WAITING) (σ.s1 1).id =
      ⟨[σ.s1 1, σ.s2 1],
        [σ.p1 none Status.WAITING, σ.p2 (some σ.slot2) Status.CONFIRMED,
         σ.em patient pe clk.dbNow (some σ.slot1) Status.CONFIRMED], σ.seq + 1⟩ := by
    simp [Slot.decrementUsage, Token.update, Scenario.s1, Scenario.s2, Scenario.p1, Scenario.p2,
      Scenario.em, hi.symm, h1.symm, hk.symm]
  have hN1 : Slot.findNextSlot pl ⟨[σ.s1 1, σ.s2 1],
        [σ.p1 none Status.WAITING, σ.p2 (some σ.slot2) Status.CONFIRMED,
         σ.em patient pe clk.dbNow (some σ.slot1) Status.CONFIRMED], σ.seq + 1⟩
        (σ.s1 1).doctor_id (σ.s1 1).start_time = some (σ.s2 1) := by
    cases hn : Slot.findNextSlot pl ⟨[σ.s1 1, σ.s2 1],
        [σ.p1 none Status.WAITING, σ.p2 (some σ.slot2) Status.CONFIRMED,
         σ.em patient pe clk.dbNow (some σ.slot1) Status.CONFIRMED], σ.seq + 1⟩
        (σ.s1 1).doctor_id (σ.s1 1).start_time with
    | none =>
      have := findNextSlot_none.mp hn (σ.s2 1) (by simp)
      exact absurd ⟨rfl, ha⟩ this
    | some n =>
      obtain ⟨hnm, _, hlt, _⟩ := findNextSlot_some hn
      simp only [List.mem_cons, List.mem_singleton, List.not_mem_nil, or_false] at hnm
      rcases hnm with rfl | rfl
      · exact absurd hlt (lt_irrefl _)
      · rfl
  -- second step: the first PRIORITY token is seated in slot 2, which overflows
  have hI2 : Slot.incrementUsage (Token.update ⟨[σ.s1 1, σ.s2 1],
        [σ.p1 none Status.WAITING, σ.p2 (some σ.slot2) Status.CONFIRMED,
         σ.em patient pe clk.dbNow (some σ.slot1) Status.CONFIRMED], σ.seq + 1⟩
        (σ.p1 (some σ.slot1) Status.CONFIRMED).id (some (σ.s2 1).id) Status.CONFIRMED)
        (σ.s2 1).id =
      .ok ⟨[σ.s1 1, σ.s2 2],
        [σ.p1 (some σ.slot2) Status.CONFIRMED, σ.p2 (some σ.slot2) Status.CONFIRMED,
         σ.em patient pe clk.dbNow (some σ.slot1) Status.CONFIRMED], σ.seq + 1⟩ := by
    simp [Slot.incrementUsage, Token.update, Scenario.s1, Scenario.s2, Scenario.p1, Scenario.p2,
      Scenario.em, hi.symm, h1.symm, hk]
  have hF2 : Slot.findById ⟨[σ.s1 1, σ.s2 2],
        [σ.p1 (some σ.slot2) Status.CONFIRMED, σ.p2 (some σ.slot2) Status.CONFIRMED,
         σ.em patient pe clk.dbNow (some σ.slot1) Status.CONFIRMED], σ.seq + 1⟩ (σ.s2 1).id
      = some (σ.s2 2) := by
    simp [Slot.findById, Scenario.s1, Scenario.s2, hk]
  have hu2 : (σ.s2 2).capacity < (σ.s2 2).used := by simp [Scenario.s2]
  have hN2 : ∀ tokens : List Token, Slot.findNextSlot pl ⟨[σ.s1 1, σ.s2 1], tokens, σ.seq + 1⟩
      (σ.s2 1).doctor_id (σ.s2 1).start_time = none := by
    intro tokens
    rw [findNextSlot_none]
    intro s hs
    simp only [List.mem_cons, List.mem_singleton, List.not_mem_nil, or_false] at hs
    rcases hs with rfl | rfl
    · simp only [Scenario.s1, Scenario.s2, not_and, not_lt]
      intro _; omega
    · simp [Scenario.s2]
  have hV2 : Token.findLowestPriorityInSlot pl ⟨[σ.s1 1, σ.s2 2],
        [σ.p1 (some σ.slot2) Status.CONFIRMED, σ.p2 (some σ.slot2) Status.CONFIRMED,
         σ.em patient pe clk.dbNow (some σ.slot1) Status.CONFIRMED], σ.seq + 1⟩ (σ.s2 1).id
        = some (σ.p1 (some σ.slot2) Status.CONFIRMED) ∨
      Token.findLowestPriorityInSlot pl ⟨[σ.s1 1, σ.s2 2],
        [σ.p1 (some σ.slot2) Status.CONFIRMED, σ.p2 (some σ.slot2) Status.CONFIRMED,
         σ.em patient pe clk.dbNow (some σ.slot1) Status.CONFIRMED], σ.seq + 1⟩ (σ.s2 1).id
        = some (σ.p2 (some σ.slot2) Status.CONFIRMED) := by
    cases hv : Token.findLowestPriorityInSlot pl ⟨[σ.s1 1, σ.s2 2],
        [σ.p1 (some σ.slot2) Status.CONFIRMED, σ.p2 (some σ.slot2) Status.CONFIRMED,
         σ.em patient pe clk.dbNow (some σ.slot1) Status.CONFIRMED], σ.seq + 1⟩ (σ.s2 1).id with
    | none =>
      have := findLowest_none.mp hv (σ.p2 (some σ.slot2) Status.CONFIRMED) (by simp)
      exact absurd ⟨rfl, rfl⟩ this
    | some v =>
      obtain ⟨hvm, hvsl, _, _⟩ := findLowest_some hv
      simp only [List.mem_cons, List.mem_singleton, List.not_mem_nil, or_false] at hvm
      rcases hvm with rfl | rfl | rfl
      · left; rfl
      · right; rfl
      · simp [Scenario.em, Scenario.s2, hk] at hvsl
  rw [hdb, hres]
  rw [show ([σ.s1 1, σ.s2 1].length + 1) = 2 + 1 from rfl]
  rw [rippleInsert_overflow pl 2 _ _ (σ.s1 1) (σ.s1 2) _ _ hI1 hF1 hu1 hV1]
  simp only [hE1, hN1]
  rcases hV2 with hV2 | hV2
  · have hE2 : Slot.decrementUsage (Token.update ⟨[σ.s1 1, σ.s2 2],
          [σ.p1 (some σ.slot2) Status.CONFIRMED, σ.p2 (some σ.slot2) Status.CONFIRMED,
           σ.em patient pe clk.dbNow (some σ.slot1) Status.CONFIRMED], σ.seq + 1⟩
          (σ.p1 (some σ.slot2) Status.CONFIRMED).id none Status.WAITING) (σ.s2 1).id =
        ⟨[σ.s1 1, σ.s2 1],
          [σ.p1 none Status.WAITING, σ.p2 (some σ.slot2) Status.CONFIRMED,
           σ.em patient pe clk.dbNow (some σ.slot1) Status.CONFIRMED], σ.seq + 1⟩ := by
      simp [Slot.decrementUsage, Token.update, Scenario.s1, Scenario.s2, Scenario.p1,
        Scenario.p2, Scenario.em, hi.symm, h1.symm, hk]
    have hP : Token.update ⟨[σ.s1 1, σ.s2 1],
          [σ.p1 none Status.WAITING, σ.p2 (some σ.slot2) Status.CONFIRMED,
           σ.em patient pe clk.dbNow (some σ.slot1) Status.CONFIRMED], σ.seq + 1⟩
          (σ.p1 (some σ.slot2) Status.CONFIRMED).id none Status.WAITING =
        ⟨[σ.s1 1, σ.s2 1],
          [σ.p1 none Status.WAITING, σ.p2 (some σ.slot2) Status.CONFIRMED,
           σ.em patient pe clk.dbNow (some σ.slot1) Status.CONFIRMED], σ.seq + 1⟩ := by
      simp [Token.update, Scenario.p1, Scenario.p2, Scenario.em, hi.symm, h1.symm]
    rw [rippleInsert_overflow pl 1 _ _ (σ.s2 1) (σ.s2 2) _ _ hI2 hF2 hu2 hV2]
    simp only [hE2, hN2, rippleInsert_none, hP]
    exact ⟨trivial, Or.inr ⟨hV2, trivial⟩⟩
  · have hE2 : Slot.decrementUsage (Token.update ⟨[σ.s1 1, σ.s2 2],
          [σ.p1 (some σ.slot2) Status.CONFIRMED, σ.p2 (some σ.slot2) Status.CONFIRMED,
           σ.em patient pe clk.dbNow (some σ.slot1) Status.CONFIRMED], σ.seq + 1⟩
          (σ.p2 (some σ.slot2) Status.CONFIRMED).id none Status.WAITING) (σ.s2 1).id =
        ⟨[σ.s1 1, σ.s2 1],
          [σ.p1 (some σ.slot2) Status.CONFIRMED, σ.p2 none Status.WAITING,
           σ.em patient pe clk.dbNow (some σ.slot1) Status.CONFIRMED], σ.seq + 1⟩ := by
      simp [Slot.decrementUsage, Token.update, Scenario.s1, Scenario.s2, Scenario.p1,
        Scenario.p2, Scenario.em, hi, h2.symm, hk]
    have hP : Token.update ⟨[σ.s1 1, σ.s2 1],
          [σ.p1 (some σ.slot2) Status.CONFIRMED, σ.p2 none Status.WAITING,
           σ.em patient pe clk.dbNow (some σ.slot1) Status.CONFIRMED], σ.seq + 1⟩
          (σ.p2 (some σ.slot2) Status.CONFIRMED).id none Status.WAITING =
        ⟨[σ.s1 1, σ.s2 1],
          [σ.p1 (some σ.slot2) Status.CONFIRMED, σ.p2 none Status.WAITING,
           σ.em patient pe clk.dbNow (some σ.slot1) Status.CONFIRMED], σ.seq + 1⟩ := by
      simp [Token.update, Scenario.p1, Scenario.p2, Scenario.em, hi, h2.symm]
    rw [rippleInsert_overflow pl 1 _ _ (σ.s2 1) (σ.s2 2) _ _ hI2 hF2 hu2 hV2]
    simp only [hE2, hN2, rippleInsert_none, hP]
    exact ⟨trivial, Or.inl ⟨hV2, trivial⟩⟩

/-! ## Instances on the sample stores -/

/-- Instance of the amended C9 on the sample scenario, under the plan that
returns rows in the order of the model. -/
theorem two_slot_ripple_witness :
    ∃ pe : ℚ, (∃ p, calculatePriority "EMERGENCY" sampleClock.createdAt sampleClock.now = some p ∧
        numeric_10_2 p = some pe) ∧
      (insertEmergency Planner.heapOrder sampleClock sampleScenario.db ⟨"e", 7⟩).result =
        Outcome.ok (sampleScenario.em "e" pe sampleClock.dbNow none Status.WAITING) :=
  let ⟨pe, h1, h2, _⟩ := two_slot_ripple Planner.heapOrder sampleClock sampleScenario "e"
    ⟨by decide, by decide, by decide, by decide, by decide, by decide⟩ (by decide) (by decide)
    (by decide) (by decide) ⟨100, 100, by decide!, by decide!⟩
  ⟨pe, h1, h2⟩

theorem roomyDb_schema : Schema roomyDb :=
  ⟨by decide, by decide, by decide, by decide, by decide, by decide⟩

/-- Instance of C4.  On `roomyDb` the walk-in is seated: its token is CONFIRMED
in a slot that had room, which gains one seat.  On the sample store, whose
slots are full, the walk-in is appended as a WAITING token. -/
theorem first_fit_booking_witness :
    (∃ db' tok,
      allocateToken Planner.heapOrder sampleClock roomyDb ⟨"w", 7, "WALKIN"⟩ = (db', .ok tok) ∧
      db'.tokens = roomyDb.tokens ++ [tok] ∧ tok.status = Status.CONFIRMED ∧
      ∃ slot ∈ roomyDb.slots, (slot.used : Int) < slot.capacity ∧ tok.slot_id = some slot.id ∧
        { slot with used := slot.used + 1 } ∈ db'.slots) ∧
    (∃ db' tok,
      allocateToken Planner.heapOrder sampleClock sampleDb ⟨"w", 7, "WALKIN"⟩ = (db', .ok tok) ∧
      db'.tokens = sampleDb.tokens ++ [tok] ∧ tok.status = Status.WAITING) :=
  ⟨(let ⟨db', tok, h1, h2, _, hseat, _⟩ := first_fit_booking Planner.heapOrder sampleClock
      roomyDb ⟨"w", 7, "WALKIN"⟩ roomyDb_schema (by decide) (by decide) (by decide) (by decide)
      ⟨20, 20, by decide!, by decide!⟩ (by decide)
    let ⟨hst, slot, hm, _, hroom, _, hsl, hin, _⟩ :=
      hseat ⟨⟨2, 7, 1000, 2, 1⟩, by decide, rfl, by decide⟩
    ⟨db', tok, h1, h2, hst, slot, hm, hroom, hsl, hin⟩),
   (let ⟨db', tok, h1, h2, _, _, hwait⟩ := first_fit_booking Planner.heapOrder sampleClock
      sampleDb ⟨"w", 7, "WALKIN"⟩ sampleDb_schema (by decide) (by decide) (by decide) (by decide)
      ⟨20, 20, by decide!, by decide!⟩ (by decide)
    ⟨db', tok, h1, h2, (hwait (by decide)).1⟩)⟩

/-- Instance of C5 on the sample store: cancelling token 1 promotes the
waiting token and leaves the slots as they were. -/
theorem promotion_on_cancel_witness :
    ∃ db' slotId w,
      cancelToken Planner.heapOrder sampleDb 1 = (db', .ok "Token cancelled successfully") ∧
      (some 1 : Option Nat) = some slotId ∧ db'.slots = sampleDb.slots ∧ w ∈ sampleDb.tokens :=
  let ⟨db', slotId, w, h1, h2, h3, h4, _⟩ := promotion_on_cancel Planner.heapOrder sampleDb
    ⟨1, "a", 7, some 1, "PRIORITY", 80, Status.CONFIRMED, 10⟩ sampleDb_schema
    sampleDb_consistent (by decide) (by decide) (by decide)
  ⟨db', slotId, w, h1, h2, h3, h4⟩

/-- Instance of the amended C6 on the sample store: an unknown id is reported
and nothing changes; token 1, which is CONFIRMED, can be cancelled. -/
theorem cancel_failure_cases_witness :
    cancelToken Planner.heapOrder sampleDb 99 = (sampleDb, .error "Token not found") ∧
    ∃ db', cancelToken Planner.heapOrder sampleDb 1 = (db', .ok "Token cancelled successfully") :=
  ⟨(cancel_failure_cases Planner.heapOrder sampleDb 99 sampleDb_schema (by decide)).1 (by decide),
   (cancel_failure_cases Planner.heapOrder sampleDb 1 sampleDb_schema (by decide)).2.2.1
     sampleDb_consistent
     ⟨1, "a", 7, some 1, "PRIORITY", 80, Status.CONFIRMED, 10⟩ (by decide) (by decide)
     (by decide)⟩

/-! ## Errors before the first write -/

/-- In a store that obeys its schema a booking that throws leaves the rows of
the store as they were: its increment cannot be rejected, so it only throws
before writing. -/
theorem allocateToken_error_unchanged {pl : Planner} {clk : Clock} {db db' : Db}
    {data : BookRequest} {e : String} (hs : Schema db)
    (h : allocateToken pl clk db data = (db', .error e)) :
    db'.slots = db.slots ∧ db'.tokens = db.tokens := by
  suffices hdb : db' = db by rw [hdb]; exact ⟨rfl, rfl⟩
  unfold allocateToken at h
  simp only at h
  split at h
  · simp only [Prod.mk.injEq] at h
    exact h.1.symm
  · split at h
    · rename_i slot hfind
      split at h
      · simp only [Prod.mk.injEq] at h
        exact h.1.symm
      · rename_i db1 token hcr
        split at h
        · rename_i e' hinc
          have hslot : slot ∈ db.slots :=
            ((mem_findByDoctorId pl db data.doctorId slot).mp
              (List.mem_of_find?_eq_some hfind)).1
          have hroom : slot.used < slot.capacity := by simpa using List.find?_some hfind
          have hs1 : db1.slots = db.slots := (create_ok hcr).2.2.2.2.2.2.2.2.2.1
          obtain ⟨db2, hok⟩ := increment_succeeds db1 slot.id (by
            intro s hsm hsid
            rw [hs1] at hsm
            have : s = slot := slot_eq_of_id hs.slot_pk hsm hslot hsid
            subst this
            omega)
          rw [hok] at hinc
          cases hinc
        · cases h
    · split at h
      · simp only [Prod.mk.injEq] at h
        exact h.1.symm
      · cases h

/-- In a store that obeys its schema and whose records agree, a cancellation
that throws leaves the store as it was: it only throws before writing. -/
theorem cancelToken_error_unchanged {pl : Planner} {db db' : Db} {tokenId : Nat} {e : String}
    (hs : Schema db) (hc : Consistent db) (h : cancelToken pl db tokenId = (db', .error e)) :
    db' = db := by
  unfold cancelToken at h
  split at h
  · simp only [Prod.mk.injEq] at h
    exact h.1.symm
  · rename_i token hfind
    obtain ⟨htm, _⟩ := token_findById_mem hfind
    split at h
    · simp only [Prod.mk.injEq] at h
      exact h.1.symm
    · split at h
      · rename_i slotId hfreed
        have hconf : token.status = Status.CONFIRMED ∧ truthyId token.slot_id = some slotId := by
          by_cases hcf : token.status = Status.CONFIRMED
          · simp only [hcf, if_true] at hfreed
            exact ⟨hcf, hfreed⟩
          · simp only [hcf, if_false] at hfreed
            cases hfreed
        obtain ⟨hsl, _⟩ := truthyId_some hconf.2
        have hpos : ∀ s ∈ db.slots, s.id = slotId → 0 < s.used := by
          intro s hsm hsid
          rw [hc.used_counts s hsm, hsid]
          exact occupancy_pos htm hconf.1 hsl
        simp only at h
        split at h
        · cases h
        · rename_i w rest _
          split at h
          · rename_i e' hinc
            obtain ⟨db3, hok⟩ := increment_after_decrement db hs.check_capacity w.id slotId
              (some slotId) Status.CONFIRMED hpos
            rw [hok] at hinc
            cases hinc
          · cases h
      · cases h

/-! ## Priority scores -/

/-- On every type that is not a name inherited from `Object.prototype`,
`getBasePriority` is the base score of the specification. -/
theorem getBasePriority_eq_specBase (type : String) (h : type ∉ objectPrototypeKeys) :
    getBasePriority type = some (specBase type) := by
  unfold getBasePriority specBase BASE_PRIORITY
  by_cases h1 : type = "EMERGENCY"
  · subst h1; rfl
  by_cases h2 : type = "PRIORITY"
  · subst h2; rfl
  by_cases h3 : type = "FOLLOWUP"
  · subst h3; rfl
  by_cases h4 : type = "ONLINE"
  · subst h4; rfl
  by_cases h5 : type = "WALKIN"
  · subst h5; rfl
  have e1 : (type == "EMERGENCY") = false := beq_eq_false_iff_ne.mpr h1
  have e2 : (type == "PRIORITY") = false := beq_eq_false_iff_ne.mpr h2
  have e3 : (type == "FOLLOWUP") = false := beq_eq_false_iff_ne.mpr h3
  have e4 : (type == "ONLINE") = false := beq_eq_false_iff_ne.mpr h4
  have e5 : (type == "WALKIN") = false := beq_eq_false_iff_ne.mpr h5
  simp only [List.lookup, e1, e2, e3, e4, e5, if_neg h, if_neg h1, if_neg h2, if_neg h3,
    if_neg h4, if_neg h5]

/-- On every type that is not a name inherited from `Object.prototype`,
`calculatePriority` is the base score plus a fifth of the minutes waited. -/
theorem calculatePriority_formula (type : String) (createdAt now : Int)
    (h : type ∉ objectPrototypeKeys) :
    calculatePriority type createdAt now =
      some (specBase type + (((now - createdAt : Int) : ℚ) / 60000) / 5) := by
  unfold calculatePriority
  rw [getBasePriority_eq_specBase type h]
  norm_num

/-- Claim C12 (the code at the failing input). For the type "constructor",
a property name that the table inherits from `Object.prototype`,
`BASE_PRIORITY[type] || 0` is not 0 but the inherited member, so neither
`getBasePriority` nor `calculatePriority` returns a number, whereas the
specification gives this type the base 0. -/
theorem priority_of_inherited_name :
    getBasePriority "constructor" = none ∧
    (∀ createdAt now : Int, calculatePriority "constructor" createdAt now = none) ∧
    specBase "constructor" = 0 ∧
    "constructor" ∉ token_type := by
  refine ⟨by decide, ?_, by decide, by decide⟩
  intro createdAt now
  have h : getBasePriority "constructor" = none := by decide
  simp [calculatePriority, h]

/-- Claim C13 (the code at the failing input). `comparePriority` returns
`token2.priority - token1.priority`: for a first token of priority 100 and a
second of priority 80 it returns -20, and in general it is negative, not
positive, whenever the first token has the higher priority. -/
theorem comparePriority_sign :
    comparePriority ⟨1, "a", 7, none, "EMERGENCY", 100, Status.WAITING, 0⟩
      ⟨2, "b", 7, none, "PRIORITY", 80, Status.WAITING, 0⟩ = -20 ∧
    ∀ token1 token2 : Token, token2.priority < token1.priority →
      comparePriority token1 token2 < 0 := by
  constructor
  · norm_num [comparePriority]
  · intro token1 token2 h
    unfold comparePriority
    linarith

/-! ## What the operations return -/

/-- The token that a successful `insertEmergency` returns is the row as
`Token.create` returned it: WAITING, with no slot. -/
theorem insertEmergency_returns_created {pl : Planner} {clk : Clock} {db : Db}
    {data : EmergencyRequest} {tok : Token}
    (h : (insertEmergency pl clk db data).result = Outcome.ok tok) :
    tok.status = Status.WAITING ∧ tok.slot_id = none ∧ tok.id = db.tokens_id_seq := by
  obtain ⟨_, _, _, _, hcr, _, _, _⟩ := insertEmergency_ok h
  obtain ⟨_, _, hid, _, _, hsl, _, hst, _, _, _, _⟩ := create_ok hcr
  exact ⟨hst, by rw [hsl]; rfl, hid⟩

/-- Claim C11 (the code at the failing input). On the sample store
`insertEmergency` succeeds and returns token 4 as WAITING with no slot, while
in the store it leaves token 4 is CONFIRMED in slot 1. -/
theorem emergency_returns_stale_row :
    (insertEmergency Planner.heapOrder sampleClock sampleDb ⟨"e", 7⟩).result =
      Outcome.ok ⟨4, "e", 7, none, "EMERGENCY", 100, Status.WAITING, 30⟩ ∧
    Token.findById (insertEmergency Planner.heapOrder sampleClock sampleDb ⟨"e", 7⟩).db 4 =
      some ⟨4, "e", 7, some 1, "EMERGENCY", 100, Status.CONFIRMED, 30⟩ := by
  refine ⟨by decide!, by decide!⟩

/-! ## Error messages -/

/-- A rejected insert reports the text of the patient, the enum, the syntax
of the priority, the end of the sequence of ids, or one of the two columns
that did not fit. -/
theorem create_error {db : Db} {now : Nat} {d : NewToken} {e : String}
    (h : Token.create db now d = .error e) :
    e = "invalid byte sequence for encoding UTF8: 0x00" ∨
      e = "invalid input value for enum token_type" ∨
      e = "invalid input syntax for type numeric" ∨
      e = "nextval: reached maximum value of sequence tokens_id_seq (2147483647)" ∨
      e = "value too long for type character varying(255)" ∨
      e = "numeric field overflow" := by
  unfold Token.create at h
  split at h
  · injection h with h
    exact Or.inl h.symm
  · split at h
    · split at h
      · injection h with h
        exact Or.inr (Or.inr (Or.inl h.symm))
      · split at h
        · injection h with h
          exact Or.inr (Or.inr (Or.inr (Or.inl h.symm)))
        · split at h
          · injection h with h
            exact Or.inr (Or.inr (Or.inr (Or.inr (Or.inl h.symm))))
          · split at h
            · injection h with h
              exact Or.inr (Or.inr (Or.inr (Or.inr (Or.inr h.symm))))
            · cases h
    · injection h with h
      exact Or.inr (Or.inl h.symm)

/-- A rejected increment reports `check_capacity`. -/
theorem increment_error {db : Db} {k : Nat} {e : String}
    (h : Slot.incrementUsage db k = .error e) :
    e = "new row for relation slots violates check constraint check_capacity" := by
  unfold Slot.incrementUsage at h
  split at h
  · injection h with h
    exact h.symm
  · cases h

/-- A cascade that throws reports a rejected increment, a slot that could not
be read back, or a missing victim. -/
theorem ripple_error (pl : Planner) :
    ∀ (fuel : Nat) (db : Db) (slot : Option Slot) (token : Token) (e : String),
      (rippleInsert pl fuel db slot token).result = Outcome.error e →
      e = "new row for relation slots violates check constraint check_capacity" ∨
      e = "Cannot read properties of undefined (reading used)" ∨
      e = "Slot overcapacity but no victim found" := by
  intro fuel
  induction fuel with
  | zero =>
    intro db slot token e h
    rw [rippleInsert_zero] at h
    cases h
  | succ fuel ih =>
    intro db slot token e hres
    cases slot with
    | none => rw [rippleInsert_none] at hres; cases hres
    | some slot =>
      cases h : Slot.incrementUsage (Token.update db token.id (some slot.id) Status.CONFIRMED)
          slot.id with
      | error e' =>
        rw [rippleInsert_rejected pl fuel db slot token h] at hres
        simp only [Outcome.error.injEq] at hres
        subst hres
        exact Or.inl (increment_error h)
      | ok db2 =>
        cases hf : Slot.findById db2 slot.id with
        | none =>
          rw [rippleInsert_missing pl fuel db db2 slot token h hf] at hres
          simp only [Outcome.error.injEq] at hres
          exact Or.inr (Or.inl hres.symm)
        | some u =>
          by_cases hu : u.capacity < u.used
          · cases hv : Token.findLowestPriorityInSlot pl db2 slot.id with
            | none =>
              rw [rippleInsert_noVictim pl fuel db db2 slot u token h hf hu hv] at hres
              simp only [Outcome.error.injEq] at hres
              exact Or.inr (Or.inr hres.symm)
            | some v =>
              rw [rippleInsert_overflow pl fuel db db2 slot u token v h hf hu hv] at hres
              exact ih _ _ _ _ hres
          · rw [rippleInsert_fits pl fuel db db2 slot u token h hf hu] at hres
            cases hres

/-! ## The empty chain -/

/-- A doctor without slots has an empty chain. -/
theorem findByDoctorId_nil {pl : Planner} {db : Db} {d : Nat}
    (h : ∀ s ∈ db.slots, s.doctor_id ≠ d) : Slot.findByDoctorId pl db d = [] := by
  rw [List.eq_nil_iff_forall_not_mem]
  intro s hs
  obtain ⟨hm, hd⟩ := (mem_findByDoctorId pl db d s).mp hs
  exact h s hm hd

/-- A doctor with a slot has a chain that is not empty. -/
theorem findByDoctorId_ne_nil {pl : Planner} {db : Db} {d : Nat}
    (h : ∃ s ∈ db.slots, s.doctor_id = d) : Slot.findByDoctorId pl db d ≠ [] := by
  obtain ⟨s, hm, hd⟩ := h
  intro hnil
  have := (mem_findByDoctorId pl db d s).mpr ⟨hm, hd⟩
  rw [hnil] at this
  cases this

/-- Claim C15. Empty chain.  For every owner with no slots, `allocateToken`
throws "No slots available for this doctor" and leaves the store as it was, and
so does `insertEmergency` (it writes nothing); for every owner with at least
one slot neither operation throws this error. -/
theorem empty_chain (pl : Planner) (clk : Clock) (db : Db) :
    (∀ data : BookRequest, (∀ s ∈ db.slots, s.doctor_id ≠ data.doctorId) →
      allocateToken pl clk db data = (db, .error "No slots available for this doctor")) ∧
    (∀ data : EmergencyRequest, (∀ s ∈ db.slots, s.doctor_id ≠ data.doctorId) →
      (insertEmergency pl clk db data).db = db ∧
      (insertEmergency pl clk db data).result =
        Outcome.error "No slots available for this doctor" ∧
      (insertEmergency pl clk db data).log = []) ∧
    (∀ data : BookRequest, (∃ s ∈ db.slots, s.doctor_id = data.doctorId) →
      (allocateToken pl clk db data).2 ≠ .error "No slots available for this doctor") ∧
    (∀ data : EmergencyRequest, (∃ s ∈ db.slots, s.doctor_id = data.doctorId) →
      (insertEmergency pl clk db data).result ≠
        Outcome.error "No slots available for this doctor") := by
  refine ⟨?_, ?_, ?_, ?_⟩
  · intro data h
    have hnil := @findByDoctorId_nil pl db _ h
    simp [allocateToken, hnil]
  · intro data h
    have hnil := @findByDoctorId_nil pl db _ h
    simp [insertEmergency, hnil]
  · intro data h
    have hne := @findByDoctorId_ne_nil pl db _ h
    have hlen : ¬ (Slot.findByDoctorId pl db data.doctorId).length = 0 :=
      fun hl => hne (List.length_eq_zero.mp hl)
    unfold allocateToken
    simp only [hlen, if_false]
    split
    · split
      · rename_i e hcr
        intro he
        simp only [Except.error.injEq] at he
        rcases create_error hcr with h1 | h1 | h1 | h1 | h1 | h1 <;> rw [h1] at he <;> revert he <;> decide
      · split
        · rename_i e hinc
          intro he
          simp only [Except.error.injEq] at he
          rw [increment_error hinc] at he
          revert he
          decide
        · intro he
          cases he
    · split
      · rename_i e hcr
        intro he
        simp only [Except.error.injEq] at he
        rcases create_error hcr with h1 | h1 | h1 | h1 | h1 | h1 <;> rw [h1] at he <;> revert he <;> decide
      · intro he
        cases he
  · intro data h
    have hne := @findByDoctorId_ne_nil pl db _ h
    cases hs : Slot.findByDoctorId pl db data.doctorId with
    | nil => exact absurd hs hne
    | cons slot0 others =>
      cases hc : Token.create db clk.dbNow ⟨data.patient, data.doctorId, none, "EMERGENCY",
          calculatePriority "EMERGENCY" clk.createdAt clk.now, Status.WAITING⟩ with
      | error e =>
        intro he
        simp only [insertEmergency, hs, hc, Outcome.error.injEq] at he
        rcases create_error hc with h1 | h1 | h1 | h1 | h1 | h1 <;> rw [h1] at he <;> revert he <;> decide
      | ok r =>
        obtain ⟨db1, token⟩ := r
        obtain ⟨_, _, hres⟩ := insertEmergency_started hs hc
        rw [hres]
        cases hr : (rippleInsert pl ((slot0 :: others).length + 1) db1 (some slot0) token).result with
        | ok _ => simp
        | outOfFuel => simp
        | error e =>
          simp only [Outcome.error.injEq]
          intro he
          rcases ripple_error pl _ _ _ _ _ hr with h1 | h1 | h1 <;> rw [h1] at he <;>
            revert he <;> decide

/-! ## The type guard of booking -/

/-- Claim C14 (counterexample). Called with the type EMERGENCY,
`allocateToken` does not fail: on the sample store, whose slots are full, it
returns a new WAITING token of type EMERGENCY and appends it to the tokens. -/
theorem allocateToken_books_emergency :
    allocateToken Planner.heapOrder sampleClock sampleDb ⟨"x", 7, "EMERGENCY"⟩ =
      (⟨sampleDb.slots,
        sampleDb.tokens ++ [⟨4, "x", 7, none, "EMERGENCY", 100, Status.WAITING, 30⟩], 5⟩,
       .ok ⟨4, "x", 7, none, "EMERGENCY", 100, Status.WAITING, 30⟩) ∧
    "EMERGENCY" ∉ validTypes := by
  refine ⟨by decide!, by decide⟩

/-- Claim C14 (amended). The guard against types outside PRIORITY, FOLLOWUP,
ONLINE, WALKIN is in the handler of `POST /token/book`: for every request with
such a type (EMERGENCY or any other string) it answers 400 without calling
`allocateToken`, so no token is created and no slot changes.  `allocateToken`
itself has no guard: it fails, leaving the store as it was, for every type
that is not a label of `token_type`, because the store refuses the row. -/
theorem book_type_guard (pl : Planner) (clk : Clock) (db : Db) :
    (∀ body : BookRequest, body.type ∉ validTypes →
      (postBook pl clk db body).1 = db ∧ (postBook pl clk db body).2.status = 400 ∧
      ∃ msg, (postBook pl clk db body).2.body = .error msg) ∧
    (∀ data : BookRequest, data.type ∉ token_type →
      ∃ msg, allocateToken pl clk db data = (db, .error msg)) := by
  constructor
  · intro body h
    unfold postBook
    split
    · exact ⟨rfl, rfl, _, rfl⟩
    · exact ⟨rfl, rfl, _, rfl⟩
  · intro data h
    have hcr : ∀ (slotId : Option Nat) (st : Status),
        ∃ msg, Token.create db clk.dbNow ⟨data.patient, data.doctorId, slotId, data.type,
          calculatePriority data.type clk.createdAt clk.now, st⟩ = .error msg := by
      intro slotId st
      by_cases hn : Char.ofNat 0 ∈ data.patient.toList
      · exact ⟨"invalid byte sequence for encoding UTF8: 0x00",
          by simp only [Token.create, hn, if_true]⟩
      · exact ⟨"invalid input value for enum token_type",
          by simp only [Token.create, hn, h, if_false]⟩
    unfold allocateToken
    simp only
    split
    · exact ⟨_, rfl⟩
    · split
      · rename_i slot _
        obtain ⟨msg, hmsg⟩ := hcr (some slot.id) Status.CONFIRMED
        rw [hmsg]
        exact ⟨_, rfl⟩
      · obtain ⟨msg, hmsg⟩ := hcr none Status.WAITING
        rw [hmsg]
        exact ⟨_, rfl⟩

/-- Instance of the amended C14 on the sample store. -/
theorem book_type_guard_witness :
    (postBook Planner.heapOrder sampleClock sampleDb ⟨"x", 7, "EMERGENCY"⟩).1 = sampleDb ∧
    (postBook Planner.heapOrder sampleClock sampleDb ⟨"x", 7, "EMERGENCY"⟩).2.status = 400 ∧
    ∃ msg, allocateToken Planner.heapOrder sampleClock sampleDb ⟨"x", 7, "BOGUS"⟩
      = (sampleDb, .error msg) :=
  ⟨((book_type_guard Planner.heapOrder sampleClock sampleDb).1 ⟨"x", 7, "EMERGENCY"⟩
      (by decide)).1,
   ((book_type_guard Planner.heapOrder sampleClock sampleDb).1 ⟨"x", 7, "EMERGENCY"⟩
      (by decide)).2.1,
   (book_type_guard Planner.heapOrder sampleClock sampleDb).2 ⟨"x", 7, "BOGUS"⟩ (by decide)⟩

/-! ## The victim always exists -/

/-- After `Token.update` every row with the given id has the new seat and status. -/
theorem update_mem_of_id {db : Db} {i : Nat} {sl : Option Nat} {st : Status} {row : Token}
    (h : row ∈ db.tokens) (hi : row.id = i) :
    ({ row with slot_id := sl, status := st } : Token) ∈ (Token.update db i sl st).tokens := by
  rw [token_update_tokens]
  exact List.mem_map.mpr ⟨row, h, by simp [hi]⟩

/-- A cascade started with a token of the store never throws "Slot
overcapacity but no victim found": the token just seated is a CONFIRMED token
of the slot, so the victim query returns a row. -/
theorem ripple_has_victim (pl : Planner) :
    ∀ (fuel : Nat) (db : Db) (slot : Option Slot) (token : Token),
      (∃ row ∈ db.tokens, row.id = token.id) →
      (rippleInsert pl fuel db slot token).result ≠
        Outcome.error "Slot overcapacity but no victim found" := by
  intro fuel
  induction fuel with
  | zero =>
    intro db slot token _
    rw [rippleInsert_zero]
    simp
  | succ fuel ih =>
    intro db slot token hrow
    obtain ⟨row, hrm, hrid⟩ := hrow
    cases slot with
    | none => rw [rippleInsert_none]; simp
    | some slot =>
      cases h : Slot.incrementUsage (Token.update db token.id (some slot.id) Status.CONFIRMED)
          slot.id with
      | error e =>
        rw [rippleInsert_rejected pl fuel db slot token h]
        simp only [ne_eq, Outcome.error.injEq]
        rw [increment_error h]
        decide
      | ok db2 =>
        obtain ⟨ht2, _, _, _⟩ := increment_ok h
        cases hf : Slot.findById db2 slot.id with
        | none =>
          rw [rippleInsert_missing pl fuel db db2 slot token h hf]
          simp only [ne_eq, Outcome.error.injEq]
          decide
        | some u =>
          by_cases hu : u.capacity < u.used
          · cases hv : Token.findLowestPriorityInSlot pl db2 slot.id with
            | none =>
              exfalso
              have hseated : ({ row with slot_id := some slot.id, status := Status.CONFIRMED }
                  : Token) ∈ db2.tokens := by
                rw [ht2]; exact update_mem_of_id hrm hrid
              exact findLowest_none.mp hv _ hseated ⟨rfl, rfl⟩
            | some v =>
              rw [rippleInsert_overflow pl fuel db db2 slot u token v h hf hu hv]
              apply ih
              obtain ⟨hvm, _, _, _⟩ := findLowest_some hv
              exact ⟨{ v with slot_id := none, status := Status.WAITING },
                by rw [decrement_tokens]; exact update_mem_target hvm, rfl⟩
          · rw [rippleInsert_fits pl fuel db db2 slot u token h hf hu]
            simp

/-- Claim C18. The invariant-violation branch is unreachable.  For every
store, planner, clock and request, `insertEmergency` never throws "Slot
overcapacity but no victim found"; and in every cascade step that finds its
slot over capacity, the token just seated is a CONFIRMED token of that slot in
the store the victim query reads, and the query returns a token. -/
theorem no_victim_unreachable (pl : Planner) (clk : Clock) (db : Db) (data : EmergencyRequest) :
    (insertEmergency pl clk db data).result ≠
      Outcome.error "Slot overcapacity but no victim found" ∧
    ∀ (db0 db2 : Db) (slot : Slot) (token row : Token), row ∈ db0.tokens → row.id = token.id →
      Slot.incrementUsage (Token.update db0 token.id (some slot.id) Status.CONFIRMED) slot.id
        = .ok db2 →
      ({ row with slot_id := some slot.id, status := Status.CONFIRMED } : Token) ∈ db2.tokens ∧
      ∃ v, Token.findLowestPriorityInSlot pl db2 slot.id = some v := by
  constructor
  · cases hs : Slot.findByDoctorId pl db data.doctorId with
    | nil =>
      simp only [insertEmergency, hs, ne_eq, Outcome.error.injEq]
      decide
    | cons slot0 others =>
      cases hc : Token.create db clk.dbNow ⟨data.patient, data.doctorId, none, "EMERGENCY",
          calculatePriority "EMERGENCY" clk.createdAt clk.now, Status.WAITING⟩ with
      | error e =>
        simp only [insertEmergency, hs, hc, ne_eq, Outcome.error.injEq]
        rcases create_error hc with h1 | h1 | h1 | h1 | h1 | h1 <;> rw [h1] <;> decide
      | ok r =>
        obtain ⟨db1, token⟩ := r
        obtain ⟨_, _, hres⟩ := insertEmergency_started hs hc
        rw [hres]
        have ht1 : db1.tokens = db.tokens ++ [token] := (create_ok hc).2.2.2.2.2.2.2.2.2.2.1
        have hno := ripple_has_victim pl ((slot0 :: others).length + 1) db1 (some slot0) token
          ⟨token, by rw [ht1]; simp, rfl⟩
        cases hr : (rippleInsert pl ((slot0 :: others).length + 1) db1 (some slot0) token).result with
        | ok _ => simp
        | outOfFuel => simp
        | error e =>
          rw [hr] at hno
          simpa using hno
  · intro db0 db2 slot token row hrm hrid hinc
    obtain ⟨ht2, _, _, _⟩ := increment_ok hinc
    have hseated : ({ row with slot_id := some slot.id, status := Status.CONFIRMED } : Token)
        ∈ db2.tokens := by
      rw [ht2]; exact update_mem_of_id hrm hrid
    refine ⟨hseated, ?_⟩
    cases hv : Token.findLowestPriorityInSlot pl db2 slot.id with
    | none => exact absurd ⟨rfl, rfl⟩ (findLowest_none.mp hv _ hseated)
    | some v => exact ⟨v, rfl⟩

/-! ## The transient overflow -/

theorem bounded_transient {db : Db} (h : Bounded db) : Transient db := by
  intro s hs
  have := h s hs
  omega

/-- After a successful increment of a store within capacity, every slot is
used at most one beyond its capacity. -/
theorem transient_after_increment {db db2 : Db} {k : Nat} (hb : Bounded db)
    (h : Slot.incrementUsage db k = .ok db2) : Transient db2 := by
  obtain ⟨_, _, hs2, _⟩ := increment_ok h
  intro s' hs'
  rw [hs2] at hs'
  obtain ⟨s, hsm, rfl⟩ := List.mem_map.mp hs'
  have := hb s hsm
  split
  · show s.used + 1 ≤ s.capacity + 1
    omega
  · omega

/-- In a store within capacity whose slot ids are distinct, a cascade started
at a slot of the store with a token of the store is never refused an increment
and never throws: it returns unless its budget runs out, and after each of its
writes every slot is used at most one beyond its capacity. -/
theorem ripple_transient (pl : Planner) :
    ∀ (fuel : Nat) (db : Db) (slot : Option Slot) (token : Token),
      Bounded db →
      (∀ s, slot = some s → ∃ row ∈ db.slots, row.id = s.id) →
      (∃ row ∈ db.tokens, row.id = token.id) →
      (∀ e ∈ (rippleInsert pl fuel db slot token).log, Transient e.2) ∧
      ((rippleInsert pl fuel db slot token).result = Outcome.ok () ∨
        (rippleInsert pl fuel db slot token).result = Outcome.outOfFuel) := by
  intro fuel
  induction fuel with
  | zero =>
    intro db slot token _ _ _
    rw [rippleInsert_zero]
    exact ⟨by simp, Or.inr rfl⟩
  | succ fuel ih =>
    intro db slot token hb hslot hrow
    obtain ⟨row, hrm, hrid⟩ := hrow
    cases slot with
    | none =>
      rw [rippleInsert_none]
      refine ⟨?_, Or.inl rfl⟩
      intro e he
      simp only [List.mem_singleton] at he
      subst he
      exact bounded_transient hb
    | some slot =>
      obtain ⟨srow, hsrm, hsrid⟩ := hslot slot rfl
      have hb1 : Bounded (Token.update db token.id (some slot.id) Status.CONFIRMED) := hb
      obtain ⟨db2, h⟩ := increment_succeeds
        (Token.update db token.id (some slot.id) Status.CONFIRMED) slot.id (by
          intro s hs _
          have := hb s hs
          omega)
      obtain ⟨ht2, _, hs2, _⟩ := increment_ok h
      have htr2 : Transient db2 := transient_after_increment hb1 h
      have hseated : ∀ e ∈ [(Step.seat slot.id token.id,
            Token.update db token.id (some slot.id) Status.CONFIRMED),
          (Step.increment slot.id, db2)], Transient e.2 := by
        intro e he
        simp only [List.mem_cons, List.mem_singleton, List.not_mem_nil, or_false] at he
        rcases he with rfl | rfl
        · exact bounded_transient hb1
        · exact htr2
      cases hf : Slot.findById db2 slot.id with
      | none =>
        exfalso
        unfold Slot.findById at hf
        rw [List.find?_eq_none] at hf
        rw [hs2, token_update_slots] at hf
        have := hf _ (List.mem_map_of_mem _ hsrm)
        apply this
        simp only [decide_eq_true_eq]
        rw [← hsrid]
        split <;> rfl
      | some u =>
        by_cases hu : u.capacity < u.used
        · cases hv : Token.findLowestPriorityInSlot pl db2 slot.id with
          | none =>
            exfalso
            have hmem : ({ row with slot_id := some slot.id, status := Status.CONFIRMED }
                : Token) ∈ db2.tokens := by
              rw [ht2]; exact update_mem_of_id hrm hrid
            exact findLowest_none.mp hv _ hmem ⟨rfl, rfl⟩
          | some v =>
            rw [rippleInsert_overflow pl fuel db db2 slot u token v h hf hu hv]
            dsimp only
            have hsl4 : (Slot.decrementUsage (Token.update db2 v.id none Status.WAITING)
                slot.id).slots = db.slots := evict_slots h
            have hb4 : Bounded (Slot.decrementUsage (Token.update db2 v.id none Status.WAITING)
                slot.id) := by
              intro s hs; rw [hsl4] at hs; exact hb s hs
            obtain ⟨hvm, _, _, _⟩ := findLowest_some hv
            obtain ⟨hlog, hres⟩ := ih
              (Slot.decrementUsage (Token.update db2 v.id none Status.WAITING) slot.id)
              (Slot.findNextSlot pl
                (Slot.decrementUsage (Token.update db2 v.id none Status.WAITING) slot.id)
                slot.doctor_id slot.start_time) v hb4
              (by
                intro n hn
                exact ⟨n, (findNextSlot_some hn).1, rfl⟩)
              ⟨{ v with slot_id := none, status := Status.WAITING },
                by rw [decrement_tokens]; exact update_mem_target hvm, rfl⟩
            refine ⟨?_, hres⟩
            intro e he
            rcases List.mem_append.mp he with he | he
            · rcases List.mem_append.mp he with he | he
              · exact hseated e he
              · simp only [List.mem_cons, List.mem_singleton, List.not_mem_nil, or_false] at he
                rcases he with rfl | rfl
                · exact htr2
                · exact bounded_transient hb4
            · exact hlog e he
        · rw [rippleInsert_fits pl fuel db db2 slot u token h hf hu]
          exact ⟨hseated, Or.inl rfl⟩

/-- Claim C19. Bounded transient overflow.  In every store whose slot ids are
distinct and where every slot has `used <= capacity` (and `0 <= used`, by the
type of `used`), after each write of an `insertEmergency` every slot has
`used <= capacity + 1`, hence `used <= capacity + 5`; no increment of the
cascade is rejected by `check_capacity`; and when the operation completes every
slot has `used <= capacity` again. -/
theorem bounded_transient_overflow (pl : Planner) (clk : Clock) (db : Db)
    (data : EmergencyRequest) (hpk : (db.slots.map (fun s => s.id)).Nodup) (hb : Bounded db) :
    (∀ e ∈ (insertEmergency pl clk db data).log, ∀ s ∈ e.2.slots,
      s.used ≤ s.capacity + 1 ∧ s.used ≤ s.capacity + 5) ∧
    (insertEmergency pl clk db data).result ≠
      Outcome.error "new row for relation slots violates check constraint check_capacity" ∧
    Bounded (insertEmergency pl clk db data).db := by
  cases hs : Slot.findByDoctorId pl db data.doctorId with
  | nil =>
    have h1 : (insertEmergency pl clk db data).log = [] := by simp [insertEmergency, hs]
    have h2 : (insertEmergency pl clk db data).result =
        Outcome.error "No slots available for this doctor" := by simp [insertEmergency, hs]
    have h3 : (insertEmergency pl clk db data).db = db := by simp [insertEmergency, hs]
    rw [h1, h2, h3]
    refine ⟨by simp, ?_, hb⟩
    simp only [ne_eq, Outcome.error.injEq]
    decide
  | cons slot0 others =>
    cases hc : Token.create db clk.dbNow ⟨data.patient, data.doctorId, none, "EMERGENCY",
        calculatePriority "EMERGENCY" clk.createdAt clk.now, Status.WAITING⟩ with
    | error e =>
      have h1 : (insertEmergency pl clk db data).log = [] := by simp [insertEmergency, hs, hc]
      have h2 : (insertEmergency pl clk db data).result = Outcome.error e := by
        simp [insertEmergency, hs, hc]
      have h3 : (insertEmergency pl clk db data).db = db := by simp [insertEmergency, hs, hc]
      rw [h1, h2, h3]
      refine ⟨by simp, ?_, hb⟩
      simp only [ne_eq, Outcome.error.injEq]
      rcases create_error hc with h | h | h | h | h | h <;> rw [h] <;> decide
    | ok r =>
      obtain ⟨db1, tok⟩ := r
      obtain ⟨hdb, hlog, hres⟩ := insertEmergency_started hs hc
      obtain ⟨_, _, _, _, _, _, _, _, _, hsl1, ht1, _⟩ := create_ok hc
      have hb1 : Bounded db1 := by
        intro s hsm; rw [hsl1] at hsm; exact hb s hsm
      have hmem : slot0 ∈ Slot.findByDoctorId pl db data.doctorId := by
        rw [hs]; exact List.mem_cons_self _ _
      have hslot0 := (mem_findByDoctorId pl db data.doctorId slot0).mp hmem
      obtain ⟨htrans, hok⟩ := ripple_transient pl ((slot0 :: others).length + 1) db1
        (some slot0) tok hb1 (by
          intro s hs0
          injection hs0 with hs0
          subst hs0
          exact ⟨slot0, by rw [hsl1]; exact hslot0.1, rfl⟩)
        ⟨tok, by rw [ht1]; simp, rfl⟩
      have hlt := laterSlots_first hmem
      rw [hs] at hlt
      have hl : laterSlots db1 slot0.doctor_id slot0.start_time =
          laterSlots db slot0.doctor_id slot0.start_time :=
        laterSlots_congr (by rw [hsl1]) _ _
      have hfuel := (ripple_budget pl ((slot0 :: others).length + 1) db1 slot0 tok (by
        rw [hl]; omega)).1
      have hrok : (rippleInsert pl ((slot0 :: others).length + 1) db1 (some slot0) tok).result
          = Outcome.ok () := by
        rcases hok with h | h
        · exact h
        · exact absurd h hfuel
      have hfinal : (insertEmergency pl clk db data).result = Outcome.ok tok := by
        rw [hres, hrok]
      refine ⟨?_, ?_, ?_⟩
      · intro e he s hsm
        rw [hlog] at he
        have htr : Transient e.2 := by
          rcases List.mem_cons.mp he with rfl | he
          · exact bounded_transient hb1
          · exact htrans e he
        have := htr s hsm
        exact ⟨this, by omega⟩
      · rw [hfinal]
        simp
      · rw [hdb]
        exact ripple_bounded pl _ db1 (some slot0) tok (by rw [hsl1]; exact hpk) hb1 hrok

/-- Instance of C19 on the sample store, whose two slots are full: no increment
of the cascade is rejected and the cascade leaves both slots within capacity. -/
theorem bounded_transient_overflow_witness :
    (insertEmergency Planner.heapOrder sampleClock sampleDb ⟨"e", 7⟩).result ≠
      Outcome.error "new row for relation slots violates check constraint check_capacity" ∧
    Bounded (insertEmergency Planner.heapOrder sampleClock sampleDb ⟨"e", 7⟩).db :=
  ⟨(bounded_transient_overflow Planner.heapOrder sampleClock sampleDb ⟨"e", 7⟩ (by decide)
      (by decide)).2.1,
   (bounded_transient_overflow Planner.heapOrder sampleClock sampleDb ⟨"e", 7⟩ (by decide)
      (by decide)).2.2⟩

/-- Instance of C18 on the sample store. -/
theorem no_victim_unreachable_witness :
    (insertEmergency Planner.heapOrder sampleClock sampleDb ⟨"e", 7⟩).result ≠
      Outcome.error "Slot overcapacity but no victim found" :=
  (no_victim_unreachable Planner.heapOrder sampleClock sampleDb ⟨"e", 7⟩).1

/-- Instance of C15: doctor 8 has no slot in the sample store, doctor 7 has. -/
theorem empty_chain_witness :
    allocateToken Planner.heapOrder sampleClock sampleDb ⟨"w", 8, "WALKIN"⟩ =
      (sampleDb, .error "No slots available for this doctor") ∧
    (insertEmergency Planner.heapOrder sampleClock sampleDb ⟨"e", 7⟩).result ≠
      Outcome.error "No slots available for this doctor" :=
  ⟨(empty_chain Planner.heapOrder sampleClock sampleDb).1 ⟨"w", 8, "WALKIN"⟩ (by decide),
   (empty_chain Planner.heapOrder sampleClock sampleDb).2.2.2 ⟨"e", 7⟩ (by decide)⟩

/-! ## CANCELLED rows are never written -/

theorem keeps_refl {db : Db} (hk : TokenKeys db) : Keeps db db := ⟨hk, fun _ h _ => h⟩

theorem keeps_trans {a b c : Db} (h1 : Keeps a b) (h2 : Keeps b c) : Keeps a c :=
  ⟨h2.1, fun x hx hst => h2.2 x (h1.2 x hx hst) hst⟩

theorem keeps_update {db : Db} (hk : TokenKeys db) (i : Nat) (sl : Option Nat) (st : Status)
    (hrow : ∀ t ∈ db.tokens, t.id = i → t.status ≠ Status.CANCELLED) :
    Keeps db (Token.update db i sl st) := by
  refine ⟨⟨by rw [update_ids]; exact hk.token_pk, ?_⟩, ?_⟩
  · intro t' ht'
    rw [token_update_seq]
    rcases mem_update ht' with ⟨t, htm, _, rfl⟩ | ⟨htm, _⟩
    · exact hk.token_seq t htm
    · exact hk.token_seq t' htm
  · intro c hc hst
    exact update_mem_other hc (fun hi => hrow c hc hi hst)

theorem keeps_cancel {db : Db} (hk : TokenKeys db) (i : Nat) : Keeps db (Token.cancel db i) := by
  refine ⟨⟨by rw [cancel_ids]; exact hk.token_pk, ?_⟩, ?_⟩
  · intro t' ht'
    rw [token_cancel_seq]
    rcases mem_cancel ht' with ⟨t, htm, _, rfl⟩ | ⟨htm, _⟩
    · exact hk.token_seq t htm
    · exact hk.token_seq t' htm
  · intro c hc hst
    rw [token_cancel_tokens]
    refine List.mem_map.mpr ⟨c, hc, ?_⟩
    split
    · cases c
      simp only at hst
      subst hst
      rfl
    · rfl

theorem keeps_tokens_eq {db db' : Db} (hk : TokenKeys db) (ht : db'.tokens = db.tokens)
    (hq : db'.tokens_id_seq = db.tokens_id_seq) : Keeps db db' :=
  ⟨⟨by rw [ht]; exact hk.token_pk, by rw [ht, hq]; exact hk.token_seq⟩,
    fun c hc _ => by rw [ht]; exact hc⟩

theorem keeps_increment {db db2 : Db} {k : Nat} (hk : TokenKeys db)
    (h : Slot.incrementUsage db k = .ok db2) : Keeps db db2 :=
  keeps_tokens_eq hk (increment_ok h).1 (increment_ok h).2.1

theorem keeps_decrement {db : Db} (hk : TokenKeys db) (k : Nat) :
    Keeps db (Slot.decrementUsage db k) :=
  keeps_tokens_eq hk rfl rfl

theorem keeps_create {db db1 : Db} {now : Nat} {d : NewToken} {tok : Token} (hk : TokenKeys db)
    (h : Token.create db now d = .ok (db1, tok)) : Keeps db db1 := by
  obtain ⟨_, _, hid, _, _, _, _, _, _, _, ht1, hq1⟩ := create_ok h
  refine ⟨⟨?_, ?_⟩, ?_⟩
  · rw [ht1, List.map_append, List.nodup_append]
    refine ⟨hk.token_pk, by simp, ?_⟩
    intro a ha hb
    simp only [List.map_cons, List.map_nil, List.mem_singleton] at hb
    obtain ⟨t, htm, rfl⟩ := List.mem_map.mp ha
    have := hk.token_seq t htm
    rw [hb, hid] at this
    exact absurd this (lt_irrefl _)
  · intro t ht
    rw [ht1] at ht
    rw [hq1]
    rcases List.mem_append.mp ht with htm | htm
    · exact Nat.lt_succ_of_lt (hk.token_seq t htm)
    · simp only [List.mem_singleton] at htm
      rw [htm, hid]; exact Nat.lt_succ_self _
  · intro c hc _
    rw [ht1]
    exact List.mem_append_left _ hc

/-- A cascade, however it ends, writes no CANCELLED row when the token it
starts with is not CANCELLED. -/
theorem ripple_keeps_cancelled (pl : Planner) :
    ∀ (fuel : Nat) (db : Db) (slot : Option Slot) (token : Token),
      TokenKeys db → (∀ t ∈ db.tokens, t.id = token.id → t.status ≠ Status.CANCELLED) →
      Keeps db (rippleInsert pl fuel db slot token).db := by
  intro fuel
  induction fuel with
  | zero =>
    intro db slot token hk _
    rw [rippleInsert_zero]
    exact keeps_refl hk
  | succ fuel ih =>
    intro db slot token hk hrow
    cases slot with
    | none =>
      rw [rippleInsert_none]
      exact keeps_update hk _ _ _ hrow
    | some slot =>
      have h1 := keeps_update hk token.id (some slot.id) Status.CONFIRMED hrow
      cases h : Slot.incrementUsage (Token.update db token.id (some slot.id) Status.CONFIRMED)
          slot.id with
      | error e =>
        rw [rippleInsert_rejected pl fuel db slot token h]
        exact h1
      | ok db2 =>
        have h2 : Keeps db db2 := keeps_trans h1 (keeps_increment h1.1 h)
        cases hf : Slot.findById db2 slot.id with
        | none =>
          rw [rippleInsert_missing pl fuel db db2 slot token h hf]
          exact h2
        | some u =>
          by_cases hu : u.capacity < u.used
          · cases hv : Token.findLowestPriorityInSlot pl db2 slot.id with
            | none =>
              rw [rippleInsert_noVictim pl fuel db db2 slot u token h hf hu hv]
              exact h2
            | some v =>
              rw [rippleInsert_overflow pl fuel db db2 slot u token v h hf hu hv]
              dsimp only
              obtain ⟨hvm, _, hvst, _⟩ := findLowest_some hv
              have h3 : Keeps db2 (Token.update db2 v.id none Status.WAITING) :=
                keeps_update h2.1 _ _ _ (by
                  intro t ht hid
                  rw [token_eq_of_id h2.1.token_pk ht hvm hid, hvst]
                  simp)
              have h4 := keeps_decrement h3.1 slot.id
              refine keeps_trans (keeps_trans (keeps_trans h2 h3) h4) (ih _ _ _ h4.1 ?_)
              intro t ht hid
              rw [decrement_tokens] at ht
              rcases mem_update ht with ⟨t0, _, _, rfl⟩ | ⟨_, hne⟩
              · simp
              · exact absurd hid hne
          · rw [rippleInsert_fits pl fuel db db2 slot u token h hf hu]
            exact h2

theorem allocateToken_keeps_cancelled (pl : Planner) (clk : Clock) (db : Db) (data : BookRequest)
    (hk : TokenKeys db) : Keeps db (allocateToken pl clk db data).1 := by
  unfold allocateToken
  simp only
  split
  · exact keeps_refl hk
  · split
    · split
      · exact keeps_refl hk
      · rename_i db1 token hc
        have h1 := keeps_create hk hc
        split
        · exact h1
        · rename_i db2 hi
          exact keeps_trans h1 (keeps_increment h1.1 hi)
    · split
      · exact keeps_refl hk
      · rename_i db1 token hc
        exact keeps_create hk hc

theorem insertEmergency_keeps_cancelled (pl : Planner) (clk : Clock) (db : Db)
    (data : EmergencyRequest) (hk : TokenKeys db) :
    Keeps db (insertEmergency pl clk db data).db := by
  cases hs : Slot.findByDoctorId pl db data.doctorId with
  | nil =>
    have e : (insertEmergency pl clk db data).db = db := by simp [insertEmergency, hs]
    rw [e]; exact keeps_refl hk
  | cons slot0 others =>
    cases hc : Token.create db clk.dbNow ⟨data.patient, data.doctorId, none, "EMERGENCY",
        calculatePriority "EMERGENCY" clk.createdAt clk.now, Status.WAITING⟩ with
    | error e =>
      have e : (insertEmergency pl clk db data).db = db := by simp [insertEmergency, hs, hc]
      rw [e]; exact keeps_refl hk
    | ok p =>
      obtain ⟨db1, token⟩ := p
      rw [(insertEmergency_started hs hc).1]
      have h1 := keeps_create hk hc
      obtain ⟨_, _, _, _, _, _, _, hst, _, _, ht1, _⟩ := create_ok hc
      have htm : token ∈ db1.tokens := by rw [ht1]; simp
      refine keeps_trans h1 (ripple_keeps_cancelled pl _ db1 (some slot0) token h1.1 ?_)
      intro t ht hid
      rw [token_eq_of_id h1.1.token_pk ht htm hid, hst]
      simp

theorem cancelToken_keeps_cancelled (pl : Planner) (db : Db) (tokenId : Nat)
    (hk : TokenKeys db) : Keeps db (cancelToken pl db tokenId).1 := by
  unfold cancelToken
  split
  · exact keeps_refl hk
  · split
    · exact keeps_refl hk
    · split
      · rename_i slotId _
        have h1 := keeps_decrement hk slotId
        simp only
        split
        · exact keeps_trans h1 (keeps_cancel h1.1 tokenId)
        · rename_i w rest hw
          obtain ⟨hwm, _, hwst, _⟩ := findWaiting_head hw
          have h2 : Keeps (Slot.decrementUsage db slotId)
              (Token.update (Slot.decrementUsage db slotId) w.id (some slotId)
                Status.CONFIRMED) :=
            keeps_update h1.1 _ _ _ (by
              intro t ht hid
              rw [token_eq_of_id h1.1.token_pk ht hwm hid, hwst]
              simp)
          split
          · exact keeps_trans h1 h2
          · rename_i db3 hi
            have h3 := keeps_increment h2.1 hi
            exact keeps_trans (keeps_trans (keeps_trans h1 h2) h3) (keeps_cancel h3.1 tokenId)
      · exact keeps_cancel hk tokenId

theorem call_keeps {db db' : Db} (hk : TokenKeys db) (h : Call db db') : Keeps db db' := by
  cases h with
  | book pl clk _ data => exact allocateToken_keeps_cancelled pl clk db data hk
  | emergency pl clk _ data => exact insertEmergency_keeps_cancelled pl clk db data hk
  | cancel pl _ tokenId => exact cancelToken_keeps_cancelled pl db tokenId hk

theorem calls_keep {db db' : Db} (hk : TokenKeys db) (h : Relation.ReflTransGen Call db db') :
    Keeps db db' := by
  induction h with
  | refl => exact keeps_refl hk
  | tail _ hstep ih => exact keeps_trans ih (call_keeps ih.1 hstep)

/-- A successful `cancelToken` leaves the row of the token with status
CANCELLED and every other column as it was. -/
theorem cancelToken_row {pl : Planner} {db db' : Db} {tokenId : Nat} {msg : String}
    (hk : TokenKeys db) (h : cancelToken pl db tokenId = (db', .ok msg)) :
    ∃ t, Token.findById db tokenId = some t ∧ t.status ≠ Status.CANCELLED ∧
      ({ t with status := Status.CANCELLED } : Token) ∈ db'.tokens := by
  obtain ⟨t, hf, hst, hcases⟩ := cancelToken_ok h
  obtain ⟨htm, hid⟩ := token_findById_mem hf
  refine ⟨t, hf, hst, ?_⟩
  have hrow : ∀ d : Db, t ∈ d.tokens →
      ({ t with status := Status.CANCELLED } : Token) ∈ (Token.cancel d tokenId).tokens := by
    intro d hd
    rw [token_cancel_tokens]
    refine List.mem_map.mpr ⟨t, hd, ?_⟩
    rw [if_pos hid]
  rcases hcases with ⟨slotId, hconf, _, hfree | ⟨w, rest, db3, hw, hi, hdb⟩⟩ | ⟨_, hdb⟩
  · rw [hfree.2]
    exact hrow _ htm
  · rw [hdb]
    apply hrow
    rw [(increment_ok hi).1]
    obtain ⟨_, _, hwst, _⟩ := findWaiting_head hw
    apply update_mem_other
    · exact htm
    · intro hidw
      have hwm := (findWaiting_head hw).1
      rw [decrement_tokens] at hwm
      have := token_eq_of_id hk.token_pk htm hwm hidw
      rw [this, hwst] at hconf
      cases hconf
  · rw [hdb]
    exact hrow _ htm

theorem sampleDb_keys : TokenKeys sampleDb :=
  ⟨sampleDb_schema.token_pk, sampleDb_schema.token_seq⟩

/-- Claim C16. CANCELLED is terminal and keeps history.  In a store whose token
ids are a primary key fed by the sequence: a successful `cancelToken` finds the
token not yet CANCELLED and leaves its row with status CANCELLED and every other
column, its slot among them, as before the call; and every row that is
CANCELLED is still there, and is the only row with its id, after any sequence of
calls of `allocateToken`, `insertEmergency` and `cancelToken`, whatever their
arguments and outcomes, so its status, slot and priority never change. -/
theorem cancelled_is_terminal :
    (∀ (pl : Planner) (db db' : Db) (tokenId : Nat) (msg : String), TokenKeys db →
      cancelToken pl db tokenId = (db', .ok msg) →
      ∃ t, Token.findById db tokenId = some t ∧ t.status ≠ Status.CANCELLED ∧
        ({ t with status := Status.CANCELLED } : Token) ∈ db'.tokens ∧
        ∀ x ∈ db'.tokens, x.id = tokenId →
          x.status = Status.CANCELLED ∧ x.slot_id = t.slot_id ∧ x.priority = t.priority) ∧
    (∀ (db db' : Db), TokenKeys db → Relation.ReflTransGen Call db db' →
      ∀ c ∈ db.tokens, c.status = Status.CANCELLED →
        c ∈ db'.tokens ∧
        ∀ x ∈ db'.tokens, x.id = c.id →
          x.status = Status.CANCELLED ∧ x.slot_id = c.slot_id ∧ x.priority = c.priority) := by
  constructor
  · intro pl db db' tokenId msg hk h
    obtain ⟨t, hf, hst, hrow⟩ := cancelToken_row hk h
    refine ⟨t, hf, hst, hrow, ?_⟩
    intro x hx hid
    have hk' : TokenKeys db' := by
      have := (cancelToken_keeps_cancelled pl db tokenId hk).1
      rw [h] at this
      exact this
    have hid' : x.id = ({ t with status := Status.CANCELLED } : Token).id := by
      rw [hid]; exact (token_findById_mem hf).2.symm
    rw [token_eq_of_id hk'.token_pk hx hrow hid']
    exact ⟨rfl, rfl, rfl⟩
  · intro db db' hk hcalls c hc hst
    have hkeep := calls_keep hk hcalls
    have hc' := hkeep.2 c hc hst
    refine ⟨hc', ?_⟩
    intro x hx hid
    rw [token_eq_of_id hkeep.1.token_pk hx hc' hid]
    exact ⟨hst, rfl, rfl⟩

/-- Instance of C16 on the sample store: cancelling token 1 leaves its row
CANCELLED in slot 1, and the row is still there after a later booking. -/
theorem cancelled_is_terminal_witness :
    (∃ t, Token.findById sampleDb 1 = some t ∧ t.status ≠ Status.CANCELLED ∧
      ({ t with status := Status.CANCELLED } : Token) ∈
        (cancelToken Planner.heapOrder sampleDb 1).1.tokens) ∧
    (⟨1, "a", 7, some 1, "PRIORITY", 80, Status.CANCELLED, 10⟩ : Token) ∈
      (allocateToken Planner.heapOrder sampleClock (cancelToken Planner.heapOrder sampleDb 1).1
        ⟨"d", 7, "WALKIN"⟩).1.tokens :=
  ⟨(let ⟨t, h1, h2, h3, _⟩ := cancelled_is_terminal.1 Planner.heapOrder sampleDb
      (cancelToken Planner.heapOrder sampleDb 1).1 1 "Token cancelled successfully"
      sampleDb_keys (by decide!)
    ⟨t, h1, h2, h3⟩),
   (cancelled_is_terminal.2 (cancelToken Planner.heapOrder sampleDb 1).1 _
      (cancelToken_keeps_cancelled Planner.heapOrder sampleDb 1 sampleDb_keys).1
      (Relation.ReflTransGen.single (Call.book Planner.heapOrder sampleClock _ ⟨"d", 7, "WALKIN"⟩))
      ⟨1, "a", 7, some 1, "PRIORITY", 80, Status.CANCELLED, 10⟩ (by decide!) rfl).1⟩

/-! ## Owners are independent -/

/-- Rewriting rows that a filter rejects, into rows it still rejects, does not
change what the filter keeps. -/
theorem filter_map_frame {α : Type} (p : α → Bool) (f : α → α) :
    ∀ l : List α, (∀ x ∈ l, f x ≠ x → p x = false ∧ p (f x) = false) →
      (l.map f).filter p = l.filter p := by
  intro l
  induction l with
  | nil => intro _; rfl
  | cons a l ih =>
    intro h
    have ih' := ih (fun x hx => h x (List.mem_cons_of_mem _ hx))
    by_cases hfa : f a = a
    · rw [List.map_cons, hfa, List.filter_cons, List.filter_cons, ih']
    · obtain ⟨h1, h2⟩ := h a (List.mem_cons_self _ _) hfa
      rw [List.map_cons, List.filter_cons, List.filter_cons, h1, h2, ih']
      rfl

theorem sameFor_refl (d : Nat) (db : Db) : SameFor d db db := ⟨rfl, rfl⟩

theorem sameFor_trans {d : Nat} {a b c : Db} (h1 : SameFor d a b) (h2 : SameFor d b c) :
    SameFor d a c := ⟨h2.1.trans h1.1, h2.2.trans h1.2⟩

theorem sameFor_update {db : Db} {d : Nat} (i : Nat) (sl : Option Nat) (st : Status)
    (h : ∀ t ∈ db.tokens, t.id = i → t.doctor_id ≠ d) :
    SameFor d db (Token.update db i sl st) := by
  refine ⟨rfl, ?_⟩
  unfold Db.tokensOf
  rw [token_update_tokens]
  apply filter_map_frame
  intro t ht hne
  by_cases hi : t.id = i
  · have hd := h t ht hi
    simp only [hi, if_true]
    simp [hd]
  · simp [hi] at hne

theorem sameFor_cancel {db : Db} {d : Nat} (i : Nat)
    (h : ∀ t ∈ db.tokens, t.id = i → t.doctor_id ≠ d) :
    SameFor d db (Token.cancel db i) := by
  refine ⟨rfl, ?_⟩
  unfold Db.tokensOf
  rw [token_cancel_tokens]
  apply filter_map_frame
  intro t ht hne
  by_cases hi : t.id = i
  · have hd := h t ht hi
    simp only [hi, if_true]
    simp [hd]
  · simp [hi] at hne

theorem sameFor_increment {db db2 : Db} {d k : Nat}
    (h : ∀ s ∈ db.slots, s.id = k → s.doctor_id ≠ d)
    (hi : Slot.incrementUsage db k = .ok db2) : SameFor d db db2 := by
  obtain ⟨ht, _, hs, _⟩ := increment_ok hi
  refine ⟨?_, by unfold Db.tokensOf; rw [ht]⟩
  unfold Db.slotsOf
  rw [hs]
  apply filter_map_frame
  intro s hsm hne
  by_cases hk : s.id = k
  · have hd := h s hsm hk
    simp only [hk, if_true]
    simp [hd]
  · simp [hk] at hne

theorem sameFor_decrement {db : Db} {d : Nat} (k : Nat)
    (h : ∀ s ∈ db.slots, s.id = k → s.doctor_id ≠ d) :
    SameFor d db (Slot.decrementUsage db k) := by
  refine ⟨?_, rfl⟩
  unfold Db.slotsOf
  rw [decrement_slots]
  apply filter_map_frame
  intro s hsm hne
  by_cases hk : s.id = k ∧ 0 < s.used
  · have hd := h s hsm hk.1
    rw [if_pos hk]
    simp [hd]
  · rw [if_neg hk] at hne
    exact absurd rfl hne

theorem sameFor_create {db db1 : Db} {d now : Nat} {nt : NewToken} {tok : Token}
    (h : nt.doctorId ≠ d) (hc : Token.create db now nt = .ok (db1, tok)) :
    SameFor d db db1 := by
  obtain ⟨_, _, _, _, htd, _, _, _, _, hs1, ht1, _⟩ := create_ok hc
  refine ⟨by unfold Db.slotsOf; rw [hs1], ?_⟩
  unfold Db.tokensOf
  rw [ht1, List.filter_append]
  have : tok.doctor_id ≠ d := by rw [htd]; exact h
  simp [this]

/-- Seating a token of an owner in a slot of the owner keeps the schema and
the agreement of owners. -/
theorem seat_owned {db db2 : Db} {i k d : Nat} (hs : Schema db) (ho : OwnersAgree db)
    (hslot : ∃ row ∈ db.slots, row.id = k ∧ row.doctor_id = d)
    (hrow : ∀ t ∈ db.tokens, t.id = i → t.doctor_id = d)
    (h : Slot.incrementUsage (Token.update db i (some k) Status.CONFIRMED) k = .ok db2) :
    Schema db2 ∧ OwnersAgree db2 ∧ (∀ s ∈ db.slots, s.id = k → s.doctor_id = d) ∧
      (∀ s ∈ db2.slots, s.id = k → s.doctor_id = d) := by
  obtain ⟨srow, hsrm, hsrid, hsrd⟩ := hslot
  obtain ⟨ht2, _, hsl2, _⟩ := increment_ok h
  rw [token_update_slots] at hsl2
  have hs1 : Schema (Token.update db i (some k) Status.CONFIRMED) := by
    apply update_schema hs
    intro k' hk
    simp only [Option.mem_def, Option.some.injEq] at hk
    exact ⟨srow, hsrm, hsrid.trans hk⟩
  have hall : ∀ s ∈ db.slots, s.id = k → s.doctor_id = d := by
    intro s hsm hsk
    rw [slot_eq_of_id hs.slot_pk hsm hsrm (hsk.trans hsrid.symm)]
    exact hsrd
  have ho1 : OwnersAgree (Token.update db i (some k) Status.CONFIRMED) := by
    apply ownersAgree_update ho
    intro k' hk s hsm hsk t htm hti
    simp only [Option.mem_def, Option.some.injEq] at hk
    rw [hrow t htm hti, hall s hsm (hsk.trans hk.symm)]
  refine ⟨increment_schema hs1 h, ownersAgree_slots ho1 ht2 (by
    rw [hsl2, token_update_slots]; exact map_key_increment db.slots k), hall, ?_⟩
  intro s hsm hsk
  rw [hsl2] at hsm
  obtain ⟨s0, hs0, rfl⟩ := List.mem_map.mp hsm
  have hid : s0.id = k := by
    rw [← hsk]; split <;> rfl
  have := hall s0 hs0 hid
  split <;> exact this

/-- Evicting a token keeps the schema and the agreement of owners. -/
theorem evict_owned {db : Db} (hs : Schema db) (ho : OwnersAgree db) (i k : Nat) :
    Schema (Slot.decrementUsage (Token.update db i none Status.WAITING) k) ∧
    OwnersAgree (Slot.decrementUsage (Token.update db i none Status.WAITING) k) := by
  have hs3 : Schema (Token.update db i none Status.WAITING) :=
    update_schema hs _ _ _ (by intro k hk; simp at hk)
  have ho3 : OwnersAgree (Token.update db i none Status.WAITING) :=
    ownersAgree_update ho _ _ _ (by intro k hk; simp at hk)
  exact ⟨decrement_schema hs3 k, ownersAgree_slots ho3 (decrement_tokens _ _) (by
    rw [decrement_slots]; exact map_key_decrement _ k)⟩

/-- The token a slot gives up has the owner of the slot. -/
theorem victim_owner {pl : Planner} {db : Db} {k d : Nat} {v : Token} (ho : OwnersAgree db)
    (hv : Token.findLowestPriorityInSlot pl db k = some v)
    (hex : ∃ s ∈ db.slots, s.id = k ∧ s.doctor_id = d) : v.doctor_id = d := by
  obtain ⟨hvm, hvsl, _, _⟩ := findLowest_some hv
  obtain ⟨s, hsm, hsk, hsd⟩ := hex
  rw [ho v hvm s hsm (by rw [hvsl, hsk]), hsd]

/-- A cascade for one owner, however it ends, leaves the rows of every other
owner as they were. -/
theorem ripple_frame (pl : Planner) (A B : Nat) (hAB : A ≠ B) :
    ∀ (fuel : Nat) (db : Db) (slot : Option Slot) (token : Token),
      Schema db → OwnersAgree db →
      (∀ s, slot = some s → s.doctor_id = A ∧ ∃ row ∈ db.slots, row.id = s.id ∧ row.doctor_id = A) →
      (∀ t ∈ db.tokens, t.id = token.id → t.doctor_id = A) →
      SameFor B db (rippleInsert pl fuel db slot token).db := by
  intro fuel
  induction fuel with
  | zero =>
    intro db slot token _ _ _ _
    rw [rippleInsert_zero]
    exact sameFor_refl B db
  | succ fuel ih =>
    intro db slot token hs ho hslot hrow
    have hrowB : ∀ t ∈ db.tokens, t.id = token.id → t.doctor_id ≠ B :=
      fun t ht hid => by rw [hrow t ht hid]; exact hAB
    cases slot with
    | none =>
      rw [rippleInsert_none]
      exact sameFor_update _ _ _ hrowB
    | some slot =>
      obtain ⟨hsd, hex⟩ := hslot slot rfl
      have h1 : SameFor B db (Token.update db token.id (some slot.id) Status.CONFIRMED) :=
        sameFor_update _ _ _ hrowB
      cases h : Slot.incrementUsage (Token.update db token.id (some slot.id) Status.CONFIRMED)
          slot.id with
      | error e =>
        rw [rippleInsert_rejected pl fuel db slot token h]
        exact h1
      | ok db2 =>
        obtain ⟨hs2, ho2, hall, hall2⟩ := seat_owned hs ho hex hrow h
        have h2 : SameFor B db db2 := sameFor_trans h1 (sameFor_increment (by
          intro s hsm hsk
          rw [token_update_slots] at hsm
          rw [hall s hsm hsk]; exact hAB) h)
        cases hf : Slot.findById db2 slot.id with
        | none =>
          rw [rippleInsert_missing pl fuel db db2 slot token h hf]
          exact h2
        | some u =>
          by_cases hu : u.capacity < u.used
          · cases hv : Token.findLowestPriorityInSlot pl db2 slot.id with
            | none =>
              rw [rippleInsert_noVictim pl fuel db db2 slot u token h hf hu hv]
              exact h2
            | some v =>
              rw [rippleInsert_overflow pl fuel db db2 slot u token v h hf hu hv]
              dsimp only
              obtain ⟨hum, huid⟩ := findById_mem hf
              obtain ⟨hvm, _, _, _⟩ := findLowest_some hv
              have hvd : v.doctor_id = A :=
                victim_owner ho2 hv ⟨u, hum, huid, hall2 u hum huid⟩
              have hvrow : ∀ t ∈ db2.tokens, t.id = v.id → t.doctor_id = A := by
                intro t ht hid
                rw [token_eq_of_id hs2.token_pk ht hvm hid]; exact hvd
              obtain ⟨hs4, ho4⟩ := evict_owned hs2 ho2 v.id slot.id
              have h3 : SameFor B db2 (Token.update db2 v.id none Status.WAITING) :=
                sameFor_update _ _ _ (fun t ht hid => by rw [hvrow t ht hid]; exact hAB)
              have h4 : SameFor B (Token.update db2 v.id none Status.WAITING)
                  (Slot.decrementUsage (Token.update db2 v.id none Status.WAITING) slot.id) :=
                sameFor_decrement _ (by
                  intro s hsm hsk
                  rw [token_update_slots] at hsm
                  rw [hall2 s hsm hsk]; exact hAB)
              refine sameFor_trans (sameFor_trans (sameFor_trans h2 h3) h4) (ih _ _ v hs4 ho4 ?_ ?_)
              · intro n hn
                obtain ⟨hnm, hnd, _, _⟩ := findNextSlot_some hn
                exact ⟨hnd.trans hsd, n, hnm, rfl, hnd.trans hsd⟩
              · intro t ht hid
                rw [decrement_tokens] at ht
                rcases mem_update ht with ⟨t0, ht0, hid0, rfl⟩ | ⟨_, hne⟩
                · exact hvrow t0 ht0 hid0
                · exact absurd hid hne
          · rw [rippleInsert_fits pl fuel db db2 slot u token h hf hu]
            exact h2

theorem allocateToken_frame (pl : Planner) (clk : Clock) (db : Db) (data : BookRequest)
    (B : Nat) (hB : data.doctorId ≠ B) (hs : Schema db) :
    SameFor B db (allocateToken pl clk db data).1 := by
  unfold allocateToken
  simp only
  split
  · exact sameFor_refl B db
  · split
    · rename_i slot hfind
      have hslot := (mem_findByDoctorId pl db data.doctorId slot).mp
        (List.mem_of_find?_eq_some hfind)
      split
      · exact sameFor_refl B db
      · rename_i db1 token hc
        have h1 := sameFor_create hB hc
        have hs1 : db1.slots = db.slots := (create_ok hc).2.2.2.2.2.2.2.2.2.1
        split
        · exact h1
        · rename_i db2 hi
          refine sameFor_trans h1 (sameFor_increment ?_ hi)
          intro s hsm hsk
          rw [hs1] at hsm
          rw [slot_eq_of_id hs.slot_pk hsm hslot.1 hsk, hslot.2]
          exact hB
    · split
      · exact sameFor_refl B db
      · rename_i db1 token hc
        exact sameFor_create hB hc

theorem insertEmergency_frame (pl : Planner) (clk : Clock) (db : Db) (data : EmergencyRequest)
    (B : Nat) (hB : data.doctorId ≠ B) (hs : Schema db) (ho : OwnersAgree db) :
    SameFor B db (insertEmergency pl clk db data).db := by
  cases hch : Slot.findByDoctorId pl db data.doctorId with
  | nil =>
    have e : (insertEmergency pl clk db data).db = db := by simp [insertEmergency, hch]
    rw [e]; exact sameFor_refl B db
  | cons slot0 others =>
    cases hc : Token.create db clk.dbNow ⟨data.patient, data.doctorId, none, "EMERGENCY",
        calculatePriority "EMERGENCY" clk.createdAt clk.now, Status.WAITING⟩ with
    | error e =>
      have e : (insertEmergency pl clk db data).db = db := by simp [insertEmergency, hch, hc]
      rw [e]; exact sameFor_refl B db
    | ok p =>
      obtain ⟨db1, token⟩ := p
      rw [(insertEmergency_started hch hc).1]
      obtain ⟨_, _, _, _, htd, htsl, _, _, _, hsl1, ht1, _⟩ := create_ok hc
      simp only at htd
      have htsl' : token.slot_id = none := by rw [htsl]; rfl
      have hs1 : Schema db1 := by
        apply create_schema hs _ hc
        intro k hk
        simp [truthyId] at hk
      have ho1 : OwnersAgree db1 := by
        intro t ht s hsm hts
        rw [ht1] at ht
        rw [hsl1] at hsm
        rcases List.mem_append.mp ht with htm | htm
        · exact ho t htm s hsm hts
        · simp only [List.mem_singleton] at htm
          rw [htm, htsl'] at hts
          cases hts
      have hslot0 := (mem_findByDoctorId pl db data.doctorId slot0).mp (by
        rw [hch]; exact List.mem_cons_self _ _)
      have htm : token ∈ db1.tokens := by rw [ht1]; simp
      refine sameFor_trans (sameFor_create hB hc)
        (ripple_frame pl data.doctorId B hB _ db1 (some slot0) token hs1 ho1 ?_ ?_)
      · intro s hs0
        injection hs0 with hs0
        subst hs0
        exact ⟨hslot0.2, slot0, by rw [hsl1]; exact hslot0.1, rfl, hslot0.2⟩
      · intro t ht hid
        rw [token_eq_of_id hs1.token_pk ht htm hid]; exact htd

theorem cancelToken_frame (pl : Planner) (db : Db) (tokenId : Nat) (A B : Nat) (hAB : A ≠ B)
    (hs : Schema db) (ho : OwnersAgree db)
    (hA : ∀ t ∈ db.tokens, t.id = tokenId → t.doctor_id = A) :
    SameFor B db (cancelToken pl db tokenId).1 := by
  have hrowB : ∀ t ∈ db.tokens, t.id = tokenId → t.doctor_id ≠ B :=
    fun t ht hid => by rw [hA t ht hid]; exact hAB
  unfold cancelToken
  split
  · exact sameFor_refl B db
  · rename_i token hfind
    obtain ⟨htm, hid⟩ := token_findById_mem hfind
    have htd : token.doctor_id = A := hA token htm hid
    split
    · exact sameFor_refl B db
    · split
      · rename_i slotId hfreed
        have hconf : token.status = Status.CONFIRMED ∧ truthyId token.slot_id = some slotId := by
          by_cases hc : token.status = Status.CONFIRMED
          · simp only [hc, if_true] at hfreed
            exact ⟨hc, hfreed⟩
          · simp only [hc, if_false] at hfreed
            cases hfreed
        obtain ⟨hsl, _⟩ := truthyId_some hconf.2
        have hslotB : ∀ s ∈ db.slots, s.id = slotId → s.doctor_id ≠ B := by
          intro s hsm hsk
          rw [← ho token htm s hsm (by rw [hsl, hsk]), htd]
          exact hAB
        have h1 := sameFor_decrement slotId hslotB
        simp only
        split
        · exact sameFor_trans h1 (sameFor_cancel tokenId hrowB)
        · rename_i w rest hw
          obtain ⟨hwm, hwd, _, _⟩ := findWaiting_head hw
          rw [decrement_tokens] at hwm
          have h2 : SameFor B (Slot.decrementUsage db slotId)
              (Token.update (Slot.decrementUsage db slotId) w.id (some slotId)
                Status.CONFIRMED) :=
            sameFor_update _ _ _ (by
              intro t ht hidw
              rw [decrement_tokens] at ht
              rw [token_eq_of_id hs.token_pk ht hwm hidw, hwd, htd]
              exact hAB)
          split
          · exact sameFor_trans h1 h2
          · rename_i db3 hi
            have h3 : SameFor B (Token.update (Slot.decrementUsage db slotId) w.id (some slotId)
                Status.CONFIRMED) db3 := sameFor_increment (by
              intro s hsm hsk
              rw [token_update_slots, decrement_slots] at hsm
              obtain ⟨s0, hs0, rfl⟩ := List.mem_map.mp hsm
              have hid0 : s0.id = slotId := by
                rw [← hsk]; split <;> rfl
              have := hslotB s0 hs0 hid0
              split <;> exact this) hi
            refine sameFor_trans (sameFor_trans (sameFor_trans h1 h2) h3) (sameFor_cancel tokenId ?_)
            intro t ht hidt
            rw [(increment_ok hi).1] at ht
            rcases mem_update ht with ⟨t0, ht0, _, rfl⟩ | ⟨ht0, _⟩
            · rw [decrement_tokens] at ht0
              exact hrowB t0 ht0 hidt
            · rw [decrement_tokens] at ht0
              exact hrowB t ht0 hidt
      · exact sameFor_cancel tokenId hrowB

/-- Claim C17. Owner independence.  In a store that obeys its schema and where
every token that names a slot has the owner of that slot, for distinct owners
A and B: a call of `allocateToken` or of `insertEmergency` for A, and a call of
`cancelToken` on a token of A, whatever the outcome, leave the slots of B and
the tokens of B as they were, row by row (so every `used` counter, status, slot
and priority of B is unchanged). -/
theorem owner_independence (pl : Planner) (clk : Clock) (db : Db) (A B : Nat) (hAB : A ≠ B)
    (hs : Schema db) (ho : OwnersAgree db) :
    (∀ data : BookRequest, data.doctorId = A →
      (allocateToken pl clk db data).1.slotsOf B = db.slotsOf B ∧
      (allocateToken pl clk db data).1.tokensOf B = db.tokensOf B) ∧
    (∀ data : EmergencyRequest, data.doctorId = A →
      (insertEmergency pl clk db data).db.slotsOf B = db.slotsOf B ∧
      (insertEmergency pl clk db data).db.tokensOf B = db.tokensOf B) ∧
    (∀ t ∈ db.tokens, t.doctor_id = A →
      (cancelToken pl db t.id).1.slotsOf B = db.slotsOf B ∧
      (cancelToken pl db t.id).1.tokensOf B = db.tokensOf B) := by
  refine ⟨?_, ?_, ?_⟩
  · intro data hd
    exact allocateToken_frame pl clk db data B (by rw [hd]; exact hAB) hs
  · intro data hd
    exact insertEmergency_frame pl clk db data B (by rw [hd]; exact hAB) hs ho
  · intro t ht hd
    refine cancelToken_frame pl db t.id A B hAB hs ho ?_
    intro t' ht' hid
    rw [token_eq_of_id hs.token_pk ht' ht hid]; exact hd

theorem twoOwnersDb_schema : Schema twoOwnersDb :=
  ⟨by decide, by decide, by decide, by decide, by decide, by decide⟩

/-- Instance of C17 on a store with two owners: an emergency for doctor 7 and
the cancellation of the token of doctor 7 leave the rows of doctor 8 alone. -/
theorem owner_independence_witness :
    (insertEmergency Planner.heapOrder sampleClock twoOwnersDb ⟨"e", 7⟩).db.tokensOf 8
      = twoOwnersDb.tokensOf 8 ∧
    (cancelToken Planner.heapOrder twoOwnersDb 1).1.slotsOf 8 = twoOwnersDb.slotsOf 8 :=
  ⟨((owner_independence Planner.heapOrder sampleClock twoOwnersDb 7 8 (by decide)
      twoOwnersDb_schema (by decide)).2.1 ⟨"e", 7⟩ rfl).2,
   ((owner_independence Planner.heapOrder sampleClock twoOwnersDb 7 8 (by decide)
      twoOwnersDb_schema (by decide)).2.2
      ⟨1, "a", 7, some 1, "PRIORITY", 80, Status.CONFIRMED, 10⟩ (by decide!) rfl).1⟩

/-! ## What successful operations preserve -/

/-- A successful booking keeps every slot within its capacity. -/
theorem allocateToken_bounded {pl : Planner} {clk : Clock} {db db' : Db} {data : BookRequest}
    {tok : Token} (hpk : (db.slots.map (fun s => s.id)).Nodup) (hb : Bounded db)
    (h : allocateToken pl clk db data = (db', .ok tok)) : Bounded db' := by
  rcases allocateToken_ok h with ⟨slot, db1, hfind, hcr, hinc⟩ | ⟨_, _, hcr⟩
  · have hslot : slot ∈ db.slots :=
      ((mem_findByDoctorId pl db data.doctorId slot).mp (List.mem_of_find?_eq_some hfind)).1
    have hroom : slot.used < slot.capacity := by simpa using List.find?_some hfind
    have hs1 : db1.slots = db.slots := (create_ok hcr).2.2.2.2.2.2.2.2.2.1
    obtain ⟨_, _, hs2, _⟩ := increment_ok hinc
    intro s' hs'
    rw [hs2, hs1] at hs'
    obtain ⟨s, hsm, rfl⟩ := List.mem_map.mp hs'
    by_cases hk : s.id = slot.id
    · have : s = slot := slot_eq_of_id hpk hsm hslot hk
      subst this
      simp only [if_true]
      omega
    · simp only [hk, if_false]
      exact hb s hsm
  · have hs1 : db'.slots = db.slots := (create_ok hcr).2.2.2.2.2.2.2.2.2.1
    intro s hs
    rw [hs1] at hs
    exact hb s hs

/-- A successful emergency insertion keeps every slot within its capacity. -/
theorem insertEmergency_bounded {pl : Planner} {clk : Clock} {db : Db} {data : EmergencyRequest}
    {tok : Token} (hpk : (db.slots.map (fun s => s.id)).Nodup) (hb : Bounded db)
    (h : (insertEmergency pl clk db data).result = Outcome.ok tok) :
    Bounded (insertEmergency pl clk db data).db := by
  obtain ⟨slot0, others, db1, _, hcr, hres, hdb, _⟩ := insertEmergency_ok h
  have hs1 : db1.slots = db.slots := (create_ok hcr).2.2.2.2.2.2.2.2.2.1
  rw [hdb]
  apply ripple_bounded pl _ db1 (some slot0) tok
  · rw [hs1]; exact hpk
  · intro s hs; rw [hs1] at hs; exact hb s hs
  · exact hres

/-- The slots after a successful cancellation: the freed slot lost one seat
when nobody was waiting, and nothing changed otherwise. -/
theorem cancelToken_slots {pl : Planner} {db db' : Db} {tokenId : Nat} {msg : String}
    (hc : Counted db) (h : cancelToken pl db tokenId = (db', .ok msg)) :
    db'.slots = db.slots ∨
    ∃ token slotId, Token.findById db tokenId = some token ∧
      Token.findWaitingByDoctorId pl (Slot.decrementUsage db slotId) token.doctor_id = [] ∧
      db'.slots = (Slot.decrementUsage db slotId).slots := by
  obtain ⟨token, hfind, _, hcase⟩ := cancelToken_ok h
  obtain ⟨htm, _⟩ := token_findById_mem hfind
  rcases hcase with ⟨slotId, hconf, hsl, hcase⟩ | ⟨_, rfl⟩
  · obtain ⟨hslot, _⟩ := truthyId_some hsl
    rcases hcase with ⟨hw, rfl⟩ | ⟨w, rest, db3, _, hinc, rfl⟩
    · right
      exact ⟨token, slotId, hfind, hw, rfl⟩
    · left
      obtain ⟨_, _, hs3, _⟩ := increment_ok hinc
      rw [token_cancel_slots, hs3, token_update_slots, decrement_slots]
      apply increment_decrement
      intro s hsm hk
      rw [hc s hsm, hk]
      exact occupancy_pos htm hconf hslot
  · left; rfl

/-- A successful cancellation keeps every slot within its capacity. -/
theorem cancelToken_bounded {pl : Planner} {db db' : Db} {tokenId : Nat} {msg : String}
    (hb : Bounded db) (hc : Counted db) (h : cancelToken pl db tokenId = (db', .ok msg)) :
    Bounded db' := by
  rcases cancelToken_slots hc h with hsl | ⟨_, slotId, _, _, hsl⟩
  · intro s hs
    rw [hsl] at hs
    exact hb s hs
  · intro s' hs'
    rw [hsl, decrement_slots] at hs'
    obtain ⟨s, hsm, rfl⟩ := List.mem_map.mp hs'
    have := hb s hsm
    split
    · show ((s.used - 1 : Nat) : Int) ≤ s.capacity
      omega
    · exact this

/-- Owners still agree after `Token.cancel`. -/
theorem ownersAgree_cancel {db : Db} (ho : OwnersAgree db) (i : Nat) :
    OwnersAgree (Token.cancel db i) := by
  intro t' ht' s hs hts
  rw [token_cancel_slots] at hs
  rcases mem_cancel ht' with ⟨t, htm, _, rfl⟩ | ⟨htm, _⟩
  · exact ho t htm s hs hts
  · exact ho t' htm s hs hts

/-- Owners still agree after the insert of a token that names no slot or a
slot of its owner. -/
theorem ownersAgree_create {db db1 : Db} {now : Nat} {nt : NewToken} {tok : Token}
    (ho : OwnersAgree db)
    (hsl : ∀ k ∈ truthyId nt.slotId, ∀ s ∈ db.slots, s.id = k → s.doctor_id = nt.doctorId)
    (hc : Token.create db now nt = .ok (db1, tok)) : OwnersAgree db1 := by
  obtain ⟨_, _, _, _, htd, htsl, _, _, _, hs1, ht1, _⟩ := create_ok hc
  intro t ht s hsm hts
  rw [ht1] at ht
  rw [hs1] at hsm
  rcases List.mem_append.mp ht with htm | htm
  · exact ho t htm s hsm hts
  · simp only [List.mem_singleton] at htm
    subst htm
    rw [htd]
    exact (hsl s.id (by rw [← htsl, hts]; rfl) s hsm rfl).symm

/-- A successful booking keeps the agreement of owners. -/
theorem allocateToken_owned {pl : Planner} {clk : Clock} {db db' : Db} {data : BookRequest}
    {tok : Token} (hs : Schema db) (ho : OwnersAgree db)
    (h : allocateToken pl clk db data = (db', .ok tok)) : OwnersAgree db' := by
  rcases allocateToken_ok h with ⟨slot, db1, hfind, hcr, hinc⟩ | ⟨_, _, hcr⟩
  · have hslot := (mem_findByDoctorId pl db data.doctorId slot).mp
      (List.mem_of_find?_eq_some hfind)
    have ho1 : OwnersAgree db1 := by
      apply ownersAgree_create ho _ hcr
      intro k hk s hsm hsk
      obtain ⟨hk', _⟩ := truthyId_some hk
      simp only [Option.some.injEq] at hk'
      rw [slot_eq_of_id hs.slot_pk hsm hslot.1 (hsk.trans hk'.symm)]
      exact hslot.2
    obtain ⟨ht2, _, hs2, _⟩ := increment_ok hinc
    exact ownersAgree_slots ho1 ht2 (by rw [hs2]; exact map_key_increment _ _)
  · apply ownersAgree_create ho _ hcr
    intro k hk
    simp [truthyId] at hk

/-- A cascade for an owner, however it ends, keeps the schema and the
agreement of owners. -/
theorem ripple_owned (pl : Planner) (d : Nat) :
    ∀ (fuel : Nat) (db : Db) (slot : Option Slot) (token : Token),
      Schema db → OwnersAgree db →
      (∀ s, slot = some s → s.doctor_id = d ∧ ∃ row ∈ db.slots, row.id = s.id ∧ row.doctor_id = d) →
      (∀ t ∈ db.tokens, t.id = token.id → t.doctor_id = d) →
      Schema (rippleInsert pl fuel db slot token).db ∧
      OwnersAgree (rippleInsert pl fuel db slot token).db := by
  intro fuel
  induction fuel with
  | zero =>
    intro db slot token hs ho _ _
    rw [rippleInsert_zero]
    exact ⟨hs, ho⟩
  | succ fuel ih =>
    intro db slot token hs ho hslot hrow
    cases slot with
    | none =>
      rw [rippleInsert_none]
      exact ⟨update_schema hs _ _ _ (by intro k hk; simp at hk),
        ownersAgree_update ho _ _ _ (by intro k hk; simp at hk)⟩
    | some slot =>
      obtain ⟨hsd, hex⟩ := hslot slot rfl
      cases h : Slot.incrementUsage (Token.update db token.id (some slot.id) Status.CONFIRMED)
          slot.id with
      | error e =>
        rw [rippleInsert_rejected pl fuel db slot token h]
        obtain ⟨srow, hsrm, hsrid, hsrd⟩ := hex
        refine ⟨update_schema hs _ _ _ ?_, ownersAgree_update ho _ _ _ ?_⟩
        · intro k hk
          simp only [Option.mem_def, Option.some.injEq] at hk
          exact ⟨srow, hsrm, hsrid.trans hk⟩
        · intro k hk s hsm hsk t htm hti
          simp only [Option.mem_def, Option.some.injEq] at hk
          rw [hrow t htm hti,
            slot_eq_of_id hs.slot_pk hsm hsrm (by rw [hsk, ← hk, hsrid]), hsrd]
      | ok db2 =>
        obtain ⟨hs2, ho2, _, hall2⟩ := seat_owned hs ho hex hrow h
        cases hf : Slot.findById db2 slot.id with
        | none =>
          rw [rippleInsert_missing pl fuel db db2 slot token h hf]
          exact ⟨hs2, ho2⟩
        | some u =>
          by_cases hu : u.capacity < u.used
          · cases hv : Token.findLowestPriorityInSlot pl db2 slot.id with
            | none =>
              rw [rippleInsert_noVictim pl fuel db db2 slot u token h hf hu hv]
              exact ⟨hs2, ho2⟩
            | some v =>
              rw [rippleInsert_overflow pl fuel db db2 slot u token v h hf hu hv]
              dsimp only
              obtain ⟨hum, huid⟩ := findById_mem hf
              obtain ⟨hvm, _, _, _⟩ := findLowest_some hv
              have hvd : v.doctor_id = d :=
                victim_owner ho2 hv ⟨u, hum, huid, hall2 u hum huid⟩
              obtain ⟨hs4, ho4⟩ := evict_owned hs2 ho2 v.id slot.id
              refine ih _ _ v hs4 ho4 ?_ ?_
              · intro n hn
                obtain ⟨hnm, hnd, _, _⟩ := findNextSlot_some hn
                exact ⟨hnd.trans hsd, n, hnm, rfl, hnd.trans hsd⟩
              · intro t ht hid
                rw [decrement_tokens] at ht
                rcases mem_update ht with ⟨t0, ht0, hid0, rfl⟩ | ⟨_, hne⟩
                · rw [token_eq_of_id hs2.token_pk ht0 hvm hid0]; exact hvd
                · exact absurd hid hne
          · rw [rippleInsert_fits pl fuel db db2 slot u token h hf hu]
            exact ⟨hs2, ho2⟩

/-- What `insertEmergency` hands to its cascade: the store after the insert of
the token obeys the schema, owners agree in it, the first slot of the chain is
a slot of the owner, and the token is the row of its id. -/
theorem insertEmergency_start {pl : Planner} {clk : Clock} {db db1 : Db}
    {data : EmergencyRequest} {slot0 : Slot} {others : List Slot} {token : Token}
    (hs : Schema db) (ho : OwnersAgree db)
    (hch : Slot.findByDoctorId pl db data.doctorId = slot0 :: others)
    (hc : Token.create db clk.dbNow ⟨data.patient, data.doctorId, none, "EMERGENCY",
      calculatePriority "EMERGENCY" clk.createdAt clk.now, Status.WAITING⟩ = .ok (db1, token)) :
    Schema db1 ∧ OwnersAgree db1 ∧ db1.slots = db.slots ∧ db1.tokens = db.tokens ++ [token] ∧
    slot0 ∈ db1.slots ∧ slot0.doctor_id = data.doctorId ∧
    token.doctor_id = data.doctorId ∧ token.status = Status.WAITING ∧
    (∀ t ∈ db1.tokens, t.id = token.id → t = token) ∧
    (∀ s ∈ db.slots, s.doctor_id = data.doctorId → slot0.start_time ≤ s.start_time) := by
  obtain ⟨_, _, _, _, htd, _, _, hst, _, hsl1, ht1, _⟩ := create_ok hc
  have hs1 : Schema db1 := by
    apply create_schema hs _ hc
    intro k hk
    simp [truthyId] at hk
  have ho1 : OwnersAgree db1 := by
    apply ownersAgree_create ho _ hc
    intro k hk
    simp [truthyId] at hk
  have hslot0 := (mem_findByDoctorId pl db data.doctorId slot0).mp (by
    rw [hch]; exact List.mem_cons_self _ _)
  have htm : token ∈ db1.tokens := by rw [ht1]; simp
  refine ⟨hs1, ho1, hsl1, ht1, by rw [hsl1]; exact hslot0.1, hslot0.2, htd, hst, ?_, ?_⟩
  · intro t ht hid
    exact token_eq_of_id hs1.token_pk ht htm hid
  · intro s hsm hsd
    have hmem : s ∈ Slot.findByDoctorId pl db data.doctorId :=
      (mem_findByDoctorId pl db data.doctorId s).mpr ⟨hsm, hsd⟩
    have hsorted := findByDoctorId_sorted pl db data.doctorId
    rw [hch] at hmem hsorted
    rcases List.mem_cons.mp hmem with rfl | hrest
    · exact Nat.le_refl _
    · exact List.rel_of_sorted_cons hsorted s hrest

/-- A successful emergency insertion keeps the agreement of owners. -/
theorem insertEmergency_owned {pl : Planner} {clk : Clock} {db : Db} {data : EmergencyRequest}
    {tok : Token} (hs : Schema db) (ho : OwnersAgree db)
    (h : (insertEmergency pl clk db data).result = Outcome.ok tok) :
    OwnersAgree (insertEmergency pl clk db data).db := by
  obtain ⟨slot0, others, db1, hch, hcr, _, hdb, _⟩ := insertEmergency_ok h
  obtain ⟨hs1, ho1, _, _, hm0, hd0, htd, _, huniq, _⟩ := insertEmergency_start hs ho hch hcr
  rw [hdb]
  refine (ripple_owned pl data.doctorId _ db1 (some slot0) tok hs1 ho1 ?_ ?_).2
  · intro s hs0
    injection hs0 with hs0
    subst hs0
    exact ⟨hd0, slot0, hm0, rfl, hd0⟩
  · intro t ht hid
    rw [huniq t ht hid]; exact htd

/-- A successful cancellation keeps the agreement of owners. -/
theorem cancelToken_owned {pl : Planner} {db db' : Db} {tokenId : Nat} {msg : String}
    (hs : Schema db) (ho : OwnersAgree db) (h : cancelToken pl db tokenId = (db', .ok msg)) :
    OwnersAgree db' := by
  obtain ⟨token, hfind, _, hcase⟩ := cancelToken_ok h
  obtain ⟨htm, _⟩ := token_findById_mem hfind
  rcases hcase with ⟨slotId, _, hsl, hcase⟩ | ⟨_, rfl⟩
  · obtain ⟨hslot, _⟩ := truthyId_some hsl
    have ho1 : OwnersAgree (Slot.decrementUsage db slotId) :=
      ownersAgree_slots ho (decrement_tokens _ _) (by
        rw [decrement_slots]; exact map_key_decrement _ slotId)
    rcases hcase with ⟨_, rfl⟩ | ⟨w, rest, db3, hw, hinc, rfl⟩
    · exact ownersAgree_cancel ho1 tokenId
    · obtain ⟨hwm, hwd, _, _⟩ := findWaiting_head hw
      rw [decrement_tokens] at hwm
      have ho2 : OwnersAgree (Token.update (Slot.decrementUsage db slotId) w.id (some slotId)
          Status.CONFIRMED) := by
        apply ownersAgree_update ho1
        intro k hk s hsm hsk t ht hti
        simp only [Option.mem_def, Option.some.injEq] at hk
        rw [decrement_tokens] at ht
        rw [token_eq_of_id hs.token_pk ht hwm hti, hwd]
        rw [decrement_slots] at hsm
        obtain ⟨s0, hs0, rfl⟩ := List.mem_map.mp hsm
        have hid0 : s0.id = slotId := by
          rw [hk, ← hsk]; split <;> rfl
        have := ho token htm s0 hs0 (by rw [hslot, hid0])
        rw [this]
        split <;> rfl
      obtain ⟨ht3, _, hs3, _⟩ := increment_ok hinc
      exact ownersAgree_cancel
        (ownersAgree_slots ho2 ht3 (by rw [hs3]; exact map_key_increment _ _)) tokenId
  · exact ownersAgree_cancel ho tokenId

/-- Every successful operation leaves a sound store sound. -/
theorem succeeds_sound {db db' : Db} (hd : Sound db) (h : Succeeds db db') : Sound db' := by
  cases h with
  | book pl clk _ _ data tok h =>
    obtain ⟨h1, h2⟩ := allocateToken_keeps hd.schema hd.consistent h
    exact ⟨h1, h2, allocateToken_owned hd.schema hd.owners h,
      allocateToken_bounded hd.schema.slot_pk hd.bounded h⟩
  | emergency pl clk _ data tok h =>
    obtain ⟨h1, h2⟩ := insertEmergency_keeps hd.schema hd.consistent h
    exact ⟨h1, h2, insertEmergency_owned hd.schema hd.owners h,
      insertEmergency_bounded hd.schema.slot_pk hd.bounded h⟩
  | cancel pl _ _ tokenId msg h =>
    obtain ⟨h1, h2⟩ := cancelToken_keeps hd.schema hd.consistent h
    exact ⟨h1, h2, cancelToken_owned hd.schema hd.owners h,
      cancelToken_bounded hd.bounded hd.consistent.used_counts h⟩

/-- A cascade, however it ends, changes nothing of a slot but its `used` counter. -/
theorem ripple_keys (pl : Planner) :
    ∀ (fuel : Nat) (db : Db) (slot : Option Slot) (token : Token),
      (rippleInsert pl fuel db slot token).db.slots.map Slot.key = db.slots.map Slot.key := by
  intro fuel
  induction fuel with
  | zero =>
    intro db slot token
    rw [rippleInsert_zero]
  | succ fuel ih =>
    intro db slot token
    cases slot with
    | none =>
      rw [rippleInsert_none]
      rfl
    | some slot =>
      cases h : Slot.incrementUsage (Token.update db token.id (some slot.id) Status.CONFIRMED)
          slot.id with
      | error e =>
        rw [rippleInsert_rejected pl fuel db slot token h]
        rfl
      | ok db2 =>
        have hk2 : db2.slots.map Slot.key = db.slots.map Slot.key := by
          rw [(increment_ok h).2.2.1, token_update_slots]
          exact map_key_increment _ _
        cases hf : Slot.findById db2 slot.id with
        | none =>
          rw [rippleInsert_missing pl fuel db db2 slot token h hf]
          exact hk2
        | some u =>
          by_cases hu : u.capacity < u.used
          · cases hv : Token.findLowestPriorityInSlot pl db2 slot.id with
            | none =>
              rw [rippleInsert_noVictim pl fuel db db2 slot u token h hf hu hv]
              exact hk2
            | some v =>
              rw [rippleInsert_overflow pl fuel db db2 slot u token v h hf hu hv]
              dsimp only
              rw [ih, evict_slots h]
          · rw [rippleInsert_fits pl fuel db db2 slot u token h hf hu]
            exact hk2

/-- A successful operation changes nothing of a slot but its `used` counter,
and adds or removes no slot. -/
theorem succeeds_keys {db db' : Db} (hd : Sound db) (h : Succeeds db db') :
    db'.slots.map Slot.key = db.slots.map Slot.key := by
  cases h with
  | book pl clk _ _ data tok h =>
    rcases allocateToken_ok h with ⟨slot, db1, _, hcr, hinc⟩ | ⟨_, _, hcr⟩
    · rw [(increment_ok hinc).2.2.1, (create_ok hcr).2.2.2.2.2.2.2.2.2.1]
      exact map_key_increment _ _
    · rw [(create_ok hcr).2.2.2.2.2.2.2.2.2.1]
  | emergency pl clk _ data tok h =>
    obtain ⟨slot0, others, db1, _, hcr, _, hdb, _⟩ := insertEmergency_ok h
    rw [hdb, ripple_keys, (create_ok hcr).2.2.2.2.2.2.2.2.2.1]
  | cancel pl _ _ tokenId msg h =>
    rcases cancelToken_slots hd.consistent.used_counts h with hsl | ⟨_, slotId, _, _, hsl⟩
    · rw [hsl]
    · rw [hsl, decrement_slots]
      exact map_key_decrement _ _

/-- Distinct start times are a property of what never changes of the slots. -/
theorem distinctStarts_of_keys {db db' : Db} {d : Nat}
    (hk : db'.slots.map Slot.key = db.slots.map Slot.key) (h : DistinctStarts db d) :
    DistinctStarts db' d := by
  have back : ∀ s ∈ db'.slots, ∃ s0 ∈ db.slots, Slot.key s0 = Slot.key s := by
    intro s hs
    have : Slot.key s ∈ db.slots.map Slot.key := by
      rw [← hk]; exact List.mem_map_of_mem _ hs
    exact List.mem_map.mp this
  intro s hs s' hs' hsd hsd' hst
  obtain ⟨a, ha, hka⟩ := back s hs
  obtain ⟨b, hb, hkb⟩ := back s' hs'
  simp only [Slot.key, Prod.mk.injEq] at hka hkb
  have := h a ha b hb (by rw [hka.2.1]; exact hsd) (by rw [hkb.2.1]; exact hsd')
    (by rw [hka.2.2.1, hkb.2.2.1]; exact hst)
  rw [← hka.1, ← hkb.1]; exact this

/-- The row that `Slot.findById` reads after a successful increment is a row
of before with one more seat taken. -/
theorem seated_row {db db2 : Db} {i k : Nat} {sl : Option Nat} {st : Status} {u : Slot}
    (h : Slot.incrementUsage (Token.update db i sl st) k = .ok db2)
    (hf : Slot.findById db2 k = some u) :
    ∃ s ∈ db.slots, s.id = k ∧ u.used = s.used + 1 ∧ u.capacity = s.capacity := by
  obtain ⟨hum, huid⟩ := findById_mem hf
  rw [(increment_ok h).2.2.1, token_update_slots] at hum
  obtain ⟨s, hsm, rfl⟩ := List.mem_map.mp hum
  have hid : s.id = k := by
    rw [← huid]; split <;> rfl
  refine ⟨s, hsm, hid, ?_, ?_⟩
  · rw [if_pos hid]
  · rw [if_pos hid]

/-- Rows of other owners aside, nothing waits idle after an operation that left
the rows of the owner as they were. -/
theorem noIdle_of_sameFor {db db' : Db} {d : Nat} (hsame : SameFor d db db')
    (h : NoIdleWaiting db d) : NoIdleWaiting db' d := by
  have htok : ∀ t, (t ∈ db'.tokens ∧ t.doctor_id = d) ↔ (t ∈ db.tokens ∧ t.doctor_id = d) := by
    intro t
    have := hsame.2
    unfold Db.tokensOf at this
    have e1 : t ∈ db'.tokens.filter (fun t => decide (t.doctor_id = d)) ↔ _ := List.mem_filter
    have e2 : t ∈ db.tokens.filter (fun t => decide (t.doctor_id = d)) ↔ _ := List.mem_filter
    rw [this] at e1
    simp only [decide_eq_true_eq] at e1 e2
    exact e1.symm.trans e2
  have hslot : ∀ s, (s ∈ db'.slots ∧ s.doctor_id = d) ↔ (s ∈ db.slots ∧ s.doctor_id = d) := by
    intro s
    have := hsame.1
    unfold Db.slotsOf at this
    have e1 : s ∈ db'.slots.filter (fun s => decide (s.doctor_id = d)) ↔ _ := List.mem_filter
    have e2 : s ∈ db.slots.filter (fun s => decide (s.doctor_id = d)) ↔ _ := List.mem_filter
    rw [this] at e1
    simp only [decide_eq_true_eq] at e1 e2
    exact e1.symm.trans e2
  intro hw s hs hsd
  obtain ⟨t, ht, htd, hst⟩ := hw
  obtain ⟨ht0, _⟩ := (htok t).mp ⟨ht, htd⟩
  obtain ⟨hs0, _⟩ := (hslot s).mp ⟨hs, hsd⟩
  exact h ⟨t, ht0, htd, hst⟩ s hs0 hsd

/-! ## Nobody waits while a slot has room -/

/-- A cascade that returns leaves no token of the owner waiting beside a slot
with room, when it starts with every earlier slot of the owner full and with no
other token of the owner waiting beside a slot with room. -/
theorem ripple_noIdle (pl : Planner) (d : Nat) :
    ∀ (fuel : Nat) (db : Db) (slot : Option Slot) (token : Token),
      Schema db → OwnersAgree db → Bounded db → DistinctStarts db d →
      (∀ s, slot = some s → s ∈ db.slots ∧ s.doctor_id = d) →
      (∀ s' ∈ db.slots, s'.doctor_id = d →
        (∀ s, slot = some s → s'.start_time < s.start_time) → s'.used = s'.capacity) →
      ((∃ t ∈ db.tokens, t.doctor_id = d ∧ t.status = Status.WAITING ∧ t.id ≠ token.id) →
        ∀ s ∈ db.slots, s.doctor_id = d → s.used = s.capacity) →
      (∀ t ∈ db.tokens, t.id = token.id → t.doctor_id = d) →
      (rippleInsert pl fuel db slot token).result = Outcome.ok () →
      NoIdleWaiting (rippleInsert pl fuel db slot token).db d := by
  intro fuel
  induction fuel with
  | zero =>
    intro db slot token _ _ _ _ _ _ _ _ h
    rw [rippleInsert_zero] at h
    cases h
  | succ fuel ih =>
    intro db slot token hs ho hb hdist hslot hearlier hothers hrow hres
    cases slot with
    | none =>
      rw [rippleInsert_none]
      intro _ s hsm hsd
      rw [token_update_slots] at hsm
      exact hearlier s hsm hsd (by intro s0 h0; cases h0)
    | some slot =>
      obtain ⟨hslm, hsd⟩ := hslot slot rfl
      cases h : Slot.incrementUsage (Token.update db token.id (some slot.id) Status.CONFIRMED)
          slot.id with
      | error e =>
        rw [rippleInsert_rejected pl fuel db slot token h] at hres
        cases hres
      | ok db2 =>
        obtain ⟨hs2, ho2, _, hall2⟩ := seat_owned hs ho ⟨slot, hslm, rfl, hsd⟩ hrow h
        have ht2 : db2.tokens = (Token.update db token.id (some slot.id)
            Status.CONFIRMED).tokens := (increment_ok h).1
        have hwait : ∀ t ∈ db2.tokens, t.status = Status.WAITING →
            t ∈ db.tokens ∧ t.id ≠ token.id := by
          intro t ht hst
          rw [ht2] at ht
          rcases mem_update ht with ⟨t0, _, _, rfl⟩ | hk
          · cases hst
          · exact hk
        cases hf : Slot.findById db2 slot.id with
        | none =>
          rw [rippleInsert_missing pl fuel db db2 slot token h hf] at hres
          cases hres
        | some u =>
          obtain ⟨s0, hs0, hid0, hu1, hu2⟩ := seated_row h hf
          have hs0eq : s0 = slot := slot_eq_of_id hs.slot_pk hs0 hslm hid0
          by_cases hu : u.capacity < u.used
          · have hfull : slot.used = slot.capacity := by
              have := hb slot hslm
              rw [hs0eq] at hu1 hu2
              omega
            cases hv : Token.findLowestPriorityInSlot pl db2 slot.id with
            | none =>
              rw [rippleInsert_noVictim pl fuel db db2 slot u token h hf hu hv] at hres
              cases hres
            | some v =>
              rw [rippleInsert_overflow pl fuel db db2 slot u token v h hf hu hv] at hres ⊢
              dsimp only at hres ⊢
              obtain ⟨hum, huid⟩ := findById_mem hf
              obtain ⟨hvm, _, _, _⟩ := findLowest_some hv
              have hvd : v.doctor_id = d :=
                victim_owner ho2 hv ⟨u, hum, huid, hall2 u hum huid⟩
              obtain ⟨hs4, ho4⟩ := evict_owned hs2 ho2 v.id slot.id
              have hsl4 : (Slot.decrementUsage (Token.update db2 v.id none Status.WAITING)
                  slot.id).slots = db.slots := evict_slots h
              refine ih _ _ v hs4 ho4 ?_ ?_ ?_ ?_ ?_ ?_ hres
              · intro s hsm
                rw [hsl4] at hsm
                exact hb s hsm
              · intro a ha b hb' had hbd hst
                rw [hsl4] at ha hb'
                exact hdist a ha b hb' had hbd hst
              · intro n hn
                obtain ⟨hnm, hnd, _, _⟩ := findNextSlot_some hn
                exact ⟨hnm, hnd.trans hsd⟩
              · intro s' hsm' hsd' hbefore
                have hsm0 : s' ∈ db.slots := by rw [hsl4] at hsm'; exact hsm'
                rcases Nat.lt_trichotomy s'.start_time slot.start_time with hlt | heq | hgt
                · apply hearlier s' hsm0 hsd'
                  intro s0 h0
                  injection h0 with h0
                  rw [← h0]; exact hlt
                · have hid := hdist s' hsm0 slot hslm hsd' hsd heq
                  rw [slot_eq_of_id hs.slot_pk hsm0 hslm hid]
                  exact hfull
                · exfalso
                  cases hn : Slot.findNextSlot pl
                      (Slot.decrementUsage (Token.update db2 v.id none Status.WAITING) slot.id)
                      slot.doctor_id slot.start_time with
                  | none =>
                    exact (findNextSlot_none.mp hn) s' hsm' ⟨hsd'.trans hsd.symm, hgt⟩
                  | some n =>
                    obtain ⟨_, _, _, hmin⟩ := findNextSlot_some hn
                    have h1 := hmin s' hsm' (hsd'.trans hsd.symm) hgt
                    have h2 := hbefore n hn
                    omega
              · rintro ⟨t, ht, htd, hst, hne⟩ s hsm hsd'
                rw [hsl4] at hsm
                rw [decrement_tokens] at ht
                rcases mem_update ht with ⟨t0, _, hid0', rfl⟩ | ⟨ht2', _⟩
                · exact absurd hid0' hne
                · obtain ⟨htm, hne0⟩ := hwait t ht2' hst
                  exact hothers ⟨t, htm, htd, hst, hne0⟩ s hsm hsd'
              · intro t ht hid
                rw [decrement_tokens] at ht
                rcases mem_update ht with ⟨t0, ht0, hid0', rfl⟩ | ⟨_, hne⟩
                · rw [token_eq_of_id hs2.token_pk ht0 hvm hid0']; exact hvd
                · exact absurd hid hne
          · rw [rippleInsert_fits pl fuel db db2 slot u token h hf hu]
            dsimp only
            rintro ⟨t, ht, htd, hst⟩
            exfalso
            obtain ⟨htm, hne0⟩ := hwait t ht hst
            have := hothers ⟨t, htm, htd, hst, hne0⟩ slot hslm hsd
            rw [hs0eq] at hu1 hu2
            omega

/-- A successful booking for the owner leaves nobody of the owner waiting
beside a slot with room. -/
theorem allocateToken_noIdle {pl : Planner} {clk : Clock} {db db' : Db} {data : BookRequest}
    {tok : Token} (hb : Bounded db) (hn : NoIdleWaiting db data.doctorId)
    (h : allocateToken pl clk db data = (db', .ok tok)) : NoIdleWaiting db' data.doctorId := by
  rcases allocateToken_ok h with ⟨slot, db1, hfind, hcr, hinc⟩ | ⟨hnone, _, hcr⟩
  · have hslot := (mem_findByDoctorId pl db data.doctorId slot).mp
      (List.mem_of_find?_eq_some hfind)
    have hroom : slot.used < slot.capacity := by simpa using List.find?_some hfind
    obtain ⟨_, _, _, _, _, _, _, hst, _, _, ht1, _⟩ := create_ok hcr
    simp only at hst
    rintro ⟨t, ht, htd, htw⟩
    exfalso
    rw [(increment_ok hinc).1, ht1] at ht
    rcases List.mem_append.mp ht with htm | htm
    · have := hn ⟨t, htm, htd, htw⟩ slot hslot.1 hslot.2
      omega
    · simp only [List.mem_singleton] at htm
      rw [htm, hst] at htw
      cases htw
  · have hs1 : db'.slots = db.slots := (create_ok hcr).2.2.2.2.2.2.2.2.2.1
    intro _ s hsm hsd
    rw [hs1] at hsm
    have hmem : s ∈ Slot.findByDoctorId pl db data.doctorId :=
      (mem_findByDoctorId pl db data.doctorId s).mpr ⟨hsm, hsd⟩
    have hno := List.find?_eq_none.mp hnone s hmem
    simp only [decide_eq_true_eq] at hno
    have := hb s hsm
    omega

/-- A successful emergency insertion for the owner leaves nobody of the owner
waiting beside a slot with room. -/
theorem insertEmergency_noIdle {pl : Planner} {clk : Clock} {db : Db} {data : EmergencyRequest}
    {tok : Token} (hd : Sound db) (hdist : DistinctStarts db data.doctorId)
    (hn : NoIdleWaiting db data.doctorId)
    (h : (insertEmergency pl clk db data).result = Outcome.ok tok) :
    NoIdleWaiting (insertEmergency pl clk db data).db data.doctorId := by
  obtain ⟨slot0, others, db1, hch, hcr, hres, hdb, _⟩ := insertEmergency_ok h
  obtain ⟨hs1, ho1, hsl1, ht1, hm0, hd0, htd, _, huniq, hfirst⟩ :=
    insertEmergency_start hd.schema hd.owners hch hcr
  rw [hdb]
  refine ripple_noIdle pl data.doctorId _ db1 (some slot0) tok hs1 ho1 ?_ ?_ ?_ ?_ ?_ ?_ hres
  · intro s hsm
    rw [hsl1] at hsm
    exact hd.bounded s hsm
  · intro a ha b hb had hbd hst
    rw [hsl1] at ha hb
    exact hdist a ha b hb had hbd hst
  · intro s hs0
    injection hs0 with hs0
    subst hs0
    exact ⟨hm0, hd0⟩
  · intro s' hsm' hsd' hbefore
    exfalso
    rw [hsl1] at hsm'
    have h1 := hfirst s' hsm' hsd'
    have h2 := hbefore slot0 rfl
    omega
  · rintro ⟨t, ht, htd', hst, hne⟩ s hsm hsd
    rw [hsl1] at hsm
    rw [ht1] at ht
    rcases List.mem_append.mp ht with htm | htm
    · exact hn ⟨t, htm, htd', hst⟩ s hsm hsd
    · simp only [List.mem_singleton] at htm
      rw [htm] at hne
      exact absurd rfl hne
  · intro t ht hid
    rw [huniq t ht hid]; exact htd

/-- A token that is WAITING after `Token.cancel` was WAITING before. -/
theorem waiting_of_cancel {db : Db} {i : Nat} {t : Token} (h : t ∈ (Token.cancel db i).tokens)
    (hst : t.status = Status.WAITING) : t ∈ db.tokens := by
  rcases mem_cancel h with ⟨t0, _, _, rfl⟩ | ⟨htm, _⟩
  · cases hst
  · exact htm

/-- A successful cancellation of a token of the owner leaves nobody of the
owner waiting beside a slot with room. -/
theorem cancelToken_noIdle {pl : Planner} {db db' : Db} {tokenId d : Nat} {msg : String}
    (hd : Sound db) (hn : NoIdleWaiting db d)
    (hown : ∀ t ∈ db.tokens, t.id = tokenId → t.doctor_id = d)
    (h : cancelToken pl db tokenId = (db', .ok msg)) : NoIdleWaiting db' d := by
  obtain ⟨token, hfind, _, hcase⟩ := cancelToken_ok h
  obtain ⟨htm, hid⟩ := token_findById_mem hfind
  have htd : token.doctor_id = d := hown token htm hid
  rcases hcase with ⟨slotId, hconf, hsl, hcase⟩ | ⟨_, rfl⟩
  · obtain ⟨hslot, _⟩ := truthyId_some hsl
    rcases hcase with ⟨hw, rfl⟩ | ⟨w, rest, db3, hw, hinc, rfl⟩
    · rintro ⟨t, ht, htd', hst⟩
      exfalso
      have ht0 := waiting_of_cancel ht hst
      have hmem := (mem_findWaiting pl (Slot.decrementUsage db slotId) token.doctor_id t).mpr
        ⟨ht0, htd'.trans htd.symm, hst⟩
      rw [hw] at hmem
      cases hmem
    · obtain ⟨ht3, _, hs3, _⟩ := increment_ok hinc
      have hslots : (Token.cancel db3 tokenId).slots = db.slots := by
        rw [token_cancel_slots, hs3, token_update_slots, decrement_slots]
        apply increment_decrement
        intro s hsm hk
        rw [hd.consistent.used_counts s hsm, hk]
        exact occupancy_pos htm hconf hslot
      rintro ⟨t, ht, htd', hst⟩ s hsm hsd
      rw [hslots] at hsm
      have ht0 := waiting_of_cancel ht hst
      rw [ht3] at ht0
      rcases mem_update ht0 with ⟨t0, _, _, rfl⟩ | ⟨ht1, _⟩
      · cases hst
      · rw [decrement_tokens] at ht1
        exact hn ⟨t, ht1, htd', hst⟩ s hsm hsd
  · rintro ⟨t, ht, htd', hst⟩ s hsm hsd
    rw [token_cancel_slots] at hsm
    exact hn ⟨t, waiting_of_cancel ht hst, htd', hst⟩ s hsm hsd

/-- Every successful operation, for whatever owner, leaves nobody of the owner
waiting beside a slot with room. -/
theorem succeeds_noIdle {db db' : Db} {d : Nat} (hd : Sound db) (hdist : DistinctStarts db d)
    (hn : NoIdleWaiting db d) (h : Succeeds db db') : NoIdleWaiting db' d := by
  cases h with
  | book pl clk _ _ data tok h =>
    by_cases hdd : data.doctorId = d
    · subst hdd
      exact allocateToken_noIdle hd.bounded hn h
    · have := allocateToken_frame pl clk db data d hdd hd.schema
      rw [h] at this
      exact noIdle_of_sameFor this hn
  | emergency pl clk _ data tok h =>
    by_cases hdd : data.doctorId = d
    · subst hdd
      exact insertEmergency_noIdle hd hdist hn h
    · exact noIdle_of_sameFor
        (insertEmergency_frame pl clk db data d hdd hd.schema hd.owners) hn
  | cancel pl _ _ tokenId msg h =>
    obtain ⟨token, hfind, _, _⟩ := cancelToken_ok h
    obtain ⟨htm, hid⟩ := token_findById_mem hfind
    have hown : ∀ t ∈ db.tokens, t.id = tokenId → t.doctor_id = token.doctor_id := by
      intro t ht hidt
      rw [token_eq_of_id hd.schema.token_pk ht htm (hidt.trans hid.symm)]
    by_cases hdd : token.doctor_id = d
    · rw [hdd] at hown
      exact cancelToken_noIdle hd hn hown h
    · have := cancelToken_frame pl db tokenId token.doctor_id d hdd hd.schema hd.owners hown
      rw [h] at this
      exact noIdle_of_sameFor this hn

/-- An empty store, with no token, no seat taken and no negative capacity, is
sound when its slots obey the schema. -/
theorem sound_of_empty {db : Db} (hs : Schema db) (hempty : db.tokens = [])
    (hzero : ∀ s ∈ db.slots, s.used = 0) (hcap : ∀ s ∈ db.slots, 0 ≤ s.capacity) :
    Sound db := by
  refine ⟨hs, ⟨?_, ?_, ?_⟩, ?_, ?_⟩
  · intro t ht; rw [hempty] at ht; cases ht
  · intro t ht; rw [hempty] at ht; cases ht
  · intro s hsm
    rw [hzero s hsm]
    unfold occupancy
    rw [hempty]
    rfl
  · intro t ht; rw [hempty] at ht; cases ht
  · intro s hsm
    rw [hzero s hsm]
    exact hcap s hsm

/-- What holds after every sequence of successful operations from an empty
store with no negative capacity. -/
theorem reachable_noIdle {init db : Db} {d : Nat} (hs : Schema init)
    (hempty : init.tokens = []) (hzero : ∀ s ∈ init.slots, s.used = 0)
    (hcap : ∀ s ∈ init.slots, 0 ≤ s.capacity)
    (hdist : DistinctStarts init d) (hrun : Relation.ReflTransGen Succeeds init db) :
    Sound db ∧ DistinctStarts db d ∧ NoIdleWaiting db d := by
  induction hrun with
  | refl =>
    refine ⟨sound_of_empty hs hempty hzero hcap, hdist, ?_⟩
    rintro ⟨t, ht, _, _⟩
    rw [hempty] at ht
    cases ht
  | tail _ hstep ih =>
    obtain ⟨hd, hdi, hn⟩ := ih
    exact ⟨succeeds_sound hd hstep, distinctStarts_of_keys (succeeds_keys hd hstep) hdi,
      succeeds_noIdle hd hdi hn hstep⟩

/-- Claim C20 (counterexample). The store `tightDb` has no token, `used = 0`,
one slot with the serial id 1, and so distinct start times; its slot has
capacity -1.  A booking for doctor 7 succeeds and leaves its token WAITING,
while the slot of the doctor has `used = 0`, which is not its capacity. -/
theorem idle_waiting_counterexample :
    tightDb.tokens = [] ∧ (∀ s ∈ tightDb.slots, s.used = 0) ∧ DistinctStarts tightDb 7 ∧
    (tightDb.slots.map (fun s => s.id)).Nodup ∧ (∀ s ∈ tightDb.slots, s.id ≠ 0) ∧
    allocateToken Planner.heapOrder sampleClock tightDb ⟨"a", 7, "WALKIN"⟩ =
      (⟨[⟨1, 7, 900, -1, 0⟩], [⟨1, "a", 7, none, "WALKIN", 20, Status.WAITING, 30⟩], 2⟩,
       .ok ⟨1, "a", 7, none, "WALKIN", 20, Status.WAITING, 30⟩) ∧
    ((⟨1, 7, 900, -1, 0⟩ : Slot).used : Int) ≠ (⟨1, 7, 900, -1, 0⟩ : Slot).capacity := by
  refine ⟨rfl, by decide, by unfold DistinctStarts; decide, by decide, by decide, by decide!,
    by decide⟩

/-- Claim C20 (amended). No waiting while capacity is spare.  Start from a
store with no token, every `used` counter at 0 and no negative capacity, whose
slot ids are distinct and nonzero (the serial primary key), and take an owner
whose slots start at pairwise distinct times.  After every finite sequence of
successful calls of `allocateToken`, `insertEmergency` and `cancelToken`, for
any owners and with any planner and clock, if some token of the owner is
WAITING then every slot of the owner has `used = capacity`. -/
theorem no_idle_waiting (init db : Db) (d : Nat)
    (hpk : (init.slots.map (fun s => s.id)).Nodup) (hserial : ∀ s ∈ init.slots, s.id ≠ 0)
    (hempty : init.tokens = []) (hzero : ∀ s ∈ init.slots, s.used = 0)
    (hcap : ∀ s ∈ init.slots, 0 ≤ s.capacity)
    (hdist : DistinctStarts init d) (hrun : Relation.ReflTransGen Succeeds init db) :
    (∃ t ∈ db.tokens, t.doctor_id = d ∧ t.status = Status.WAITING) →
      ∀ s ∈ db.slots, s.doctor_id = d → (s.used : Int) = s.capacity := by
  have hs : Schema init := by
    refine ⟨hpk, ?_, hserial, ?_, ?_, ?_⟩
    · rw [hempty]; exact List.nodup_nil
    · intro t ht; rw [hempty] at ht; cases ht
    · intro t ht; rw [hempty] at ht; cases ht
    · intro s hsm
      rw [hzero s hsm]
      have := hcap s hsm
      omega
  exact (reachable_noIdle hs hempty hzero hcap hdist hrun).2.2

/-- Instance of the amended C20: after two bookings for doctor 7 on the fresh store the
second token waits, and nobody of doctor 7 waits beside a slot with room. -/
theorem no_idle_waiting_witness :
    NoIdleWaiting (allocateToken Planner.heapOrder sampleClock
        (allocateToken Planner.heapOrder sampleClock freshDb ⟨"a", 7, "WALKIN"⟩).1
        ⟨"b", 7, "WALKIN"⟩).1 7 ∧
    ∃ t ∈ (allocateToken Planner.heapOrder sampleClock
        (allocateToken Planner.heapOrder sampleClock freshDb ⟨"a", 7, "WALKIN"⟩).1
        ⟨"b", 7, "WALKIN"⟩).1.tokens, t.doctor_id = 7 ∧ t.status = Status.WAITING :=
  ⟨no_idle_waiting freshDb _ 7 (by decide) (by decide) rfl (by decide) (by decide)
    (by unfold DistinctStarts; decide)
    (Relation.ReflTransGen.tail
      (Relation.ReflTransGen.single
        (Succeeds.book Planner.heapOrder sampleClock freshDb
          (allocateToken Planner.heapOrder sampleClock freshDb ⟨"a", 7, "WALKIN"⟩).1
          ⟨"a", 7, "WALKIN"⟩ ⟨1, "a", 7, some 1, "WALKIN", 20, Status.CONFIRMED, 30⟩
          (by decide!)))
      (Succeeds.book Planner.heapOrder sampleClock
        (allocateToken Planner.heapOrder sampleClock freshDb ⟨"a", 7, "WALKIN"⟩).1
        (allocateToken Planner.heapOrder sampleClock
          (allocateToken Planner.heapOrder sampleClock freshDb ⟨"a", 7, "WALKIN"⟩).1
          ⟨"b", 7, "WALKIN"⟩).1
        ⟨"b", 7, "WALKIN"⟩ ⟨2, "b", 7, none, "WALKIN", 20, Status.WAITING, 30⟩ (by decide!))),
   ⟨⟨2, "b", 7, none, "WALKIN", 20, Status.WAITING, 30⟩, by decide!, rfl, rfl⟩⟩

end OPD
